import Mathlib

/-!
# Mesh partitioning callbacks of `Mesh/uTests/utest-zoltan.cpp`

A shallow embedding of the graph-query and migration callbacks of
`ZoltanTests_Fixture` together with the properties they satisfy.  The group
registry of `Common/MPI/CPEManager.cpp` follows in the namespace `mpi`.

Conventions of the embedding.

* `Uint` quantities (row indices, global indices, counters) are natural
  numbers.  Mesh sizes, ids and edge counts are taken to lie in the range of
  `Uint` and of `int`, so no sum wraps and the `(int)` casts in the id
  comparisons preserve values.
* A `Real` is carried as its bit pattern (a natural number): the callbacks
  only copy coordinates, they never compute with them.
* A mesh is the list of its coordinate components (each coordinate table with
  the `is_ghost`, `global_node_indices` and `glb_elem_connectivity` tables
  tagged onto it) followed by the list of its element components, both in the
  traversal order of `recursive_filtered_range_typed` / `recursive_range_typed`.
* The callbacks are registered with one id word per global id and two per
  local id (`IDX`, `COMP`).
* A process group is the list of the meshes held by ranks `0, 1, ...`.
-/

namespace ZoltanTests

/-- Status codes written to `*ierr` by the callbacks. -/
inductive ZoltanStatus
  | ZOLTAN_OK
  | ZOLTAN_FATAL
  deriving DecidableEq, Repr

open ZoltanStatus

/-- Embeds `CTable<T>`: a table whose rows all have the width `row_size`. -/
structure CTable (α : Type) where
  row_size : Nat
  array : List (List α)
  deriving DecidableEq, Repr

/-- Number of rows of a `CTable`. -/
def CTable.size {α : Type} (t : CTable α) : Nat :=
  t.array.length

/-- Type invariant of `CTable`: every row has `row_size` entries. -/
def CTable.wf {α : Type} (t : CTable α) : Prop :=
  ∀ row ∈ t.array, row.length = t.row_size

/-- A coordinate table with the three node tables tagged onto it. -/
structure CoordComp where
  coordinates : CTable Nat
  is_ghost : List Bool
  global_node_indices : List Nat
  glb_elem_connectivity : List (List Nat)
  deriving DecidableEq, Repr

/-- A `CElements` component: its connectivity table, the position (in the
list of coordinate components of the mesh) of the table `coordinates()` refers to,
and its `global_element_indices` list. -/
structure CElements where
  connectivity_table : CTable Nat
  coordinates : Nat
  global_element_indices : List Nat
  deriving DecidableEq, Repr

/-- The mesh as the callbacks see it, with the properties `nb_nodes`,
`nb_cells` and the two properties of `temporary_partition_info`. -/
structure CMesh where
  coords : List CoordComp
  elems : List CElements
  nb_nodes : Nat
  nb_cells : Nat
  node_start_idx : Nat
  elem_start_idx : Nat
  deriving DecidableEq, Repr

/-- A local id as Zoltan stores it: `loc_id[IDX]` and `loc_id[COMP]`. -/
structure LocalID where
  IDX : Nat
  COMP : Nat
  deriving DecidableEq, Repr

/-- One object reported to Zoltan: `glb_idx[IDX]` and its local id. -/
structure ObjEntry where
  glb : Nat
  loc : LocalID
  deriving DecidableEq, Repr

/-- The empty coordinate component, read where an index is out of range. -/
def CoordComp.empty : CoordComp :=
  ⟨⟨0, []⟩, [], [], []⟩

/-- The coordinate component at position `k` of the mesh. -/
def CMesh.coordComp (mesh : CMesh) (k : Nat) : CoordComp :=
  mesh.coords.getD k CoordComp.empty

/-! ## Owner hash -/

/-- Embeds `hash_proc_nodes`: `np` is `PE::instance().size()`.  The source computes in
`Real`; on `Uint` operands the quotient followed by `std::floor` is the
integer quotient.  A part size of `0` makes the `Real` quotient infinite (or
NaN), and `std::min(np-1, .)` then yields `np-1`. -/
def hash_proc_nodes (np : Nat) (mesh : CMesh) (glb_idx : Nat) : Nat :=
  let nb_nodes := mesh.nb_nodes
  let part_size := nb_nodes / np
  if part_size = 0 then np - 1 else min (np - 1) (glb_idx / part_size)

/-- Embeds `hash_proc_elems`: the same computation over `nb_cells`. -/
def hash_proc_elems (np : Nat) (mesh : CMesh) (glb_idx : Nat) : Nat :=
  let nb_cells := mesh.nb_cells
  let part_size := nb_cells / np
  if part_size = 0 then np - 1 else min (np - 1) (glb_idx / part_size)

/-! ## Object count and object list -/

/-- Modelled from the spec: `CRegion::recursive_elements_count` is declared
outside the given sources; it counts the elements of the region, that is the
rows of every element connectivity table. -/
def recursive_elements_count (mesh : CMesh) : Nat :=
  (mesh.elems.map (fun e => e.connectivity_table.size)).sum

/-- Inner loop of `get_number_of_objects_mesh` over one `is_ghost` list. -/
def count_non_ghost (nb_nodes : Nat) : List Bool → Nat
  | [] => nb_nodes
  | is_node_ghost :: rest =>
      if !is_node_ghost then count_non_ghost (nb_nodes + 1) rest
      else count_non_ghost nb_nodes rest

/-- Outer loop of `get_number_of_objects_mesh` over the `is_ghost` lists. -/
def count_non_ghost_comps (nb_nodes : Nat) : List CoordComp → Nat
  | [] => nb_nodes
  | c :: rest => count_non_ghost_comps (count_non_ghost nb_nodes c.is_ghost) rest

/-- Embeds `get_number_of_objects_mesh`: the returned count and `*ierr`. -/
def get_number_of_objects_mesh (mesh : CMesh) : Nat × ZoltanStatus :=
  let nb_nodes := count_non_ghost_comps 0 mesh.coords
  let nb_elems := recursive_elements_count mesh
  (nb_nodes + nb_elems, ZOLTAN_OK)

/-- Node loop of `get_object_list_mesh` over one `global_node_indices` list:
`idx` is the running row index. -/
def object_list_node_rows (node_start_idx component_idx : Nat) (is_ghost : List Bool) :
    Nat → List Nat → List ObjEntry
  | _, [] => []
  | idx, glb_node_idx :: rest =>
      if !(is_ghost.getD idx true) then
        ⟨node_start_idx + glb_node_idx, ⟨idx, component_idx⟩⟩ ::
          object_list_node_rows node_start_idx component_idx is_ghost (idx + 1) rest
      else object_list_node_rows node_start_idx component_idx is_ghost (idx + 1) rest

/-- Loop of `get_object_list_mesh` over the coordinate components;
`component_idx` is the running component index. -/
def object_list_nodes (node_start_idx : Nat) : Nat → List CoordComp → List ObjEntry
  | _, [] => []
  | component_idx, c :: rest =>
      object_list_node_rows node_start_idx component_idx c.is_ghost 0 c.global_node_indices ++
        object_list_nodes node_start_idx (component_idx + 1) rest

/-- Element loop of `get_object_list_mesh` over one `global_element_indices`
list. -/
def object_list_elem_rows (elem_start_idx component_idx : Nat) : Nat → List Nat → List ObjEntry
  | _, [] => []
  | idx, glb_elm_idx :: rest =>
      ⟨elem_start_idx + glb_elm_idx, ⟨idx, component_idx⟩⟩ ::
        object_list_elem_rows elem_start_idx component_idx (idx + 1) rest

/-- Loop of `get_object_list_mesh` over the element components; the component
index keeps counting from where the node loop stopped. -/
def object_list_elems (elem_start_idx : Nat) : Nat → List CElements → List ObjEntry
  | _, [] => []
  | component_idx, e :: rest =>
      object_list_elem_rows elem_start_idx component_idx 0 e.global_element_indices ++
        object_list_elems elem_start_idx (component_idx + 1) rest

/-- Embeds `get_object_list_mesh`: the entries written at positions `0, 1, ...` of
`globalID` / `localID` (so `zoltan_idx` is the length of the list) and
`*ierr`. -/
def get_object_list_mesh (mesh : CMesh) : List ObjEntry × ZoltanStatus :=
  let nodes := object_list_nodes mesh.node_start_idx 0 mesh.coords
  let elems := object_list_elems mesh.elem_start_idx mesh.coords.length mesh.elems
  let zoltan_idx := (nodes ++ elems).length
  let tot_nb_objects := (get_number_of_objects_mesh mesh).1
  (nodes ++ elems, if zoltan_idx > tot_nb_objects then ZOLTAN_FATAL else ZOLTAN_OK)

/-! ## Edge list -/

/-- Loop of `get_edges_list_mesh` over the rows of one `glb_elem_connectivity`
table: the pairs `(*nbor_glb_idx, *nbor_proc)` written, `i` being the running
row index. -/
def edges_from_node_rows (np : Nat) (mesh : CMesh) (is_ghost : List Bool) :
    Nat → List (List Nat) → List (Nat × Nat)
  | _, [] => []
  | i, glb_elms :: rest =>
      (if !(is_ghost.getD i true) then
        glb_elms.map (fun glb_elm => (mesh.elem_start_idx + glb_elm, hash_proc_elems np mesh glb_elm))
      else []) ++ edges_from_node_rows np mesh is_ghost (i + 1) rest

/-- First loop of `get_edges_list_mesh`: neighbours of the node vertices. -/
def edges_from_nodes (np : Nat) (mesh : CMesh) : List (Nat × Nat) :=
  mesh.coords.flatMap (fun c => edges_from_node_rows np mesh c.is_ghost 0 c.glb_elem_connectivity)

/-- Second loop of `get_edges_list_mesh`, one element component. -/
def edges_from_elem_rows (np : Nat) (mesh : CMesh) (elements : CElements) : List (Nat × Nat) :=
  let glb_node_idx := (mesh.coordComp elements.coordinates).global_node_indices
  elements.connectivity_table.array.flatMap (fun local_nodes =>
    local_nodes.map (fun loc_node =>
      (mesh.node_start_idx + glb_node_idx.getD loc_node 0,
        hash_proc_nodes np mesh (glb_node_idx.getD loc_node 0))))

/-- Second loop of `get_edges_list_mesh`: neighbours of the element vertices. -/
def edges_from_elems (np : Nat) (mesh : CMesh) : List (Nat × Nat) :=
  mesh.elems.flatMap (fun elements => edges_from_elem_rows np mesh elements)

/-- Embeds `boost::mpi::all_reduce` with `std::plus`: every rank receives the sum of
the values contributed by all ranks. -/
def all_reduce_plus (contributions : List Nat) : Nat :=
  contributions.sum

/-- What `get_edges_list_mesh` leaves behind on one rank. -/
structure EdgesResult where
  nbor : List (Nat × Nat)
  num_edges_from_nodes : Nat
  num_edges_from_elems : Nat
  total_num_edges_from_nodes : Nat
  total_num_edges_from_elems : Nat
  ierr : ZoltanStatus
  deriving DecidableEq, Repr

/-- Embeds `get_edges_list_mesh` on the rank holding `mesh`, inside the process group
`world`.  The two counters are incremented once per written neighbour, so
they are the lengths of the two written segments. -/
def get_edges_list_mesh (world : List CMesh) (mesh : CMesh) : EdgesResult :=
  let np := world.length
  let from_nodes := edges_from_nodes np mesh
  let from_elems := edges_from_elems np mesh
  let total_num_edges_from_nodes :=
    all_reduce_plus (world.map (fun m => (edges_from_nodes np m).length))
  let total_num_edges_from_elems :=
    all_reduce_plus (world.map (fun m => (edges_from_elems np m).length))
  { nbor := from_nodes ++ from_elems
    num_edges_from_nodes := from_nodes.length
    num_edges_from_elems := from_elems.length
    total_num_edges_from_nodes := total_num_edges_from_nodes
    total_num_edges_from_elems := total_num_edges_from_elems
    ierr := if total_num_edges_from_nodes ≠ total_num_edges_from_elems then ZOLTAN_FATAL
            else ZOLTAN_OK }

/-! ## Row buffers -/

/-- Modelled from the spec: the `Buffer` classes of `CTable`, `CList` and
`CDynTable` are declared outside the given sources.  They provide "buffered
row add/remove operations with rollback-free apply-on-flush semantics": a
buffer records the rows handed to `rm_row` and `add_row` and applies them to
its table when it is flushed (on destruction). -/
structure Buffer (α : Type) where
  removed : List Nat
  added : List α
  deriving DecidableEq, Repr

/-- Embeds `create_buffer()`. -/
def Buffer.create {α : Type} : Buffer α :=
  ⟨[], []⟩

/-- Embeds `rm_row(i)`. -/
def Buffer.rm_row {α : Type} (b : Buffer α) (i : Nat) : Buffer α :=
  { b with removed := b.removed ++ [i] }

/-- Embeds `add_row(row)`. -/
def Buffer.add_row {α : Type} (b : Buffer α) (row : α) : Buffer α :=
  { b with added := b.added ++ [row] }

/-- Modelled from the spec: the rows of a table of `n` rows that remain after
the rows `removed` were taken out, in the order in which the flushed table
holds them.  How a flush compacts a table is not visible in the given
sources; it depends on the size and the removed rows only, and is the same
for every buffer class. -/
abbrev Compaction := Nat → List Nat → List Nat

/-- What every compaction has to do: keep exactly the rows not removed. -/
def Compaction.keeps_unremoved (order : Compaction) : Prop :=
  ∀ n removed, removed.Nodup → (∀ i ∈ removed, i < n) →
    (order n removed).Perm ((List.range n).filter (fun i => decide (i ∉ removed)))

/-- The compaction that keeps the remaining rows in their order. -/
def Compaction.stable : Compaction :=
  fun n removed => (List.range n).filter (fun i => decide (i ∉ removed))

/-- Modelled from the spec: flushing a buffer.  With no row removed the table
keeps its rows and the added rows are appended; otherwise the remaining rows
are laid out by the compaction and the added rows follow. -/
def Buffer.flush {α : Type} (order : Compaction) (table : List α) (b : Buffer α) : List α :=
  match b.removed with
  | [] => table ++ b.added
  | i :: rest => (order table.length (i :: rest)).filterMap (fun j => table[j]?) ++ b.added

/-- The four buffers opened on one coordinate component. -/
structure NodeBuffers where
  buffer_is_ghost : Buffer Bool
  buffer_global_node_indices : Buffer Nat
  buffer_coordinates : Buffer (List Nat)
  buffer_glb_elem_connectivity : Buffer (List Nat)
  deriving DecidableEq, Repr

/-- The four buffers right after `create_buffer()`. -/
def NodeBuffers.create : NodeBuffers :=
  ⟨Buffer.create, Buffer.create, Buffer.create, Buffer.create⟩

/-- Destruction of the four buffers: each flushes into its own table. -/
def NodeBuffers.flush (order : Compaction) (c : CoordComp) (b : NodeBuffers) : CoordComp :=
  { coordinates := { c.coordinates with
      array := b.buffer_coordinates.flush order c.coordinates.array }
    is_ghost := b.buffer_is_ghost.flush order c.is_ghost
    global_node_indices := b.buffer_global_node_indices.flush order c.global_node_indices
    glb_elem_connectivity :=
      b.buffer_glb_elem_connectivity.flush order c.glb_elem_connectivity }

/-! ## Ghost removal -/

/-- Body of the row loop of `rm_ghost_nodes` for row `i`. -/
def rm_ghost_step (is_ghost : List Bool) (b : NodeBuffers) (i : Nat) : NodeBuffers :=
  if is_ghost.getD i false then
    { buffer_is_ghost := b.buffer_is_ghost.rm_row i
      buffer_global_node_indices := b.buffer_global_node_indices.rm_row i
      buffer_coordinates := b.buffer_coordinates.rm_row i
      buffer_glb_elem_connectivity := b.buffer_glb_elem_connectivity.rm_row i }
  else b

/-- One iteration of the component loop of `rm_ghost_nodes`: the buffers are
created, the rows `0 .. coordinates.size()-1` are visited, and the buffers
flush when they go out of scope. -/
def rm_ghost_comp (order : Compaction) (c : CoordComp) : CoordComp :=
  let buffers := (List.range c.coordinates.size).foldl (rm_ghost_step c.is_ghost) NodeBuffers.create
  buffers.flush order c

/-- Embeds `rm_ghost_nodes` (its second loop only logs the sizes). -/
def rm_ghost_nodes (order : Compaction) (mesh : CMesh) : CMesh :=
  { mesh with coords := mesh.coords.map (rm_ghost_comp order) }

/-! ## Renumbering of the element connectivity -/

/-- Apply `f` to every entry of every row of a connectivity table. -/
def CTable.map_entries (f : Nat → Nat) (t : CTable Nat) : CTable Nat :=
  { t with array := t.array.map (fun nodes => nodes.map f) }

/-- Embeds `give_elems_global_node_numbers`. -/
def give_elems_global_node_numbers (mesh : CMesh) : CMesh :=
  { mesh with elems := mesh.elems.map (fun elements =>
      let global_node_indices := (mesh.coordComp elements.coordinates).global_node_indices
      { elements with connectivity_table :=
          elements.connectivity_table.map_entries (fun node => global_node_indices.getD node 0) }) }

/-- Embeds `std::map<Uint,Uint>`. -/
abbrev StdMap := Nat → Option Nat

/-- Embeds `m[k] = v`. -/
def StdMap.assign (m : StdMap) (k v : Nat) : StdMap :=
  fun k2 => if k2 = k then some v else m k2

/-- Reading `m[k]`: a key that is absent is value-initialised to `0`. -/
def StdMap.at (m : StdMap) (k : Nat) : Nat :=
  (m k).getD 0

/-- Row loop of the first part of `give_elems_local_node_numbers`. -/
def glb_to_loc_rows (c : CoordComp) (glb_to_loc : StdMap) : StdMap :=
  (List.range c.coordinates.size).foldl
    (fun m i => m.assign (c.global_node_indices.getD i 0) i) glb_to_loc

/-- First part of `give_elems_local_node_numbers`: the map `glb_to_loc`. -/
def build_glb_to_loc (coords : List CoordComp) : StdMap :=
  coords.foldl (fun m c => glb_to_loc_rows c m) (fun _ => none)

/-- Embeds `give_elems_local_node_numbers`. -/
def give_elems_local_node_numbers (mesh : CMesh) : CMesh :=
  let glb_to_loc := build_glb_to_loc mesh.coords
  { mesh with elems := mesh.elems.map (fun elements =>
      { elements with connectivity_table :=
          elements.connectivity_table.map_entries (fun node => glb_to_loc.at node) }) }

/-! ## Byte buffers -/

/-- The `char *buf` handed to the pack and unpack callbacks: one byte per
address. -/
abbrev ByteBuf := Nat → Nat

/-- The `w` bytes of the word `v`, least significant first. -/
def encode_word : Nat → Nat → List Nat
  | 0, _ => []
  | w + 1, v => v % 256 :: encode_word w (v / 256)

/-- The word held by a sequence of bytes, least significant first. -/
def decode_word : List Nat → Nat
  | [] => 0
  | b :: rest => b + 256 * decode_word rest

/-- Store `bytes` from address `p` on. -/
def write_bytes (buf : ByteBuf) (p : Nat) (bytes : List Nat) : ByteBuf :=
  fun a => if p ≤ a ∧ a < p + bytes.length then bytes.getD (a - p) 0 else buf a

/-- The `n` bytes from address `p` on. -/
def read_bytes (buf : ByteBuf) (p n : Nat) : List Nat :=
  (List.range n).map (fun i => buf (p + i))

/-- Embeds `*ptr++ = v` through a pointer to words of `w` bytes: the state is the
buffer and the pointer. -/
def store (w : Nat) (s : ByteBuf × Nat) (v : Nat) : ByteBuf × Nat :=
  (write_bytes s.1 s.2 (encode_word w v), s.2 + w)

/-- Embeds `*ptr++` through a pointer to words of `w` bytes: the word read and the
advanced pointer. -/
def load (w : Nat) (buf : ByteBuf) (p : Nat) : Nat × Nat :=
  (decode_word (read_bytes buf p w), p + w)

/-- Reads `n` successive words of `w` bytes by `*ptr++`, from `p` on. -/
def load_many (w : Nat) (buf : ByteBuf) (p : Nat) : Nat → List Nat
  | 0 => []
  | n + 1 => (load w buf p).1 :: load_many w buf (load w buf p).2 n

/-! ## Node migration -/

/-- The coordinate row a local id points at. -/
def CMesh.coord_row (mesh : CMesh) (loc_id : LocalID) : List Nat :=
  (mesh.coordComp loc_id.COMP).coordinates.array.getD loc_id.IDX []

/-- The row of `glb_elem_connectivity` a local id points at. -/
def CMesh.glb_elems_row (mesh : CMesh) (loc_id : LocalID) : List Nat :=
  (mesh.coordComp loc_id.COMP).glb_elem_connectivity.getD loc_id.IDX []

/-- Embeds `get_nodes_sizes`: the array `sizes` and `*ierr`.  The vector `components`
lists the coordinate tables first, so for a node entry `components[COMP]` is
the coordinate table of component `COMP`. -/
def get_nodes_sizes (sizeof_Uint sizeof_Real : Nat) (mesh : CMesh)
    (globalIDs : List Nat) (localIDs : List LocalID) : List Nat × ZoltanStatus :=
  (List.zipWith (fun glb_id loc_id =>
      if glb_id < mesh.elem_start_idx then
        sizeof_Uint
          + sizeof_Real * (mesh.coordComp loc_id.COMP).coordinates.row_size
          + sizeof_Uint * (1 + (mesh.glb_elems_row loc_id).length)
      else 0) globalIDs localIDs,
   ZOLTAN_OK)

/-- The writes of `pack_nodes_messages` for one node, starting at address
`start`: the component number, the coordinates of the row, the number of
referencing elements and their global indices.  Returns the buffer and the
pointer behind the last word written. -/
def pack_node (sizeof_Uint sizeof_Real : Nat) (mesh : CMesh) (loc_id : LocalID)
    (buf : ByteBuf) (start : Nat) : ByteBuf × Nat :=
  let component_number := store sizeof_Uint (buf, start) loc_id.COMP
  let coord_row_buf := (mesh.coord_row loc_id).foldl (store sizeof_Real) component_number
  let glb_elm_idx_buf := store sizeof_Uint coord_row_buf (mesh.glb_elems_row loc_id).length
  (mesh.glb_elems_row loc_id).foldl (store sizeof_Uint) glb_elm_idx_buf

/-- Embeds `list_of_is_ghost[comp]->array()[idx] = true`. -/
def mark_ghost (coords : List CoordComp) (loc_id : LocalID) : List CoordComp :=
  coords.modify (fun c => { c with is_ghost := c.is_ghost.set loc_id.IDX true }) loc_id.COMP

/-- Body of the id loop of `pack_nodes_messages` for one entry of the id
list, `start` being `idx[id]`. -/
def pack_nodes_step (sizeof_Uint sizeof_Real : Nat) (s : CMesh × ByteBuf)
    (entry : Nat × LocalID × Nat) : CMesh × ByteBuf :=
  let glb_id := entry.1
  let loc_id := entry.2.1
  let start := entry.2.2
  if glb_id < s.1.elem_start_idx then
    ({ s.1 with coords := mark_ghost s.1.coords loc_id },
      (pack_node sizeof_Uint sizeof_Real s.1 loc_id s.2 start).1)
  else s

/-- Embeds `pack_nodes_messages`: the mesh and the buffer after the call, and
`*ierr`. -/
def pack_nodes_messages (sizeof_Uint sizeof_Real : Nat) (mesh : CMesh)
    (globalIDs : List Nat) (localIDs : List LocalID) (idx : List Nat) (buf : ByteBuf) :
    CMesh × ByteBuf × ZoltanStatus :=
  let s := (globalIDs.zip (localIDs.zip idx)).foldl
    (pack_nodes_step sizeof_Uint sizeof_Real) (mesh, buf)
  (s.1, s.2, ZOLTAN_OK)

/-- What `unpack_nodes_messages` reads for one incoming node. -/
structure NodeMessage where
  comp_idx : Nat
  coord_vec : List Nat
  elems : List Nat
  last : Nat
  deriving DecidableEq, Repr

/-- The reads of `unpack_nodes_messages` for one node, starting at address
`start`: the component number, two coordinates (`coord_vec` has two entries),
the number of referencing elements and that many global indices.  `last` is
the pointer behind the last word read. -/
def unpack_node (sizeof_Uint sizeof_Real : Nat) (buf : ByteBuf) (start : Nat) : NodeMessage :=
  let component_number := load sizeof_Uint buf start
  let coord0 := load sizeof_Real buf component_number.2
  let coord1 := load sizeof_Real buf coord0.2
  let count := load sizeof_Uint buf coord1.2
  { comp_idx := component_number.1
    coord_vec := [coord0.1, coord1.1]
    elems := load_many sizeof_Uint buf count.2 count.1
    last := count.2 + sizeof_Uint * count.1 }

/-- The four `add_row` calls of the unpack callbacks on the buffers of one
component. -/
def NodeBuffers.add_node (b : NodeBuffers) (coord_vec : List Nat) (ghost : Bool)
    (elems : List Nat) (glb_id : Nat) : NodeBuffers :=
  { buffer_coordinates := b.buffer_coordinates.add_row coord_vec
    buffer_is_ghost := b.buffer_is_ghost.add_row ghost
    buffer_glb_elem_connectivity := b.buffer_glb_elem_connectivity.add_row elems
    buffer_global_node_indices := b.buffer_global_node_indices.add_row glb_id }

/-- Body of the id loop of `unpack_nodes_messages` for one entry, `start`
being `idx[id]`: the state holds the buffers of all coordinate components. -/
def unpack_nodes_step (sizeof_Uint sizeof_Real : Nat) (buf : ByteBuf)
    (buffers : List NodeBuffers) (entry : Nat × Nat × Nat) : List NodeBuffers :=
  let glb_id := entry.1
  let size := entry.2.1
  let start := entry.2.2
  if size > 0 then
    let msg := unpack_node sizeof_Uint sizeof_Real buf start
    buffers.modify (fun b => b.add_node msg.coord_vec false msg.elems glb_id) msg.comp_idx
  else buffers

/-- Embeds `unpack_nodes_messages`: the mesh after the buffers were flushed, and
`*ierr`. -/
def unpack_nodes_messages (order : Compaction) (sizeof_Uint sizeof_Real : Nat) (mesh : CMesh)
    (globalIDs : List Nat) (sizes : List Nat) (idx : List Nat) (buf : ByteBuf) :
    CMesh × ZoltanStatus :=
  let buffers := (globalIDs.zip (sizes.zip idx)).foldl
    (unpack_nodes_step sizeof_Uint sizeof_Real buf) (mesh.coords.map (fun _ => NodeBuffers.create))
  ({ mesh with coords := List.zipWith (NodeBuffers.flush order) mesh.coords buffers }, ZOLTAN_OK)

/-! ## Edge counts -/

/-- Row loop of `get_num_edges_list_mesh` over one `glb_elem_connectivity`
table: the values written to `numEdges`, `i` being the running row index. -/
def num_edges_node_rows (is_ghost : List Bool) : Nat → List (List Nat) → List Nat
  | _, [] => []
  | i, glb_elms :: rest =>
      if !(is_ghost.getD i true) then
        glb_elms.length :: num_edges_node_rows is_ghost (i + 1) rest
      else num_edges_node_rows is_ghost (i + 1) rest

/-- First loop of `get_num_edges_list_mesh`: `numEdges` holds the values
written so far (so `zoltan_idx` is its length); the loop returns early with
`ZOLTAN_FATAL` when a component is entered with `zoltan_idx >= tot_nb_objects`. -/
def num_edges_nodes (tot_nb_objects : Nat) (numEdges : List Nat) :
    List CoordComp → List Nat × ZoltanStatus
  | [] => (numEdges, ZOLTAN_OK)
  | c :: rest =>
      if numEdges.length ≥ tot_nb_objects then (numEdges, ZOLTAN_FATAL)
      else num_edges_nodes tot_nb_objects
        (numEdges ++ num_edges_node_rows c.is_ghost 0 c.glb_elem_connectivity) rest

/-- Row loop of the second loop of `get_num_edges_list_mesh` over one
connectivity table, with the early return before each write. -/
def num_edges_elem_rows (tot_nb_objects : Nat) (numEdges : List Nat) :
    List (List Nat) → List Nat × ZoltanStatus
  | [] => (numEdges, ZOLTAN_OK)
  | local_nodes :: rest =>
      if numEdges.length ≥ tot_nb_objects then (numEdges, ZOLTAN_FATAL)
      else num_edges_elem_rows tot_nb_objects (numEdges ++ [local_nodes.length]) rest

/-- Second loop of `get_num_edges_list_mesh` over the element components. -/
def num_edges_elems (tot_nb_objects : Nat) (numEdges : List Nat) :
    List CElements → List Nat × ZoltanStatus
  | [] => (numEdges, ZOLTAN_OK)
  | elements :: rest =>
      match num_edges_elem_rows tot_nb_objects numEdges elements.connectivity_table.array with
      | (written, ZOLTAN_FATAL) => (written, ZOLTAN_FATAL)
      | (written, ZOLTAN_OK) => num_edges_elems tot_nb_objects written rest

/-- Embeds `get_num_edges_list_mesh`: the values written to `numEdges` and
`*ierr`. -/
def get_num_edges_list_mesh (mesh : CMesh) : List Nat × ZoltanStatus :=
  let tot_nb_objects := (get_number_of_objects_mesh mesh).1
  match num_edges_nodes tot_nb_objects [] mesh.coords with
  | (written, ZOLTAN_FATAL) => (written, ZOLTAN_FATAL)
  | (written, ZOLTAN_OK) => num_edges_elems tot_nb_objects written mesh.elems

/-! ## Ghost nodes to import -/

/-- Embeds `std::set<Uint>`. -/
abbrev StdSet := Finset Nat

/-- First loop of `get_ghost_nodes_to_import` (and of `post_migrate_elems`):
every entry of every connectivity row is inserted into the set. -/
def insert_connectivity (elems : List CElements) (nodes_needed : StdSet) : StdSet :=
  elems.foldl (fun s elements =>
    elements.connectivity_table.array.foldl (fun s nodes =>
      nodes.foldl (fun s node => insert node s) s) s) nodes_needed

/-- Second loop of `get_ghost_nodes_to_import`: every entry of every
`global_node_indices` list is erased from the set if it is found there. -/
def erase_resident (coords : List CoordComp) (nodes_needed : StdSet) : StdSet :=
  coords.foldl (fun s c =>
    c.global_node_indices.foldl (fun s node => if node ∈ s then s.erase node else s) s)
    nodes_needed

/-- Embeds `get_ghost_nodes_to_import`: the returned set, and the mesh as the
call leaves it (the function only reads the mesh). -/
def get_ghost_nodes_to_import (mesh : CMesh) : StdSet × CMesh :=
  let nodes_needed_by_elems := insert_connectivity mesh.elems ∅
  (erase_resident mesh.coords nodes_needed_by_elems, mesh)

/-! ## Element migration -/

/-- The empty element component, read where an index is out of range. -/
def CElements.empty : CElements :=
  ⟨⟨0, []⟩, 0, []⟩

/-- The entry `components[k]` taken as `CElements`: the vector `components`
lists the coordinate tables first and the element components after them. -/
def CMesh.elemComp (mesh : CMesh) (k : Nat) : CElements :=
  if k < mesh.coords.length then CElements.empty
  else mesh.elems.getD (k - mesh.coords.length) CElements.empty

/-- The connectivity row a local id points at. -/
def CMesh.elem_row (mesh : CMesh) (loc_id : LocalID) : List Nat :=
  (mesh.elemComp loc_id.COMP).connectivity_table.array.getD loc_id.IDX []

/-- Embeds `get_elems_sizes`: the array `sizes` and `*ierr`. -/
def get_elems_sizes (sizeof_Uint : Nat) (mesh : CMesh)
    (globalIDs : List Nat) (localIDs : List LocalID) : List Nat × ZoltanStatus :=
  (List.zipWith (fun glb_id loc_id =>
      if glb_id ≥ mesh.elem_start_idx then
        sizeof_Uint
          + sizeof_Uint * (mesh.elemComp loc_id.COMP).connectivity_table.row_size
      else 0) globalIDs localIDs,
   ZOLTAN_OK)

/-- The writes of `pack_elems_messages` for one element, starting at address
`start`: the component number and the nodes of the connectivity row.  Returns
the buffer and the pointer behind the last word written. -/
def pack_elem (sizeof_Uint : Nat) (mesh : CMesh) (loc_id : LocalID)
    (buf : ByteBuf) (start : Nat) : ByteBuf × Nat :=
  let component_number := store sizeof_Uint (buf, start) loc_id.COMP
  (mesh.elem_row loc_id).foldl (store sizeof_Uint) component_number

/-- The access `elem_buffer[comp]->...`: the vector `elem_buffer` holds a null
pointer for every coordinate table and, after them, one buffer per element
component, kept here as the list of the element buffers alone. -/
def at_elem_buffer (nb_coords : Nat) (elem_buffer : List (Buffer (List Nat)))
    (f : Buffer (List Nat) → Buffer (List Nat)) (comp : Nat) : List (Buffer (List Nat)) :=
  if comp < nb_coords then elem_buffer else elem_buffer.modify f (comp - nb_coords)

/-- Destruction of the element buffers: each flushes into its connectivity
table. -/
def flush_elem_buffers (order : Compaction) (elems : List CElements)
    (elem_buffer : List (Buffer (List Nat))) : List CElements :=
  List.zipWith (fun elements b =>
    { elements with connectivity_table := { elements.connectivity_table with
        array := b.flush order elements.connectivity_table.array } }) elems elem_buffer

/-- Body of the id loop of `pack_elems_messages` for one entry of the id
list, `start` being `idx[id]`: the state holds the element buffers and the
byte buffer. -/
def pack_elems_step (sizeof_Uint : Nat) (mesh : CMesh)
    (s : List (Buffer (List Nat)) × ByteBuf) (entry : Nat × LocalID × Nat) :
    List (Buffer (List Nat)) × ByteBuf :=
  let glb_id := entry.1
  let loc_id := entry.2.1
  let start := entry.2.2
  if glb_id ≥ mesh.elem_start_idx then
    (at_elem_buffer mesh.coords.length s.1 (fun b => b.rm_row loc_id.IDX) loc_id.COMP,
      (pack_elem sizeof_Uint mesh loc_id s.2 start).1)
  else s

/-- Embeds `pack_elems_messages`: the mesh after the buffers were flushed, the
byte buffer after the call, and `*ierr`. -/
def pack_elems_messages (order : Compaction) (sizeof_Uint : Nat) (mesh : CMesh)
    (globalIDs : List Nat) (localIDs : List LocalID) (idx : List Nat) (buf : ByteBuf) :
    CMesh × ByteBuf × ZoltanStatus :=
  let s := (globalIDs.zip (localIDs.zip idx)).foldl
    (pack_elems_step sizeof_Uint mesh) (mesh.elems.map (fun _ => Buffer.create), buf)
  ({ mesh with elems := flush_elem_buffers order mesh.elems s.1 }, s.2, ZOLTAN_OK)

/-- The reads of `unpack_elems_messages` for one element, starting at address
`start`: the component number, then as many nodes as the connectivity table
of that component of the receiving mesh has columns. -/
def unpack_elem (sizeof_Uint : Nat) (mesh : CMesh) (buf : ByteBuf) (start : Nat) :
    Nat × List Nat :=
  let component_number := load sizeof_Uint buf start
  let comp_idx := component_number.1
  let nb_nodes := (mesh.elemComp comp_idx).connectivity_table.row_size
  (comp_idx, load_many sizeof_Uint buf component_number.2 nb_nodes)

/-- Body of the id loop of `unpack_elems_messages` for one entry, `start`
being `idx[id]`. -/
def unpack_elems_step (sizeof_Uint : Nat) (mesh : CMesh) (buf : ByteBuf)
    (elem_buffer : List (Buffer (List Nat))) (entry : Nat × Nat) :
    List (Buffer (List Nat)) :=
  let glb_id := entry.1
  let start := entry.2
  if glb_id ≥ mesh.elem_start_idx then
    let msg := unpack_elem sizeof_Uint mesh buf start
    at_elem_buffer mesh.coords.length elem_buffer (fun b => b.add_row msg.2) msg.1
  else elem_buffer

/-- Embeds `unpack_elems_messages`: the mesh after the buffers were flushed,
and `*ierr`. -/
def unpack_elems_messages (order : Compaction) (sizeof_Uint : Nat) (mesh : CMesh)
    (globalIDs : List Nat) (idx : List Nat) (buf : ByteBuf) : CMesh × ZoltanStatus :=
  let elem_buffer := (globalIDs.zip idx).foldl
    (unpack_elems_step sizeof_Uint mesh buf) (mesh.elems.map (fun _ => Buffer.create))
  ({ mesh with elems := flush_elem_buffers order mesh.elems elem_buffer }, ZOLTAN_OK)

/-! ## Ghost set after the element migration -/

/-- Step 2 of `post_migrate_elems` for one coordinate component: for every
non-ghost row the global index is looked up; it is inserted when it is not
found and erased when it is found. -/
def toggle_owned_rows (c : CoordComp) (m_ghost_nodes : StdSet) : StdSet :=
  (List.range c.coordinates.size).foldl (fun s i =>
    if !(c.is_ghost.getD i true) then
      if (c.global_node_indices.getD i 0) ∉ s then insert (c.global_node_indices.getD i 0) s
      else s.erase (c.global_node_indices.getD i 0)
    else s) m_ghost_nodes

/-- Step 3 of `post_migrate_elems`: every exported node id is inserted when it
is not found and erased when it is found. -/
def toggle_exported (elem_start_idx : Nat) (exportGlobalID : List Nat)
    (m_ghost_nodes : StdSet) : StdSet :=
  exportGlobalID.foldl (fun s glb_id =>
    if glb_id < elem_start_idx then
      if glb_id ∉ s then insert glb_id s else s.erase glb_id
    else s) m_ghost_nodes

/-- Step 4 of `post_migrate_elems`: every imported node id is erased when it
is found. -/
def erase_imported (elem_start_idx : Nat) (importGlobalID : List Nat)
    (m_ghost_nodes : StdSet) : StdSet :=
  importGlobalID.foldl (fun s glb_id =>
    if glb_id < elem_start_idx then
      if glb_id ∈ s then s.erase glb_id else s
    else s) m_ghost_nodes

/-- Embeds `post_migrate_elems`: the static set `m_ghost_nodes` after the call
(given its content before the call) and `*ierr`. -/
def post_migrate_elems (mesh : CMesh) (m_ghost_nodes : StdSet)
    (importGlobalID exportGlobalID : List Nat) : StdSet × ZoltanStatus :=
  let step1 := insert_connectivity mesh.elems m_ghost_nodes
  let step2 := mesh.coords.foldl (fun s c => toggle_owned_rows c s) step1
  let step3 := toggle_exported mesh.elem_start_idx exportGlobalID step2
  let step4 := erase_imported mesh.elem_start_idx importGlobalID step3
  (step4, ZOLTAN_OK)

/-! ## Ghost node migration -/

/-- Embeds `get_ghost_nodes_sizes`: the array `sizes` and `*ierr`. -/
def get_ghost_nodes_sizes (sizeof_Uint sizeof_Real : Nat) (mesh : CMesh)
    (globalIDs : List Nat) (localIDs : List LocalID) : List Nat × ZoltanStatus :=
  (List.zipWith (fun glb_id loc_id =>
      if glb_id < mesh.elem_start_idx then
        sizeof_Uint
          + sizeof_Real * (mesh.coordComp loc_id.COMP).coordinates.row_size
          + sizeof_Uint * (1 + (mesh.glb_elems_row loc_id).length)
      else 0) globalIDs localIDs,
   ZOLTAN_OK)

/-- Body of the id loop of `pack_ghost_nodes_messages` for one entry: the
same writes as in `pack_nodes_messages`, and no ghost flag is set. -/
def pack_ghost_nodes_step (sizeof_Uint sizeof_Real : Nat) (s : CMesh × ByteBuf)
    (entry : Nat × LocalID × Nat) : CMesh × ByteBuf :=
  let glb_id := entry.1
  let loc_id := entry.2.1
  let start := entry.2.2
  if glb_id < s.1.elem_start_idx then
    (s.1, (pack_node sizeof_Uint sizeof_Real s.1 loc_id s.2 start).1)
  else s

/-- Embeds `pack_ghost_nodes_messages`: the mesh and the buffer after the
call, and `*ierr`. -/
def pack_ghost_nodes_messages (sizeof_Uint sizeof_Real : Nat) (mesh : CMesh)
    (globalIDs : List Nat) (localIDs : List LocalID) (idx : List Nat) (buf : ByteBuf) :
    CMesh × ByteBuf × ZoltanStatus :=
  let s := (globalIDs.zip (localIDs.zip idx)).foldl
    (pack_ghost_nodes_step sizeof_Uint sizeof_Real) (mesh, buf)
  (s.1, s.2, ZOLTAN_OK)

/-- Body of the id loop of `unpack_ghost_nodes_messages` for one entry: as in
`unpack_nodes_messages`, with `is_ghost_buffer[comp_idx]->add_row(true)`. -/
def unpack_ghost_nodes_step (sizeof_Uint sizeof_Real : Nat) (buf : ByteBuf)
    (buffers : List NodeBuffers) (entry : Nat × Nat × Nat) : List NodeBuffers :=
  let glb_id := entry.1
  let size := entry.2.1
  let start := entry.2.2
  if size > 0 then
    let msg := unpack_node sizeof_Uint sizeof_Real buf start
    buffers.modify (fun b => b.add_node msg.coord_vec true msg.elems glb_id) msg.comp_idx
  else buffers

/-- Embeds `unpack_ghost_nodes_messages`: the mesh after the buffers were
flushed, and `*ierr`. -/
def unpack_ghost_nodes_messages (order : Compaction) (sizeof_Uint sizeof_Real : Nat)
    (mesh : CMesh) (globalIDs : List Nat) (sizes : List Nat) (idx : List Nat) (buf : ByteBuf) :
    CMesh × ZoltanStatus :=
  let buffers := (globalIDs.zip (sizes.zip idx)).foldl
    (unpack_ghost_nodes_step sizeof_Uint sizeof_Real buf)
    (mesh.coords.map (fun _ => NodeBuffers.create))
  ({ mesh with coords := List.zipWith (NodeBuffers.flush order) mesh.coords buffers }, ZOLTAN_OK)

/-! ## Reference graph of the test -/

/-- Embeds the fields of `GRAPH_DATA` that `build_element_node_graph` fills
(`numMyVertices` and `numAllNbors` are left unset by it). -/
structure GRAPH_DATA where
  glb_nb_vertices : Nat
  globalID : List Nat
  nborIdx : List Nat
  nborGID : List Nat
  nbNbors : List Nat
  nborProc : List Nat
  deriving DecidableEq, Repr

/-- The `switch` of `build_element_node_graph` on the rank: the lists
`globalID`, `nborGID` (one inner list per source line) and `nbNbors`.  A rank
other than `0`, `1`, `2` matches no case and leaves the three vectors empty. -/
def element_node_graph_lists (rank : Nat) : List Nat × List (List Nat) × List Nat :=
  let a := 26; let b := 27; let c := 28; let d := 29; let e := 30; let f := 31
  let g := 32; let h := 33; let i := 34; let j := 35; let k := 36; let l := 37
  let m := 38; let n := 39; let o := 40; let p := 41
  match rank with
  | 0 =>
    ([1, 2, 3, 4, 5, 6, 7, 8, a, b, c, d, e],
     [[a], [a, b], [b, c], [c, d], [d], [a, e], [a, b, e, f], [b, c, f, g],
      [1, 2, 6, 7], [2, 3, 7, 8], [3, 4, 8, 9], [4, 5, 9, 10], [6, 7, 11, 12]],
     [1, 2, 2, 2, 1, 2, 4, 4, 4, 4, 4, 4, 4])
  | 1 =>
    ([9, 10, 11, 12, 13, 14, 15, 16, f, g, h, i, j],
     [[c, d, g, h], [d, h], [e, i], [e, f, i, j], [f, g, j, k], [g, h, k, l], [h, l], [i, m],
      [7, 8, 12, 13], [8, 9, 13, 14], [9, 10, 14, 15], [11, 12, 16, 17], [12, 13, 17, 18]],
     [4, 2, 2, 4, 4, 4, 2, 2, 4, 4, 4, 4, 4])
  | 2 =>
    ([17, 18, 19, 20, 21, 22, 23, 24, 25, k, l, m, n, o, p],
     [[i, j, m, n], [j, k, n, o], [k, l, o, p], [l, p], [m], [m, n], [n, o], [o, p], [p],
      [13, 14, 18, 19], [14, 15, 19, 20], [16, 17, 21, 22], [17, 18, 22, 23],
      [18, 19, 23, 24], [19, 20, 24, 25]],
     [4, 4, 4, 2, 1, 2, 2, 2, 1, 4, 4, 4, 4, 4, 4])
  | _ => ([], [], [])

/-- The loop `nborIdx[i] = nborIdx[i-1] + nbNbors[i-1]` for `i = 1, 2, ...`,
`last` being `nborIdx[i-1]`. -/
def nbor_idx_loop : Nat → List Nat → List Nat
  | _, [] => []
  | last, nb :: rest => (last + nb) :: nbor_idx_loop (last + nb) rest

/-- The owner thresholds of `build_element_node_graph`; `none` stands for the
`BadValue` exception. -/
def nbor_proc_of (gid : Nat) : Option Nat :=
  if gid ≤ 8 then some 0
  else if gid ≤ 16 then some 1
  else if gid ≤ 25 then some 2
  else if gid ≤ 30 then some 0
  else if gid ≤ 35 then some 1
  else if gid ≤ 41 then some 2
  else none

/-- The loop filling `nborProc`; `none` when an id is out of bounds. -/
def nbor_proc_loop : List Nat → Option (List Nat)
  | [] => some []
  | gid :: rest =>
      match nbor_proc_of gid, nbor_proc_loop rest with
      | some proc, some procs => some (proc :: procs)
      | _, _ => none

/-- Embeds `build_element_node_graph` on the given rank; `none` stands for the
`BadValue` exception. -/
def build_element_node_graph (rank : Nat) : Option GRAPH_DATA :=
  let lists := element_node_graph_lists rank
  let nborGID := lists.2.1.flatMap (fun line => line)
  match nbor_proc_loop nborGID with
  | none => none
  | some nborProc =>
      some { glb_nb_vertices := 41
             globalID := lists.1
             nborIdx := 0 :: nbor_idx_loop 0 lists.2.2
             nborGID := nborGID
             nbNbors := lists.2.2
             nborProc := nborProc }

/-! ## Reference descriptions used in the statements -/

/-- The owner a range hash with part size `ceil(nb / np)` would give. -/
def owner_with_ceil_part (np nb g : Nat) : Nat :=
  min (np - 1) (g / ((nb + np - 1) / np))

/-- Number of rows of the mesh whose `is_ghost` flag is false. -/
def nb_non_ghost (mesh : CMesh) : Nat :=
  (mesh.coords.map (fun c => c.is_ghost.count false)).sum

/-- Local ids of the elements of the element components numbered from `k` on,
component by component and row by row. -/
def element_refs (k : Nat) (elems : List CElements) : List LocalID :=
  (elems.enumFrom k).flatMap (fun ke =>
    (List.range ke.2.connectivity_table.size).map (fun i => ⟨i, ke.1⟩))

/-- The four tables of a coordinate component have the same number of rows. -/
def CoordComp.lockstep (c : CoordComp) : Prop :=
  c.coordinates.size = c.is_ghost.length ∧
  c.is_ghost.length = c.global_node_indices.length ∧
  c.global_node_indices.length = c.glb_elem_connectivity.length

/-- The rows of a coordinate component, each taken at one common row index
across the four tables: coordinates, ghost flag, global node index and list
of referencing global elements. -/
def CoordComp.rows (c : CoordComp) : List (List Nat × Bool × Nat × List Nat) :=
  c.coordinates.array.zip (c.is_ghost.zip (c.global_node_indices.zip c.glb_elem_connectivity))

/-- A small mesh used to instantiate the statements: three nodes, the middle
one a ghost, and one triangle. -/
def sample_mesh : CMesh :=
  { coords := [⟨⟨2, [[10, 11], [20, 21], [30, 31]]⟩, [false, true, false], [5, 6, 7],
      [[0], [0, 1], [1]]⟩]
    elems := [⟨⟨3, [[0, 1, 2]]⟩, 0, [0]⟩]
    nb_nodes := 8
    nb_cells := 2
    node_start_idx := 0
    elem_start_idx := 8 }

/-- The rows `rm_ghost_nodes` hands to `rm_row` in one coordinate component,
in call order. -/
def ghost_rows (c : CoordComp) : List Nat :=
  (List.range c.coordinates.size).filter (fun i => c.is_ghost.getD i false)

/-- The row indices a flushed table of `n` rows holds, in order, when the
rows `removed` were taken out and none was added. -/
def kept_rows (order : Compaction) (n : Nat) (removed : List Nat) : List Nat :=
  match removed with
  | [] => List.range n
  | i :: rest => order n (i :: rest)

/-- The assignments `glb_to_loc[key] = value` made by
`give_elems_local_node_numbers` for one coordinate component, in order. -/
def glb_to_loc_pairs (c : CoordComp) : List (Nat × Nat) :=
  (List.range c.coordinates.size).map (fun i => (c.global_node_indices.getD i 0, i))

/-- The bytes of one packed node: component number, coordinates of the row,
number of referencing elements, their global indices. -/
def node_message (sizeof_Uint sizeof_Real : Nat) (mesh : CMesh) (loc_id : LocalID) : List Nat :=
  encode_word sizeof_Uint loc_id.COMP ++
    (mesh.coord_row loc_id).flatMap (encode_word sizeof_Real) ++
    encode_word sizeof_Uint (mesh.glb_elems_row loc_id).length ++
    (mesh.glb_elems_row loc_id).flatMap (encode_word sizeof_Uint)

/-- Two meshes that agree on `elem_start_idx`, on every coordinate row and on
every row of referencing elements. -/
def same_payload (m m2 : CMesh) : Prop :=
  m2.elem_start_idx = m.elem_start_idx ∧
  ∀ loc_id : LocalID, m2.coord_row loc_id = m.coord_row loc_id ∧
    m2.glb_elems_row loc_id = m.glb_elems_row loc_id

/-- The buffer holds the bytes `msg` from address `q` on. -/
def holds_at (buf : ByteBuf) (q : Nat) (msg : List Nat) : Prop :=
  read_bytes buf q msg.length = msg

/-- A coordinate component with one more row in each of its four tables. -/
def CoordComp.append_row (c : CoordComp) (coord_vec : List Nat) (ghost : Bool)
    (elems : List Nat) (glb_id : Nat) : CoordComp :=
  { coordinates := { c.coordinates with array := c.coordinates.array ++ [coord_vec] }
    is_ghost := c.is_ghost ++ [ghost]
    global_node_indices := c.global_node_indices ++ [glb_id]
    glb_elem_connectivity := c.glb_elem_connectivity ++ [elems] }

/-- A mesh whose coordinate component `k` has gained one row. -/
def CMesh.append_node (mesh : CMesh) (k : Nat) (coord_vec : List Nat) (ghost : Bool)
    (elems : List Nat) (glb_id : Nat) : CMesh :=
  { mesh with
    coords := mesh.coords.modify (fun c => c.append_row coord_vec ghost elems glb_id) k }

/-- A mesh with one node of three coordinates, referenced by element `0`. -/
def mesh_3d : CMesh :=
  { coords := [⟨⟨3, [[1, 2, 3]]⟩, [false], [0], [[0]]⟩]
    elems := []
    nb_nodes := 1
    nb_cells := 1
    node_start_idx := 0
    elem_start_idx := 1 }

/-- A receiving mesh whose only coordinate component has no row yet. -/
def empty_mesh_3d : CMesh :=
  { coords := [⟨⟨3, []⟩, [], [], []⟩]
    elems := []
    nb_nodes := 1
    nb_cells := 1
    node_start_idx := 0
    elem_start_idx := 1 }

/-- The non-ghost rows of one coordinate component, as pairs of the global
node index and the list of referencing global elements. -/
def CoordComp.non_ghost_rows (c : CoordComp) : List (Nat × List Nat) :=
  ((List.range c.glb_elem_connectivity.length).filter
      (fun i => !(c.is_ghost.getD i true))).map
    (fun i => (c.global_node_indices.getD i 0, c.glb_elem_connectivity.getD i []))

/-- Two processes sharing one triangle: rank `0` holds the element, its nodes
`0` and `1` and a ghost copy of node `2`; rank `1` holds node `2`. -/
def sample_world : List CMesh :=
  [ { coords := [⟨⟨2, [[0, 0], [1, 0], [0, 1]]⟩, [false, false, true], [0, 1, 2],
        [[0], [0], [0]]⟩]
      elems := [⟨⟨3, [[0, 1, 2]]⟩, 0, [0]⟩]
      nb_nodes := 3
      nb_cells := 1
      node_start_idx := 0
      elem_start_idx := 3 },
    { coords := [⟨⟨2, [[0, 1]]⟩, [false], [2], [[0]]⟩]
      elems := []
      nb_nodes := 3
      nb_cells := 1
      node_start_idx := 0
      elem_start_idx := 3 } ]

/-- The node ids occurring in some element connectivity row. -/
def referenced_ids (mesh : CMesh) : Finset Nat :=
  (mesh.elems.flatMap (fun e => e.connectivity_table.array.flatMap (fun nodes => nodes))).toFinset

/-- The node ids occurring in some `global_node_indices` list. -/
def resident_ids (mesh : CMesh) : Finset Nat :=
  (mesh.coords.flatMap (fun c => c.global_node_indices)).toFinset

/-- The global indices of the locally owned (non-ghost) rows. -/
def owned_ids (mesh : CMesh) : Finset Nat :=
  (mesh.coords.flatMap (fun c =>
    ((List.range c.coordinates.size).filter (fun i => !(c.is_ghost.getD i true))).map
      (fun i => c.global_node_indices.getD i 0))).toFinset

/-- The node ids (ids below `elem_start_idx`) of an import or export list. -/
def node_ids (elem_start_idx : Nat) (globalIDs : List Nat) : Finset Nat :=
  (globalIDs.filter (fun glb_id => decide (glb_id < elem_start_idx))).toFinset

/-- A mesh slice without owned vertices: one ghost node and no element. -/
def ghost_only_mesh : CMesh :=
  { coords := [⟨⟨2, [[1, 2]]⟩, [true], [0], [[0]]⟩]
    elems := []
    nb_nodes := 1
    nb_cells := 1
    node_start_idx := 0
    elem_start_idx := 1 }

/-- A mesh that owns node `7`, which no local element references. -/
def unreferenced_node_mesh : CMesh :=
  { coords := [⟨⟨2, [[1, 2]]⟩, [false], [7], [[]]⟩]
    elems := []
    nb_nodes := 8
    nb_cells := 1
    node_start_idx := 0
    elem_start_idx := 8 }

/-- The rows of coordinate component `k` named by a node id of the id list,
in the order of the list. -/
def named_node_rows (elem_start_idx : Nat) (entries : List (Nat × LocalID × Nat)) (k : Nat) :
    List Nat :=
  (entries.filter (fun entry =>
    decide (entry.1 < elem_start_idx) && decide (entry.2.1.COMP = k))).map
    (fun entry => entry.2.1.IDX)

/-- The rows of the element component with component number `comp` named by an
element id of the id list, in the order of the list. -/
def named_elem_rows (elem_start_idx : Nat) (entries : List (Nat × LocalID × Nat)) (comp : Nat) :
    List Nat :=
  (entries.filter (fun entry =>
    decide (elem_start_idx ≤ entry.1) && decide (entry.2.1.COMP = comp))).map
    (fun entry => entry.2.1.IDX)

/-- The bytes of one packed element: component number and the nodes of the
connectivity row. -/
def elem_message (sizeof_Uint : Nat) (mesh : CMesh) (loc_id : LocalID) : List Nat :=
  encode_word sizeof_Uint loc_id.COMP ++
    (mesh.elem_row loc_id).flatMap (encode_word sizeof_Uint)

/-- What a compaction has to do when a row may be handed to `rm_row` more than
once: keep exactly the rows never handed to `rm_row`. -/
def Compaction.keeps_unnamed (order : Compaction) : Prop :=
  ∀ n removed, (∀ i ∈ removed, i < n) →
    (order n removed).Perm ((List.range n).filter (fun i => decide (i ∉ removed)))

/-- The element components of the sample mesh seen through their component
numbers: two quadrilaterals in component `1` (component `0` is the coordinate
table). -/
def sample_quads : CMesh :=
  { coords := [⟨⟨2, [[0, 0], [1, 0], [1, 1], [0, 1], [2, 0], [2, 1]]⟩,
      [false, false, false, false, false, false], [0, 1, 2, 3, 4, 5],
      [[0], [0, 1], [0, 1], [0], [1], [1]]⟩]
    elems := [⟨⟨4, [[0, 1, 2, 3], [1, 4, 5, 2]]⟩, 0, [0, 1]⟩]
    nb_nodes := 6
    nb_cells := 2
    node_start_idx := 0
    elem_start_idx := 6 }

/-- An element component with one more connectivity row. -/
def CElements.append_row (e : CElements) (nodes : List Nat) : CElements :=
  { e with
    connectivity_table := ⟨e.connectivity_table.row_size, e.connectivity_table.array ++ [nodes]⟩ }

/-- The element components after the component with component number `comp`
(coordinate tables are numbered first, `nb_coords` of them) has gained one
connectivity row. -/
def append_conn_row (nb_coords : Nat) (elems : List CElements) (comp : Nat)
    (nodes : List Nat) : List CElements :=
  if comp < nb_coords then elems
  else elems.modify (fun e => e.append_row nodes) (comp - nb_coords)

/-- A mesh whose element component with component number `comp` has gained
one connectivity row. -/
def CMesh.append_elem_row (mesh : CMesh) (comp : Nat) (nodes : List Nat) : CMesh :=
  { mesh with elems := append_conn_row mesh.coords.length mesh.elems comp nodes }

/-- The mesh `dst` after the rows read from `buf` for the element ids of the
id list were appended one after the other, in the order of the list. -/
def receive_elems (sizeof_Uint : Nat) (dst : CMesh) (buf : ByteBuf)
    (entries : List (Nat × Nat)) : CMesh :=
  entries.foldl (fun m entry =>
    if dst.elem_start_idx ≤ entry.1 then
      m.append_elem_row (unpack_elem sizeof_Uint dst buf entry.2).1
        (unpack_elem sizeof_Uint dst buf entry.2).2
    else m) dst

/-- The mesh after the nodes read from `buf` for the entries (global id,
size, start address) were appended one after the other to the four tables of
their coordinate component, each with the ghost flag `ghost`. -/
def receive_nodes (ghost : Bool) (sizeof_Uint sizeof_Real : Nat) (buf : ByteBuf)
    (entries : List (Nat × Nat × Nat)) (mesh : CMesh) : CMesh :=
  entries.foldl (fun m entry =>
    if entry.2.1 > 0 then
      m.append_node (unpack_node sizeof_Uint sizeof_Real buf entry.2.2).comp_idx
        (unpack_node sizeof_Uint sizeof_Real buf entry.2.2).coord_vec ghost
        (unpack_node sizeof_Uint sizeof_Real buf entry.2.2).elems entry.1
    else m) mesh

/-- No row was handed to `rm_row` of any of the four buffers. -/
def NodeBuffers.add_only (b : NodeBuffers) : Prop :=
  b.buffer_is_ghost.removed = [] ∧ b.buffer_global_node_indices.removed = [] ∧
    b.buffer_coordinates.removed = [] ∧ b.buffer_glb_elem_connectivity.removed = []

/-- The three tables of a coordinate component other than `is_ghost`. -/
def CoordComp.without_flags (c : CoordComp) : CTable Nat × List Nat × List (List Nat) :=
  (c.coordinates, c.global_node_indices, c.glb_elem_connectivity)

/-- The graph `build_element_node_graph` returns on a rank, empty where it
throws. -/
def reference_graph (rank : Nat) : GRAPH_DATA :=
  (build_element_node_graph rank).getD ⟨0, [], [], [], [], []⟩

/-- The neighbours listed for the vertex at position `k` of `globalID`: the
`nbNbors[k]` entries of `nborGID` from position `nborIdx[k]` on. -/
def GRAPH_DATA.neighbours (graph : GRAPH_DATA) (k : Nat) : List Nat :=
  (graph.nborGID.drop (graph.nborIdx.getD k 0)).take (graph.nbNbors.getD k 0)

/-- Every vertex of a graph with the neighbours listed for it. -/
def GRAPH_DATA.adjacency (graph : GRAPH_DATA) : List (Nat × List Nat) :=
  (List.range graph.globalID.length).map (fun k => (graph.globalID.getD k 0, graph.neighbours k))

/-- The data of `build_element_node_graph` over ranks `0`, `1` and `2`
together. -/
def reference_adjacency : List (Nat × List Nat) :=
  (reference_graph 0).adjacency ++ (reference_graph 1).adjacency ++
    (reference_graph 2).adjacency

/-- A mesh whose only element refers to the global node id `9`, which no
`global_node_indices` list holds. -/
def missing_id_mesh : CMesh :=
  { coords := [⟨⟨2, [[10, 11], [20, 21]]⟩, [false, false], [5, 6], [[0], [0]]⟩]
    elems := [⟨⟨3, [[6, 9, 5]]⟩, 0, [0]⟩]
    nb_nodes := 10
    nb_cells := 1
    node_start_idx := 0
    elem_start_idx := 10 }

/-- Number of bytes `unpack_nodes_messages` reads for the node whose message
starts at `start`: the distance the read pointer has moved. -/
def bytes_consumed (sizeof_Uint sizeof_Real : Nat) (buf : ByteBuf) (start : Nat) : Nat :=
  (unpack_node sizeof_Uint sizeof_Real buf start).last - start

/-- A mesh with one node of one coordinate, referenced by the elements `5`
and `0`. -/
def mesh_1d : CMesh :=
  { coords := [⟨⟨1, [[7]]⟩, [false], [0], [[5, 0]]⟩]
    elems := []
    nb_nodes := 1
    nb_cells := 6
    node_start_idx := 0
    elem_start_idx := 1 }

/-- The global indices of the locally owned (non-ghost) rows, in traversal
order. -/
def owned_id_list (mesh : CMesh) : List Nat :=
  mesh.coords.flatMap (fun c =>
    ((List.range c.coordinates.size).filter (fun i => !(c.is_ghost.getD i true))).map
      (fun i => c.global_node_indices.getD i 0))

/-- The node ids (ids below `elem_start_idx`) of an import or export list, in
the order of the list. -/
def node_id_list (elem_start_idx : Nat) (globalIDs : List Nat) : List Nat :=
  globalIDs.filter (fun glb_id => decide (glb_id < elem_start_idx))

/-- A mesh with one coordinate table in which the global id `5` is held by two
rows (an owned row and a ghost copy), and one element over the ids `5, 6`. -/
def shared_id_mesh : CMesh :=
  { coords := [⟨⟨2, [[10, 11], [20, 21], [12, 13]]⟩, [false, false, true], [5, 6, 5],
      [[0], [0], [0]]⟩]
    elems := [⟨⟨2, [[5, 6]]⟩, 0, [0]⟩]
    nb_nodes := 7
    nb_cells := 1
    node_start_idx := 0
    elem_start_idx := 7 }

/-- The neighbours `get_edges_list_mesh` lists for the vertex with the given
local id. -/
def vertex_neighbours (np : Nat) (mesh : CMesh) (loc : LocalID) : List (Nat × Nat) :=
  if loc.COMP < mesh.coords.length then
    (mesh.glb_elems_row loc).map (fun glb_elm =>
      (mesh.elem_start_idx + glb_elm, hash_proc_elems np mesh glb_elm))
  else
    (mesh.elem_row loc).map (fun loc_node =>
      (mesh.node_start_idx +
          (mesh.coordComp (mesh.elemComp loc.COMP).coordinates).global_node_indices.getD loc_node 0,
        hash_proc_nodes np mesh
          ((mesh.coordComp (mesh.elemComp loc.COMP).coordinates).global_node_indices.getD
            loc_node 0)))

/-- Number of edges emitted from the node vertices of a mesh: one for each
referencing element of each non-ghost row. -/
def emitted_from_nodes (mesh : CMesh) : Nat :=
  ((mesh.coords.flatMap CoordComp.non_ghost_rows).map (fun nd => nd.2.length)).sum

/-- Number of edges emitted from the element vertices of a mesh: one for each
entry of each connectivity row. -/
def emitted_from_elems (mesh : CMesh) : Nat :=
  (mesh.elems.flatMap (fun e => e.connectivity_table.array.map List.length)).sum

end ZoltanTests

/-!
# Group registry of `Common/MPI/CPEManager.cpp`

The manager keeps its worker groups in `m_groups`, a `std::map` from the group
name to the communicator of the group.  The calls on the listening thread, on
the MPI environment (`spawn`, `barrier`, sending a frame) and on the component
tree (`create_component`, `remove_component`) run code that is not among the
sources: whether such a call returns or throws is a parameter of the embedded
function.  A statement whose behaviour the language leaves undefined stops
the embedded function with a `Failure` that names it.
-/

namespace mpi

/-- What stops a call before its end: the exceptions thrown by the embedded
functions, `std::length_error` of the vector constructor, and the statements
with undefined behaviour: a write behind the end of a vector (`index` written
into a vector of `size` elements), a read through an iterator whose entry was
erased, and `delete` applied to memory obtained with `new[]`. -/
inductive Failure
  | ValueExists
  | ValueNotFound
  | IllegalCall
  | length_error
  | out_of_bounds (index size : Nat)
  | invalid_iterator
  | mismatched_delete
  deriving DecidableEq, Repr

/-- An MPI communicator, carried as the number of its handle. -/
abbrev Communicator := Nat

/-- Embeds `std::map<std::string, Communicator>`: the entries in key order. -/
abbrev GroupMap := List (String × Communicator)

/-- Embeds `m_groups.find(name)`: the entry found, `none` for `end()`. -/
def GroupMap.find (m : GroupMap) (name : String) : Option (String × Communicator) :=
  List.find? (fun g => g.1 == name) m

/-- Embeds `m_groups[name] = comm`: the value of an entry that is present is
replaced, otherwise the entry is inserted at its place in key order. -/
def GroupMap.assign (m : GroupMap) (name : String) (comm : Communicator) : GroupMap :=
  if (m.find name).isSome then m.map (fun g => if g.1 == name then (name, comm) else g)
  else List.orderedInsert (fun a b => a.1 ≤ b.1) (name, comm) m

/-- Embeds `m_groups.erase(it)` for the iterator returned by `find(name)`. -/
def GroupMap.erase (m : GroupMap) (name : String) : GroupMap :=
  List.eraseP (fun g => g.1 == name) m

/-- The state of a `CPEManager` that the embedded functions read and write. -/
structure CPEManager where
  m_groups : GroupMap
  deriving DecidableEq, Repr

/-- Embeds `CPEManager::spawn_group`: the manager after the call and what
stopped the call.  `spawned` is the outcome of the calls made before the
group is registered (`system_complete`, `PE::instance().spawn`): the new
communicator, or the exception thrown; `registered` is the outcome of the
calls made after `m_groups[name] = comm` (`add_communicator`,
`create_component`, `set_communicator`, `mark_basic`, `barrier`,
`start_listening`), `none` when they return.  The last statement, `delete
forw_cstr`, releases memory obtained with `new char[]`. -/
def CPEManager.spawn_group (self : CPEManager) (name : String)
    (spawned : Except Failure Communicator) (registered : Option Failure) :
    CPEManager × Option Failure :=
  if (self.m_groups.find name).isSome then (self, some Failure.ValueExists)
  else
    match spawned with
    | Except.error e => (self, some e)
    | Except.ok comm =>
        match registered with
        | some e => (⟨self.m_groups.assign name comm⟩, some e)
        | none => (⟨self.m_groups.assign name comm⟩, some Failure.mismatched_delete)

/-- Embeds `CPEManager::kill_group`: the manager after the call and what
stopped the call.  `frame` is the outcome of building the `exit` frame,
`notified` the outcome of the calls made before the entry is erased
(`send_to`, `barrier`, `remove_comunicator`), `stopped` the outcome of
`stop_listening` (called when no group is left); `none` when they return.
The last call, `remove_component(it->first)`, reads the name through the
iterator whose entry `m_groups.erase(it)` has erased. -/
def CPEManager.kill_group (self : CPEManager) (name : String)
    (frame notified stopped : Option Failure) : CPEManager × Option Failure :=
  match frame with
  | some e => (self, some e)
  | none =>
      match self.m_groups.find name with
      | none => (self, some Failure.ValueNotFound)
      | some _ =>
          match notified with
          | some e => (self, some e)
          | none =>
              match (if (self.m_groups.erase name).isEmpty then stopped else none) with
              | some e => (⟨self.m_groups.erase name⟩, some e)
              | none => (⟨self.m_groups.erase name⟩, some Failure.invalid_iterator)

/-- Embeds `CPEManager::send_to` with a group name: `sent` is the outcome of
`send_to(it->second, args)`, whose MPI calls are not among the sources. -/
def CPEManager.send_to (self : CPEManager) (group : String) (sent : Option Failure) :
    CPEManager × Option Failure :=
  match self.m_groups.find group with
  | none => (self, some Failure.ValueNotFound)
  | some _ => (self, sent)

/-- Embeds the `size_t` subtraction `m_groups.size() - 1`, `size_t` having
`size_bits` bits. -/
def size_minus_one (size_bits size : Nat) : Nat :=
  (size + 2 ^ size_bits - 1) % 2 ^ size_bits

/-- Embeds `std::vector<boost::any> groups(n)`: `n` empty elements, or
`std::length_error` when `n` exceeds `max_size()`. -/
def vector_create (max_size n : Nat) : Except Failure (List (Option String)) :=
  if n > max_size then Except.error Failure.length_error
  else Except.ok (List.replicate n none)

/-- The loop `for(int i = 0 ; it != m_groups.end() ; ++it, ++i) groups[i] =
it->first` of `signature_kill_group`, over the entries from `it` on. -/
def fill_groups : Nat → GroupMap → List (Option String) → Except Failure (List (Option String))
  | _, [], groups => Except.ok groups
  | i, g :: rest, groups =>
      if i < groups.length then fill_groups (i + 1) rest (groups.set i (some g.1))
      else Except.error (Failure.out_of_bounds i groups.length)

/-- Embeds `CPEManager::signature_kill_group`: the default value and the
restricted list offered for the option `group`. -/
def CPEManager.signature_kill_group (size_bits max_size : Nat) (self : CPEManager) :
    Except Failure (String × List (Option String)) :=
  match vector_create max_size (size_minus_one size_bits self.m_groups.length) with
  | Except.error e => Except.error e
  | Except.ok groups =>
      match self.m_groups with
      | [] => Except.error Failure.IllegalCall
      | first :: rest =>
          match fill_groups 0 (first :: rest) groups with
          | Except.error e => Except.error e
          | Except.ok filled => Except.ok (first.1, filled)

/-- The names of the registered groups. -/
def CPEManager.group_names (self : CPEManager) : List String :=
  self.m_groups.map Prod.fst

/-- A manager with the two groups `solvers` and `workers`. -/
def two_groups : CPEManager :=
  ⟨[("solvers", 3), ("workers", 5)]⟩

/-- A manager with the single group `workers`. -/
def one_group : CPEManager :=
  ⟨[("workers", 5)]⟩

end mpi

namespace ZoltanTests

open ZoltanStatus

/-! ## Owner hash: properties -/

/-- Claim C7, as the source computes it: with at least one process and at
least as many entities as processes, `hash_proc_elems` (over `nb_cells`) and
`hash_proc_nodes` (over `nb_nodes`) return
`min(np - 1, floor(g / floor(nb / np)))`; with fewer entities than processes
the part size is `0` and both return `np - 1`. -/
theorem hash_proc_floor_part (np : Nat) (mesh : CMesh) (g : Nat) (hnp : 1 ≤ np) :
    (np ≤ mesh.nb_cells →
      hash_proc_elems np mesh g = min (np - 1) (g / (mesh.nb_cells / np))) ∧
    (mesh.nb_cells < np → hash_proc_elems np mesh g = np - 1) ∧
    (np ≤ mesh.nb_nodes →
      hash_proc_nodes np mesh g = min (np - 1) (g / (mesh.nb_nodes / np))) ∧
    (mesh.nb_nodes < np → hash_proc_nodes np mesh g = np - 1) := by
  refine ⟨fun h => ?_, fun h => ?_, fun h => ?_, fun h => ?_⟩
  · have hpos : 0 < mesh.nb_cells / np := Nat.div_pos h hnp
    simp [hash_proc_elems, Nat.pos_iff_ne_zero.mp hpos]
  · simp [hash_proc_elems, Nat.div_eq_of_lt h]
  · have hpos : 0 < mesh.nb_nodes / np := Nat.div_pos h hnp
    simp [hash_proc_nodes, Nat.pos_iff_ne_zero.mp hpos]
  · simp [hash_proc_nodes, Nat.div_eq_of_lt h]

/-- Witness for C7: three processes, four nodes and four cells, index
`1`. -/
theorem hash_proc_floor_part_witness :
    hash_proc_elems 3 ⟨[], [], 4, 4, 0, 4⟩ 1 = min (3 - 1) (1 / (4 / 3)) ∧
    hash_proc_nodes 3 ⟨[], [], 4, 4, 0, 4⟩ 1 = min (3 - 1) (1 / (4 / 3)) :=
  ⟨(hash_proc_floor_part 3 ⟨[], [], 4, 4, 0, 4⟩ 1 (by decide)).1 (by decide),
   (hash_proc_floor_part 3 ⟨[], [], 4, 4, 0, 4⟩ 1 (by decide)).2.2.1 (by decide)⟩

/-- Counterexample to C7 as stated: with three processes and four entities
the part size of the source is `floor(4/3) = 1`, so index `1` is hashed to
rank `1`, whereas a part size of `ceil(4/3) = 2` would give rank `0`. -/
theorem hash_proc_not_ceil_part :
    hash_proc_elems 3 ⟨[], [], 4, 4, 0, 4⟩ 1 = 1 ∧
    hash_proc_nodes 3 ⟨[], [], 4, 4, 0, 4⟩ 1 = 1 ∧
    owner_with_ceil_part 3 4 1 = 0 := by
  decide

/-! ## Object count and object list: properties -/

theorem getD_eq_head_of_drop {α : Type} (l : List α) (i : Nat) (d b : α) (tl : List α)
    (h : l.drop i = b :: tl) : l.getD i d = b ∧ l.drop (i + 1) = tl := by
  induction l generalizing i with
  | nil => simp at h
  | cons a rest ih =>
    cases i with
    | zero => simp at h; simp [h.1, h.2]
    | succ j => simpa using ih j (by simpa using h)

theorem getElem?_of_getD_false (l : List Bool) (i : Nat) (h : l.getD i true = false) :
    l[i]? = some false := by
  rw [List.getD_eq_getElem?_getD] at h
  cases hi : l[i]? with
  | none => simp [hi] at h
  | some b => simp [hi] at h; simp [h]

theorem object_list_node_rows_points (nsi comp : Nat) (ig : List Bool) (gni : List Nat)
    (idx : Nat) (e : ObjEntry) (he : e ∈ object_list_node_rows nsi comp ig idx gni) :
    e.loc.COMP = comp ∧ idx ≤ e.loc.IDX ∧ ig[e.loc.IDX]? = some false ∧
      ∃ g, gni[e.loc.IDX - idx]? = some g ∧ e.glb = nsi + g := by
  induction gni generalizing idx with
  | nil => simp [object_list_node_rows] at he
  | cons g rest ih =>
    have step : e ∈ object_list_node_rows nsi comp ig (idx + 1) rest →
        e.loc.COMP = comp ∧ idx ≤ e.loc.IDX ∧ ig[e.loc.IDX]? = some false ∧
          ∃ g2, (g :: rest)[e.loc.IDX - idx]? = some g2 ∧ e.glb = nsi + g2 := by
      intro h
      obtain ⟨h1, h2, h3, g2, h4, h5⟩ := ih (idx + 1) h
      refine ⟨h1, by omega, h3, g2, ?_, h5⟩
      have hsub : e.loc.IDX - idx = (e.loc.IDX - (idx + 1)) + 1 := by omega
      rw [hsub, List.getElem?_cons_succ]
      exact h4
    simp only [object_list_node_rows] at he
    split at he
    · rename_i hg
      rcases List.mem_cons.mp he with h | h
      · subst h
        refine ⟨rfl, Nat.le_refl _, ?_, g, by simp, rfl⟩
        apply getElem?_of_getD_false
        simpa using hg
      · exact step h
    · exact step he

theorem object_list_elem_rows_points (esi comp : Nat) (gei : List Nat)
    (idx : Nat) (e : ObjEntry) (he : e ∈ object_list_elem_rows esi comp idx gei) :
    e.loc.COMP = comp ∧ idx ≤ e.loc.IDX ∧
      ∃ g, gei[e.loc.IDX - idx]? = some g ∧ e.glb = esi + g := by
  induction gei generalizing idx with
  | nil => simp [object_list_elem_rows] at he
  | cons g rest ih =>
    simp only [object_list_elem_rows] at he
    rcases List.mem_cons.mp he with h | h
    · subst h
      exact ⟨rfl, Nat.le_refl _, g, by simp, rfl⟩
    · obtain ⟨h1, h2, g2, h4, h5⟩ := ih (idx + 1) h
      refine ⟨h1, by omega, g2, ?_, h5⟩
      have hsub : e.loc.IDX - idx = (e.loc.IDX - (idx + 1)) + 1 := by omega
      rw [hsub, List.getElem?_cons_succ]
      exact h4

theorem object_list_nodes_points (nsi : Nat) (cs : List CoordComp) (k : Nat) (e : ObjEntry)
    (he : e ∈ object_list_nodes nsi k cs) :
    k ≤ e.loc.COMP ∧ e.loc.COMP < k + cs.length ∧
      ∃ c, cs[e.loc.COMP - k]? = some c ∧ c.is_ghost[e.loc.IDX]? = some false ∧
        ∃ g, c.global_node_indices[e.loc.IDX]? = some g ∧ e.glb = nsi + g := by
  induction cs generalizing k with
  | nil => simp [object_list_nodes] at he
  | cons c rest ih =>
    simp only [object_list_nodes, List.mem_append] at he
    rcases he with h | h
    · obtain ⟨h1, _, h3, g, h4, h5⟩ := object_list_node_rows_points nsi k c.is_ghost _ 0 e h
      refine ⟨by omega, by simp; omega, c, by simp [h1], h3, g, by simpa using h4, h5⟩
    · obtain ⟨h1, h2, c2, h3, h4⟩ := ih (k + 1) h
      refine ⟨by omega, by simp; omega, c2, ?_, h4⟩
      have hsub : e.loc.COMP - k = (e.loc.COMP - (k + 1)) + 1 := by omega
      rw [hsub, List.getElem?_cons_succ]
      exact h3

theorem object_list_elems_points (esi : Nat) (es : List CElements) (k : Nat) (e : ObjEntry)
    (he : e ∈ object_list_elems esi k es) :
    k ≤ e.loc.COMP ∧ e.loc.COMP < k + es.length ∧
      ∃ el, es[e.loc.COMP - k]? = some el ∧
        ∃ g, el.global_element_indices[e.loc.IDX]? = some g ∧ e.glb = esi + g := by
  induction es generalizing k with
  | nil => simp [object_list_elems] at he
  | cons el rest ih =>
    simp only [object_list_elems, List.mem_append] at he
    rcases he with h | h
    · obtain ⟨h1, _, g, h4, h5⟩ := object_list_elem_rows_points esi k _ 0 e h
      refine ⟨by omega, by simp; omega, el, by simp [h1], g, by simpa using h4, h5⟩
    · obtain ⟨h1, h2, c2, h3, h4⟩ := ih (k + 1) h
      refine ⟨by omega, by simp; omega, c2, ?_, h4⟩
      have hsub : e.loc.COMP - k = (e.loc.COMP - (k + 1)) + 1 := by omega
      rw [hsub, List.getElem?_cons_succ]
      exact h3

theorem edges_from_node_rows_mem (np : Nat) (mesh : CMesh) (ig : List Bool)
    (rows : List (List Nat)) (i : Nat) (p : Nat × Nat)
    (hp : p ∈ edges_from_node_rows np mesh ig i rows) :
    ∃ row ∈ rows, ∃ g ∈ row, p.1 = mesh.elem_start_idx + g := by
  induction rows generalizing i with
  | nil => simp [edges_from_node_rows] at hp
  | cons row rest ih =>
    simp only [edges_from_node_rows, List.mem_append] at hp
    rcases hp with h | h
    · split at h
      · obtain ⟨g, hg, rfl⟩ := List.mem_map.mp h
        exact ⟨row, List.mem_cons_self _ _, g, hg, rfl⟩
      · simp at h
    · obtain ⟨row2, h1, h2⟩ := ih (i + 1) h
      exact ⟨row2, List.mem_cons_of_mem _ h1, h2⟩

theorem edges_from_nodes_mem (np : Nat) (mesh : CMesh) (p : Nat × Nat)
    (hp : p ∈ edges_from_nodes np mesh) :
    ∃ c ∈ mesh.coords, ∃ row ∈ c.glb_elem_connectivity, ∃ g ∈ row,
      p.1 = mesh.elem_start_idx + g := by
  simp only [edges_from_nodes, List.mem_flatMap] at hp
  obtain ⟨c, hc, h⟩ := hp
  exact ⟨c, hc, edges_from_node_rows_mem np mesh _ _ 0 p h⟩

theorem edges_from_elems_mem (np : Nat) (mesh : CMesh) (p : Nat × Nat)
    (hp : p ∈ edges_from_elems np mesh) :
    ∃ e ∈ mesh.elems, ∃ row ∈ e.connectivity_table.array, ∃ n ∈ row,
      p.1 = mesh.node_start_idx +
        (mesh.coordComp e.coordinates).global_node_indices.getD n 0 := by
  simp only [edges_from_elems, edges_from_elem_rows, List.mem_flatMap, List.mem_map] at hp
  obtain ⟨e, he, row, hrow, n, hn, rfl⟩ := hp
  exact ⟨e, he, row, hrow, n, hn, rfl⟩

/-- Claim C9: with `node_start_idx = 0`, `elem_start_idx = nb_nodes`, every
global node index below `nb_nodes` and every global element index below
`nb_cells` (connectivity entries being valid rows of their coordinate
component), every id `get_object_list_mesh` emits for a node vertex and every
neighbour id `get_edges_list_mesh` emits for an element vertex lies in
`[0, nb_nodes)`, every id emitted for an element vertex and every neighbour id
emitted for a node vertex lies in `[nb_nodes, nb_nodes + nb_cells)`; hence no
node id equals an element id and every edge joins a node and an element. -/
theorem id_ranges_never_overlap (world : List CMesh) (mesh : CMesh)
    (hns : mesh.node_start_idx = 0) (hes : mesh.elem_start_idx = mesh.nb_nodes)
    (hgni : ∀ c ∈ mesh.coords, ∀ g ∈ c.global_node_indices, g < mesh.nb_nodes)
    (hgei : ∀ e ∈ mesh.elems, ∀ g ∈ e.global_element_indices, g < mesh.nb_cells)
    (hgec : ∀ c ∈ mesh.coords, ∀ row ∈ c.glb_elem_connectivity, ∀ g ∈ row, g < mesh.nb_cells)
    (hconn : ∀ e ∈ mesh.elems, ∀ row ∈ e.connectivity_table.array, ∀ n ∈ row,
      n < (mesh.coordComp e.coordinates).global_node_indices.length) :
    (get_object_list_mesh mesh).1 =
      object_list_nodes mesh.node_start_idx 0 mesh.coords ++
        object_list_elems mesh.elem_start_idx mesh.coords.length mesh.elems ∧
    (get_edges_list_mesh world mesh).nbor =
      edges_from_nodes world.length mesh ++ edges_from_elems world.length mesh ∧
    (∀ e ∈ object_list_nodes mesh.node_start_idx 0 mesh.coords, e.glb < mesh.nb_nodes) ∧
    (∀ p ∈ edges_from_elems world.length mesh, p.1 < mesh.nb_nodes) ∧
    (∀ e ∈ object_list_elems mesh.elem_start_idx mesh.coords.length mesh.elems,
      mesh.nb_nodes ≤ e.glb ∧ e.glb < mesh.nb_nodes + mesh.nb_cells) ∧
    (∀ p ∈ edges_from_nodes world.length mesh,
      mesh.nb_nodes ≤ p.1 ∧ p.1 < mesh.nb_nodes + mesh.nb_cells) ∧
    (∀ a ∈ object_list_nodes mesh.node_start_idx 0 mesh.coords,
      ∀ b ∈ object_list_elems mesh.elem_start_idx mesh.coords.length mesh.elems,
        a.glb ≠ b.glb) := by
  have hnode : ∀ e ∈ object_list_nodes mesh.node_start_idx 0 mesh.coords,
      e.glb < mesh.nb_nodes := by
    intro e he
    obtain ⟨_, _, c, hc, _, g, hg, hglb⟩ := object_list_nodes_points _ _ _ e he
    have h1 := hgni c (List.getElem?_mem hc) g (List.getElem?_mem hg)
    omega
  have helem : ∀ e ∈ object_list_elems mesh.elem_start_idx mesh.coords.length mesh.elems,
      mesh.nb_nodes ≤ e.glb ∧ e.glb < mesh.nb_nodes + mesh.nb_cells := by
    intro e he
    obtain ⟨_, _, el, hel, g, hg, hglb⟩ := object_list_elems_points _ _ _ e he
    have h1 := hgei el (List.getElem?_mem hel) g (List.getElem?_mem hg)
    omega
  refine ⟨rfl, rfl, hnode, ?_, helem, ?_, ?_⟩
  · intro p hp
    obtain ⟨e, he, row, hrow, n, hn, hp1⟩ := edges_from_elems_mem _ _ p hp
    have hlt := hconn e he row hrow n hn
    by_cases hk : e.coordinates < mesh.coords.length
    · have hmem : mesh.coordComp e.coordinates ∈ mesh.coords := by
        simp only [CMesh.coordComp, List.getD_eq_getElem?_getD, List.getElem?_eq_getElem hk,
          Option.getD_some]
        exact List.getElem_mem _
      have hg : (mesh.coordComp e.coordinates).global_node_indices.getD n 0 ∈
          (mesh.coordComp e.coordinates).global_node_indices := by
        simp only [List.getD_eq_getElem?_getD, List.getElem?_eq_getElem hlt, Option.getD_some]
        exact List.getElem_mem _
      have := hgni _ hmem _ hg
      omega
    · exfalso
      have hnone : mesh.coordComp e.coordinates = CoordComp.empty := by
        simp [CMesh.coordComp, List.getD_eq_getElem?_getD,
          List.getElem?_eq_none (Nat.le_of_not_lt hk)]
      rw [hnone] at hlt
      simp [CoordComp.empty] at hlt
  · intro p hp
    obtain ⟨c, hc, row, hrow, g, hg, hp1⟩ := edges_from_nodes_mem _ _ p hp
    have := hgec c hc row hrow g hg
    omega
  · intro a ha b hb
    have h1 := hnode a ha
    have h2 := (helem b hb).1
    omega

/-- Witness for C9 on the sample mesh: the id of its first node lies below
`nb_nodes`, the id of its element does not. -/
theorem id_ranges_never_overlap_witness :
    (ObjEntry.mk 5 ⟨0, 0⟩).glb < sample_mesh.nb_nodes ∧
      sample_mesh.nb_nodes ≤ (ObjEntry.mk 8 ⟨0, 1⟩).glb :=
  have h := id_ranges_never_overlap [sample_mesh] sample_mesh (by decide) (by decide)
    (by decide) (by decide) (by decide) (by decide)
  ⟨h.2.2.1 ⟨5, ⟨0, 0⟩⟩ (by decide), (h.2.2.2.2.1 ⟨8, ⟨0, 1⟩⟩ (by decide)).1⟩

/-! ## Ghost removal: properties -/

theorem filterMap_filter_range {α : Type} (L : List α) (q : Nat → Bool) (q2 : α → Bool)
    (h : ∀ i (hi : i < L.length), q i = q2 (L.get ⟨i, hi⟩)) :
    ((List.range L.length).filter q).filterMap (fun j => L[j]?) = L.filter q2 := by
  induction L using List.reverseRecOn with
  | nil => simp
  | append_singleton L x ih =>
    have hq : ∀ i (hi : i < L.length), q i = q2 (L.get ⟨i, hi⟩) := by
      intro i hi
      have := h i (by simp; omega)
      simpa [List.getElem_append_left hi] using this
    have hlast : q L.length = q2 x := by
      have := h L.length (by simp)
      simpa using this
    have hcongr : ((List.range L.length).filter q).filterMap (fun j => (L ++ [x])[j]?) =
        ((List.range L.length).filter q).filterMap (fun j => L[j]?) := by
      apply List.filterMap_congr
      intro j hj
      have hjlt : j < L.length := by
        have := (List.mem_filter.mp hj).1
        simpa using this
      simp [List.getElem?_append_left hjlt]
    rw [List.length_append, List.length_singleton, List.range_succ, List.filter_append,
      List.filterMap_append, hcongr, ih hq, List.filter_append]
    congr 1
    cases hx : q2 x <;> simp [hlast, hx]

theorem filterMap_range_getElem? {α : Type} (L : List α) :
    (List.range L.length).filterMap (fun j => L[j]?) = L := by
  have := filterMap_filter_range L (fun _ => true) (fun _ => true) (fun _ _ => rfl)
  simpa using this

theorem filterMap_zip {α β : Type} (A : List α) (B : List β) (l : List Nat)
    (h : A.length = B.length) :
    (l.filterMap (fun j => A[j]?)).zip (l.filterMap (fun j => B[j]?)) =
      l.filterMap (fun j => (A.zip B)[j]?) := by
  induction l with
  | nil => simp
  | cons j rest ih =>
    by_cases hj : j < A.length
    · have hjB : j < B.length := by omega
      have hz : j < (A.zip B).length := by simp; omega
      simp [List.filterMap_cons, List.getElem?_eq_getElem hj, List.getElem?_eq_getElem hjB,
        List.getElem?_eq_getElem hz, ih]
    · have hjB : ¬ j < B.length := by omega
      have hz : ¬ j < (A.zip B).length := by simp; omega
      simp [List.filterMap_cons, List.getElem?_eq_none (Nat.le_of_not_lt hj),
        List.getElem?_eq_none (Nat.le_of_not_lt hjB),
        List.getElem?_eq_none (Nat.le_of_not_lt hz), ih]

theorem filterMap_getElem?_length {α β : Type} (A : List α) (B : List β) (l : List Nat)
    (h : A.length = B.length) :
    (l.filterMap (fun j => A[j]?)).length = (l.filterMap (fun j => B[j]?)).length := by
  induction l with
  | nil => simp
  | cons j rest ih =>
    by_cases hj : j < A.length
    · have hjB : j < B.length := by omega
      simp [List.filterMap_cons, List.getElem?_eq_getElem hj, List.getElem?_eq_getElem hjB, ih]
    · have hjB : ¬ j < B.length := by omega
      simp [List.filterMap_cons, List.getElem?_eq_none (Nat.le_of_not_lt hj),
        List.getElem?_eq_none (Nat.le_of_not_lt hjB), ih]

theorem flush_removed_eq {α : Type} (order : Compaction) (table : List α) (r : List Nat) :
    Buffer.flush order table ⟨r, []⟩ =
      (kept_rows order table.length r).filterMap (fun j => table[j]?) := by
  cases r with
  | nil => simp [Buffer.flush, kept_rows, filterMap_range_getElem?]
  | cons i rest => simp [Buffer.flush, kept_rows]

theorem rm_ghost_loop_eq (ig : List Bool) (l r : List Nat) :
    l.foldl (rm_ghost_step ig) ⟨⟨r, []⟩, ⟨r, []⟩, ⟨r, []⟩, ⟨r, []⟩⟩ =
      ⟨⟨r ++ l.filter (fun i => ig.getD i false), []⟩,
       ⟨r ++ l.filter (fun i => ig.getD i false), []⟩,
       ⟨r ++ l.filter (fun i => ig.getD i false), []⟩,
       ⟨r ++ l.filter (fun i => ig.getD i false), []⟩⟩ := by
  induction l generalizing r with
  | nil => simp
  | cons i rest ih =>
    rw [List.foldl_cons]
    by_cases hg : ig.getD i false = true
    · have hstep : rm_ghost_step ig ⟨⟨r, []⟩, ⟨r, []⟩, ⟨r, []⟩, ⟨r, []⟩⟩ i =
          ⟨⟨r ++ [i], []⟩, ⟨r ++ [i], []⟩, ⟨r ++ [i], []⟩, ⟨r ++ [i], []⟩⟩ := by
        rw [rm_ghost_step, if_pos hg]
        rfl
      rw [hstep, ih]
      simp only [List.filter_cons, hg, if_true, List.append_assoc, List.singleton_append]
    · have hstep : rm_ghost_step ig ⟨⟨r, []⟩, ⟨r, []⟩, ⟨r, []⟩, ⟨r, []⟩⟩ i =
          ⟨⟨r, []⟩, ⟨r, []⟩, ⟨r, []⟩, ⟨r, []⟩⟩ := by
        rw [rm_ghost_step, if_neg hg]
      rw [hstep, ih]
      simp only [List.filter_cons, hg, Bool.false_eq_true, if_false]

theorem rm_ghost_comp_eq (order : Compaction) (c : CoordComp) :
    rm_ghost_comp order c =
      { coordinates := { c.coordinates with
          array := (kept_rows order c.coordinates.array.length (ghost_rows c)).filterMap
            (fun j => c.coordinates.array[j]?) }
        is_ghost := (kept_rows order c.is_ghost.length (ghost_rows c)).filterMap
          (fun j => c.is_ghost[j]?)
        global_node_indices :=
          (kept_rows order c.global_node_indices.length (ghost_rows c)).filterMap
            (fun j => c.global_node_indices[j]?)
        glb_elem_connectivity :=
          (kept_rows order c.glb_elem_connectivity.length (ghost_rows c)).filterMap
            (fun j => c.glb_elem_connectivity[j]?) } := by
  have hloop := rm_ghost_loop_eq c.is_ghost (List.range c.coordinates.size) []
  simp only [List.nil_append] at hloop
  simp only [rm_ghost_comp, NodeBuffers.create, Buffer.create, hloop, NodeBuffers.flush,
    flush_removed_eq, ghost_rows]

theorem rm_ghost_comp_lockstep (order : Compaction) (c : CoordComp) (h : c.lockstep) :
    (rm_ghost_comp order c).lockstep := by
  obtain ⟨h1, h2, h3⟩ := h
  simp only [CTable.size] at h1
  rw [rm_ghost_comp_eq]
  simp only [CoordComp.lockstep, CTable.size]
  rw [h1, h2, h3]
  refine ⟨?_, ?_, ?_⟩
  · exact filterMap_getElem?_length _ _ _ (by omega)
  · exact filterMap_getElem?_length _ _ _ (by omega)
  · exact filterMap_getElem?_length _ _ _ (by omega)

theorem rm_ghost_comp_rows (order : Compaction) (c : CoordComp) (h : c.lockstep) :
    (rm_ghost_comp order c).rows =
      (kept_rows order c.rows.length (ghost_rows c)).filterMap (fun j => c.rows[j]?) := by
  obtain ⟨h1, h2, h3⟩ := h
  simp only [CTable.size] at h1
  have hlen : c.rows.length = c.glb_elem_connectivity.length := by
    simp [CoordComp.rows]
    omega
  rw [rm_ghost_comp_eq]
  simp only [CoordComp.rows] at hlen ⊢
  rw [hlen, h1, h2, h3]
  rw [filterMap_zip _ _ _ h3, filterMap_zip _ _ _ (by simp; omega),
    filterMap_zip _ _ _ (by simp; omega)]

theorem ghost_rows_nodup (c : CoordComp) : (ghost_rows c).Nodup :=
  (List.nodup_range _).filter _

theorem ghost_rows_lt (c : CoordComp) : ∀ i ∈ ghost_rows c, i < c.coordinates.size := by
  intro i hi
  have := (List.mem_filter.mp hi).1
  simpa using this

theorem kept_rows_perm (order : Compaction) (horder : order.keeps_unremoved) (n : Nat)
    (r : List Nat) (hr : r.Nodup) (hlt : ∀ i ∈ r, i < n) :
    (kept_rows order n r).Perm ((List.range n).filter (fun i => decide (i ∉ r))) := by
  cases r with
  | nil => simp [kept_rows]
  | cons i rest => exact horder n (i :: rest) hr hlt

theorem rows_ghost_flag (c : CoordComp) (i : Nat) (hi : i < c.rows.length) :
    (c.rows.get ⟨i, hi⟩).2.1 = c.is_ghost.getD i false := by
  have h1 : i < c.is_ghost.length := by
    simp [CoordComp.rows] at hi
    omega
  simp [CoordComp.rows, List.getD_eq_getElem?_getD, List.getElem?_eq_getElem h1]

theorem rm_ghost_comp_rows_perm (order : Compaction) (horder : order.keeps_unremoved)
    (c : CoordComp) (h : c.lockstep) :
    (rm_ghost_comp order c).rows.Perm (c.rows.filter (fun t => !t.2.1)) := by
  have hlen : c.rows.length = c.coordinates.size := by
    obtain ⟨h1, h2, h3⟩ := h
    simp only [CTable.size] at h1
    simp [CoordComp.rows, CTable.size]
    omega
  have hperm := kept_rows_perm order horder c.rows.length (ghost_rows c) (ghost_rows_nodup c)
    (by rw [hlen]; exact ghost_rows_lt c)
  rw [rm_ghost_comp_rows order c h]
  refine (hperm.filterMap _).trans ?_
  rw [filterMap_filter_range c.rows (fun i => decide (i ∉ ghost_rows c)) (fun t => !t.2.1)]
  intro i hi
  rw [rows_ghost_flag c i hi]
  have hmem : i ∈ ghost_rows c ↔ c.is_ghost.getD i false = true := by
    simp only [ghost_rows, List.mem_filter, List.mem_range]
    constructor
    · exact fun hh => hh.2
    · exact fun hh => ⟨by omega, hh⟩
  cases hg : c.is_ghost.getD i false
  · have : i ∉ ghost_rows c := by rw [hmem, hg]; simp
    simp [this]
  · have : i ∈ ghost_rows c := by rw [hmem, hg]
    simp [this]

theorem rows_map_ghost (c : CoordComp) (h : c.lockstep) :
    c.rows.map (fun t => t.2.1) = c.is_ghost := by
  obtain ⟨h1, h2, h3⟩ := h
  simp only [CTable.size] at h1
  simp only [CoordComp.rows]
  apply List.ext_getElem
  · simp
    omega
  · intro i hi1 hi2
    simp

/-- Claim C3: if in every coordinate component the coordinates, `is_ghost`,
`global_node_indices` and `glb_elem_connectivity` tables have equal size
before the call, they have equal size after `rm_ghost_nodes`. -/
theorem rm_ghost_nodes_keeps_lockstep (order : Compaction) (mesh : CMesh)
    (h : ∀ c ∈ mesh.coords, c.lockstep) :
    ∀ c ∈ (rm_ghost_nodes order mesh).coords, c.lockstep := by
  intro c hc
  simp only [rm_ghost_nodes, List.mem_map] at hc
  obtain ⟨c0, hc0, rfl⟩ := hc
  exact rm_ghost_comp_lockstep order c0 (h c0 hc0)

/-- Witness for C3 on the coordinate component of the sample mesh. -/
theorem rm_ghost_nodes_keeps_lockstep_witness :
    (rm_ghost_comp Compaction.stable
      ⟨⟨2, [[10, 11], [20, 21], [30, 31]]⟩, [false, true, false], [5, 6, 7],
        [[0], [0, 1], [1]]⟩).lockstep :=
  rm_ghost_nodes_keeps_lockstep Compaction.stable sample_mesh
    (by
      intro c hc
      simp only [sample_mesh, List.mem_singleton] at hc
      subst hc
      simp [CoordComp.lockstep, CTable.size])
    _ (by simp [rm_ghost_nodes, sample_mesh])

/-- Claim C4: `rm_ghost_nodes` removes exactly the ghost rows.  In every
coordinate component (its four tables having equal size) no remaining row has
`is_ghost = true`, the number of rows equals the number of non-ghost rows
before the call, the four tables keep equal size, and the collection of rows
(coordinates, flag, global node index, referencing elements, taken at one
common row index) is the collection of the rows that were not ghost. -/
theorem rm_ghost_nodes_removes_exactly_ghosts (order : Compaction) (mesh : CMesh)
    (horder : order.keeps_unremoved) (h : ∀ c ∈ mesh.coords, c.lockstep) :
    (rm_ghost_nodes order mesh).coords.length = mesh.coords.length ∧
    ∀ (k : Nat) (c : CoordComp), mesh.coords[k]? = some c →
      ∃ c2 : CoordComp, (rm_ghost_nodes order mesh).coords[k]? = some c2 ∧
        (∀ b ∈ c2.is_ghost, b = false) ∧
        c2.coordinates.size = c.is_ghost.count false ∧
        c2.lockstep ∧
        c2.rows.Perm (c.rows.filter (fun t => !t.2.1)) := by
  refine ⟨by simp [rm_ghost_nodes], ?_⟩
  intro k c hk
  have hc : c ∈ mesh.coords := List.getElem?_mem hk
  have hlock := rm_ghost_comp_lockstep order c (h c hc)
  have hperm := rm_ghost_comp_rows_perm order horder c (h c hc)
  refine ⟨rm_ghost_comp order c, by simp [rm_ghost_nodes, hk], ?_, ?_, hlock, hperm⟩
  · intro b hb
    rw [← rows_map_ghost _ hlock] at hb
    obtain ⟨t, ht, rfl⟩ := List.mem_map.mp hb
    have := (List.mem_filter.mp (hperm.mem_iff.mp ht)).2
    simpa using this
  · have h1 : (rm_ghost_comp order c).coordinates.size = (rm_ghost_comp order c).rows.length := by
      obtain ⟨a1, a2, a3⟩ := hlock
      simp only [CTable.size] at a1
      simp [CoordComp.rows, CTable.size]
      omega
    rw [h1, hperm.length_eq, ← rows_map_ghost c (h c hc), List.count_eq_countP,
      List.countP_map, List.countP_eq_length_filter]
    congr 1
    apply List.filter_congr
    intro t _
    obtain ⟨t1, b, t3⟩ := t
    cases b <;> simp

theorem sample_mesh_lockstep : ∀ c ∈ sample_mesh.coords, c.lockstep := by
  intro c hc
  simp only [sample_mesh, List.mem_singleton] at hc
  subst hc
  simp [CoordComp.lockstep, CTable.size]

theorem stable_keeps_unremoved : Compaction.stable.keeps_unremoved :=
  fun _ _ _ _ => List.Perm.refl _

/-- Witness for C4 on the sample mesh, with the order-keeping compaction: the
component at position `0` keeps its two non-ghost rows. -/
theorem rm_ghost_nodes_removes_exactly_ghosts_witness :
    ∃ c2 : CoordComp, (rm_ghost_nodes Compaction.stable sample_mesh).coords[0]? = some c2 ∧
      (∀ b ∈ c2.is_ghost, b = false) ∧
      c2.coordinates.size = [false, true, false].count false ∧
      c2.lockstep ∧
      c2.rows.Perm
        ((CoordComp.rows ⟨⟨2, [[10, 11], [20, 21], [30, 31]]⟩, [false, true, false],
          [5, 6, 7], [[0], [0, 1], [1]]⟩).filter (fun t => !t.2.1)) :=
  (rm_ghost_nodes_removes_exactly_ghosts Compaction.stable sample_mesh stable_keeps_unremoved
    sample_mesh_lockstep).2 0 _ rfl

/-! ## Renumbering: properties -/

theorem foldl_assign_not_mem (kvs : List (Nat × Nat)) (m : StdMap) (k : Nat)
    (hk : k ∉ kvs.map Prod.fst) :
    (kvs.foldl (fun m kv => m.assign kv.1 kv.2) m) k = m k := by
  induction kvs generalizing m with
  | nil => rfl
  | cons kv rest ih =>
    simp only [List.map_cons, List.mem_cons, not_or] at hk
    rw [List.foldl_cons, ih _ hk.2]
    simp [StdMap.assign, hk.1]

theorem foldl_assign_mem (kvs : List (Nat × Nat)) (m : StdMap) (k v : Nat)
    (hnd : (kvs.map Prod.fst).Nodup) (hkv : (k, v) ∈ kvs) :
    (kvs.foldl (fun m kv => m.assign kv.1 kv.2) m) k = some v := by
  induction kvs generalizing m with
  | nil => simp at hkv
  | cons kv rest ih =>
    simp only [List.map_cons, List.nodup_cons] at hnd
    rw [List.foldl_cons]
    rcases List.mem_cons.mp hkv with h | h
    · subst h
      rw [foldl_assign_not_mem _ _ _ hnd.1]
      simp [StdMap.assign]
    · exact ih _ hnd.2 h

theorem glb_to_loc_rows_eq (c : CoordComp) (m : StdMap) :
    glb_to_loc_rows c m = (glb_to_loc_pairs c).foldl (fun m kv => m.assign kv.1 kv.2) m := by
  simp [glb_to_loc_rows, glb_to_loc_pairs, List.foldl_map]

theorem foldl_glb_to_loc_rows_eq (cs : List CoordComp) (m : StdMap) :
    cs.foldl (fun m c => glb_to_loc_rows c m) m =
      (cs.flatMap glb_to_loc_pairs).foldl (fun m kv => m.assign kv.1 kv.2) m := by
  induction cs generalizing m with
  | nil => rfl
  | cons c rest ih =>
    rw [List.foldl_cons, ih, List.flatMap_cons, List.foldl_append, glb_to_loc_rows_eq]

theorem glb_to_loc_pairs_keys (c : CoordComp)
    (h : c.coordinates.size = c.global_node_indices.length) :
    (glb_to_loc_pairs c).map Prod.fst = c.global_node_indices := by
  simp only [glb_to_loc_pairs, List.map_map, h]
  apply List.ext_getElem
  · simp
  · intro i h1 h2
    simp [List.getD_eq_getElem?_getD, List.getElem?_eq_getElem h2]

theorem flatMap_pairs_keys (cs : List CoordComp)
    (h : ∀ c ∈ cs, c.coordinates.size = c.global_node_indices.length) :
    (cs.flatMap glb_to_loc_pairs).map Prod.fst = cs.flatMap (fun c => c.global_node_indices) := by
  induction cs with
  | nil => rfl
  | cons c rest ih =>
    rw [List.flatMap_cons, List.flatMap_cons, List.map_append,
      glb_to_loc_pairs_keys c (h c (List.mem_cons_self _ _)),
      ih (fun c2 hc2 => h c2 (List.mem_cons_of_mem _ hc2))]

theorem build_glb_to_loc_at (cs : List CoordComp) (c : CoordComp) (n : Nat)
    (hsize : ∀ c ∈ cs, c.coordinates.size = c.global_node_indices.length)
    (hnd : (cs.flatMap (fun c => c.global_node_indices)).Nodup)
    (hc : c ∈ cs) (hn : n < c.global_node_indices.length) :
    (build_glb_to_loc cs).at (c.global_node_indices.getD n 0) = n := by
  have hmem : (c.global_node_indices.getD n 0, n) ∈ cs.flatMap glb_to_loc_pairs := by
    rw [List.mem_flatMap]
    refine ⟨c, hc, ?_⟩
    simp only [glb_to_loc_pairs, List.mem_map, List.mem_range]
    exact ⟨n, by rw [hsize c hc]; exact hn, rfl⟩
  have hkeys : ((cs.flatMap glb_to_loc_pairs).map Prod.fst).Nodup := by
    rw [flatMap_pairs_keys cs hsize]
    exact hnd
  simp only [build_glb_to_loc, StdMap.at]
  rw [foldl_glb_to_loc_rows_eq, foldl_assign_mem _ _ _ _ hkeys hmem]
  rfl

theorem map_eq_self {α : Type} (l : List α) (F : α → α) (h : ∀ a ∈ l, F a = a) :
    l.map F = l := by
  conv_rhs => rw [← List.map_id l]
  exact List.map_congr_left h

/-- Claim C2: on an unmigrated mesh (every global node index is held by one
row only, the coordinate table and its index list have equal size) whose
connectivity entries are valid local row indices,
`give_elems_global_node_numbers` followed by `give_elems_local_node_numbers`
leaves every element connectivity table, and the whole mesh, as it was. -/
theorem renumbering_round_trip (mesh : CMesh)
    (hsize : ∀ c ∈ mesh.coords, c.coordinates.size = c.global_node_indices.length)
    (hnd : (mesh.coords.flatMap (fun c => c.global_node_indices)).Nodup)
    (hvalid : ∀ e ∈ mesh.elems, e.coordinates < mesh.coords.length ∧
      ∀ row ∈ e.connectivity_table.array, ∀ n ∈ row,
        n < (mesh.coordComp e.coordinates).global_node_indices.length) :
    give_elems_local_node_numbers (give_elems_global_node_numbers mesh) = mesh ∧
    ∀ k : Nat, ((give_elems_local_node_numbers (give_elems_global_node_numbers mesh)).elems.map
      (fun e => e.connectivity_table))[k]? = (mesh.elems.map (fun e => e.connectivity_table))[k]? := by
  have key : give_elems_local_node_numbers (give_elems_global_node_numbers mesh) = mesh := by
    simp only [give_elems_local_node_numbers, give_elems_global_node_numbers, List.map_map]
    rw [map_eq_self]
    intro e he
    obtain ⟨hk, hrows⟩ := hvalid e he
    have hcmem : mesh.coordComp e.coordinates ∈ mesh.coords := by
      simp only [CMesh.coordComp, List.getD_eq_getElem?_getD, List.getElem?_eq_getElem hk,
        Option.getD_some]
      exact List.getElem_mem _
    simp only [Function.comp, CTable.map_entries, List.map_map]
    rw [map_eq_self]
    intro row hrow
    simp only [Function.comp, List.map_map]
    rw [map_eq_self]
    intro n hn
    exact build_glb_to_loc_at mesh.coords _ n hsize hnd hcmem (hrows row hrow n hn)
  exact ⟨key, by rw [key]; intro k; rfl⟩

/-- Witness for C2 on the sample mesh. -/
theorem renumbering_round_trip_witness :
    give_elems_local_node_numbers (give_elems_global_node_numbers sample_mesh) = sample_mesh :=
  (renumbering_round_trip sample_mesh (by decide) (by decide) (by decide)).1

/-! ## Node sizes and packing: properties -/

theorem encode_word_length (w v : Nat) : (encode_word w v).length = w := by
  induction w generalizing v with
  | zero => rfl
  | succ w ih => simp [encode_word, ih]

theorem flatMap_encode_length (w : Nat) (l : List Nat) :
    (l.flatMap (encode_word w)).length = w * l.length := by
  induction l with
  | nil => simp
  | cons v rest ih =>
    rw [List.flatMap_cons, List.length_append, ih, encode_word_length, List.length_cons]
    ring

theorem write_bytes_nil (buf : ByteBuf) (p : Nat) : write_bytes buf p [] = buf := by
  funext a
  simp [write_bytes]

theorem write_bytes_append (buf : ByteBuf) (p : Nat) (a b : List Nat) :
    write_bytes (write_bytes buf p a) (p + a.length) b = write_bytes buf p (a ++ b) := by
  funext x
  simp only [write_bytes, List.length_append, List.getD_eq_getElem?_getD]
  by_cases h1 : p + a.length ≤ x ∧ x < p + a.length + b.length
  · have h2 : p ≤ x ∧ x < p + (a.length + b.length) := by omega
    have h3 : a.length ≤ x - p := by omega
    have h4 : x - p - a.length = x - (p + a.length) := by omega
    rw [if_pos h1, if_pos h2, List.getElem?_append_right h3, h4]
  · rw [if_neg h1]
    by_cases h2 : p ≤ x ∧ x < p + a.length
    · have h3 : p ≤ x ∧ x < p + (a.length + b.length) := by omega
      have h4 : x - p < a.length := by omega
      rw [if_pos h2, if_pos h3, List.getElem?_append_left h4]
    · have h3 : ¬ (p ≤ x ∧ x < p + (a.length + b.length)) := by omega
      rw [if_neg h2, if_neg h3]

theorem store_written (w : Nat) (buf : ByteBuf) (p : Nat) (a : List Nat) (v : Nat) :
    store w (write_bytes buf p a, p + a.length) v =
      (write_bytes buf p (a ++ encode_word w v), p + (a ++ encode_word w v).length) := by
  simp only [store, write_bytes_append, List.length_append, encode_word_length]
  rw [Nat.add_assoc]

theorem foldl_store_written (w : Nat) (buf : ByteBuf) (p : Nat) (l a : List Nat) :
    l.foldl (store w) (write_bytes buf p a, p + a.length) =
      (write_bytes buf p (a ++ l.flatMap (encode_word w)),
        p + (a ++ l.flatMap (encode_word w)).length) := by
  induction l generalizing a with
  | nil => simp
  | cons v rest ih =>
    rw [List.foldl_cons, store_written, ih, List.flatMap_cons, List.append_assoc]

theorem pack_node_eq (szU szR : Nat) (mesh : CMesh) (loc_id : LocalID) (buf : ByteBuf)
    (start : Nat) :
    pack_node szU szR mesh loc_id buf start =
      (write_bytes buf start (node_message szU szR mesh loc_id),
        start + (node_message szU szR mesh loc_id).length) := by
  have h0 : (buf, start) = (write_bytes buf start [], start + ([] : List Nat).length) := by
    simp [write_bytes_nil]
  simp only [pack_node]
  rw [h0, store_written, foldl_store_written, store_written, foldl_store_written]
  simp [node_message]

theorem node_message_length (szU szR : Nat) (mesh : CMesh) (loc_id : LocalID) :
    (node_message szU szR mesh loc_id).length =
      szU + szR * (mesh.coord_row loc_id).length +
        szU * (1 + (mesh.glb_elems_row loc_id).length) := by
  simp only [node_message, List.length_append, encode_word_length, flatMap_encode_length]
  ring

theorem same_payload_refl (m : CMesh) : same_payload m m :=
  ⟨rfl, fun _ => ⟨rfl, rfl⟩⟩

theorem mark_ghost_getD (coords : List CoordComp) (loc_id : LocalID) (j : Nat) :
    ((mark_ghost coords loc_id).getD j CoordComp.empty).coordinates =
        (coords.getD j CoordComp.empty).coordinates ∧
      ((mark_ghost coords loc_id).getD j CoordComp.empty).glb_elem_connectivity =
        (coords.getD j CoordComp.empty).glb_elem_connectivity := by
  simp only [mark_ghost, List.getD_eq_getElem?_getD, List.getElem?_modify]
  cases coords[j]? with
  | none => simp
  | some c => by_cases h : loc_id.COMP = j <;> simp [h]

theorem same_payload_mark (m m2 : CMesh) (loc_id : LocalID) (h : same_payload m m2) :
    same_payload m { m2 with coords := mark_ghost m2.coords loc_id } := by
  refine ⟨h.1, fun l => ?_⟩
  have hg := mark_ghost_getD m2.coords loc_id l.COMP
  have hl := h.2 l
  simp only [CMesh.coord_row, CMesh.glb_elems_row, CMesh.coordComp] at hl ⊢
  rw [hg.1, hg.2]
  exact hl

theorem node_message_same_payload (szU szR : Nat) (m m2 : CMesh) (loc_id : LocalID)
    (h : same_payload m m2) :
    node_message szU szR m2 loc_id = node_message szU szR m loc_id := by
  simp only [node_message, (h.2 loc_id).1, (h.2 loc_id).2]

theorem pack_nodes_fold (szU szR : Nat) (mesh : CMesh) (entries : List (Nat × LocalID × Nat))
    (s : CMesh × ByteBuf) (hs : same_payload mesh s.1) :
    same_payload mesh (entries.foldl (pack_nodes_step szU szR) s).1 ∧
    (entries.foldl (pack_nodes_step szU szR) s).2 =
      entries.foldl (fun b entry =>
        if entry.1 < mesh.elem_start_idx then
          write_bytes b entry.2.2 (node_message szU szR mesh entry.2.1)
        else b) s.2 := by
  induction entries generalizing s with
  | nil => exact ⟨hs, rfl⟩
  | cons entry rest ih =>
    rw [List.foldl_cons, List.foldl_cons]
    by_cases hnode : entry.1 < mesh.elem_start_idx
    · have hnode2 : entry.1 < s.1.elem_start_idx := by rw [hs.1]; exact hnode
      have hstep : pack_nodes_step szU szR s entry =
          ({ s.1 with coords := mark_ghost s.1.coords entry.2.1 },
            write_bytes s.2 entry.2.2 (node_message szU szR mesh entry.2.1)) := by
        simp only [pack_nodes_step, if_pos hnode2, pack_node_eq,
          node_message_same_payload szU szR mesh s.1 _ hs]
      rw [hstep, if_pos hnode]
      exact ih _ (same_payload_mark mesh s.1 _ hs)
    · have hnode2 : ¬ entry.1 < s.1.elem_start_idx := by rw [hs.1]; exact hnode
      have hstep : pack_nodes_step szU szR s entry = s := by
        simp only [pack_nodes_step, if_neg hnode2]
      rw [hstep, if_neg hnode]
      exact ih s hs

theorem coord_row_length (mesh : CMesh) (loc_id : LocalID)
    (hwf : ∀ c ∈ mesh.coords, c.coordinates.wf)
    (hcomp : loc_id.COMP < mesh.coords.length)
    (hidx : loc_id.IDX < (mesh.coordComp loc_id.COMP).coordinates.size) :
    (mesh.coord_row loc_id).length = (mesh.coordComp loc_id.COMP).coordinates.row_size := by
  have hcmem : mesh.coordComp loc_id.COMP ∈ mesh.coords := by
    simp only [CMesh.coordComp, List.getD_eq_getElem?_getD, List.getElem?_eq_getElem hcomp,
      Option.getD_some]
    exact List.getElem_mem _
  apply hwf _ hcmem
  simp only [CTable.size] at hidx
  simp only [CMesh.coord_row, List.getD_eq_getElem?_getD, List.getElem?_eq_getElem hidx,
    Option.getD_some]
  exact List.getElem_mem _

/-- Claim C10: node sizing is byte-exact.  For every id list (local ids of
node entries pointing at rows of the mesh), `get_nodes_sizes` reports for a
node id (`id < elem_start_idx`) the value `sizeof(Uint) + sizeof(Real) *
row_size + sizeof(Uint) * (1 + number of referencing elements)`; the writes
of `pack_nodes_messages` for that entry are exactly that many bytes, placed
from its offset on; for an element id the size is `0` and nothing is
written. -/
theorem node_sizes_byte_exact (szU szR : Nat) (mesh : CMesh) (globalIDs : List Nat)
    (localIDs : List LocalID) (idx : List Nat) (buf : ByteBuf)
    (hwf : ∀ c ∈ mesh.coords, c.coordinates.wf)
    (hloc : ∀ (i : Nat) (glb : Nat) (loc : LocalID), globalIDs[i]? = some glb →
      localIDs[i]? = some loc → glb < mesh.elem_start_idx →
        loc.COMP < mesh.coords.length ∧
          loc.IDX < (mesh.coordComp loc.COMP).coordinates.size) :
    (∀ (i : Nat) (glb : Nat) (loc : LocalID), globalIDs[i]? = some glb →
      localIDs[i]? = some loc →
        (glb < mesh.elem_start_idx →
          (get_nodes_sizes szU szR mesh globalIDs localIDs).1[i]? =
            some (szU + szR * (mesh.coordComp loc.COMP).coordinates.row_size +
              szU * (1 + (mesh.glb_elems_row loc).length)) ∧
          (node_message szU szR mesh loc).length =
            szU + szR * (mesh.coordComp loc.COMP).coordinates.row_size +
              szU * (1 + (mesh.glb_elems_row loc).length) ∧
          ∀ (b : ByteBuf) (start : Nat), pack_node szU szR mesh loc b start =
            (write_bytes b start (node_message szU szR mesh loc),
              start + (szU + szR * (mesh.coordComp loc.COMP).coordinates.row_size +
                szU * (1 + (mesh.glb_elems_row loc).length)))) ∧
        (¬ glb < mesh.elem_start_idx →
          (get_nodes_sizes szU szR mesh globalIDs localIDs).1[i]? = some 0)) ∧
    (pack_nodes_messages szU szR mesh globalIDs localIDs idx buf).2.1 =
      (globalIDs.zip (localIDs.zip idx)).foldl (fun b entry =>
        if entry.1 < mesh.elem_start_idx then
          write_bytes b entry.2.2 (node_message szU szR mesh entry.2.1)
        else b) buf := by
  refine ⟨?_, ?_⟩
  · intro i glb loc hg hl
    have hsz : (get_nodes_sizes szU szR mesh globalIDs localIDs).1[i]? =
        some (if glb < mesh.elem_start_idx then
          szU + szR * (mesh.coordComp loc.COMP).coordinates.row_size +
            szU * (1 + (mesh.glb_elems_row loc).length)
          else 0) := by
      simp only [get_nodes_sizes, List.getElem?_zipWith, hg, hl]
    constructor
    · intro hnode
      obtain ⟨hcomp, hidx⟩ := hloc i glb loc hg hl hnode
      have hlen : (node_message szU szR mesh loc).length =
          szU + szR * (mesh.coordComp loc.COMP).coordinates.row_size +
            szU * (1 + (mesh.glb_elems_row loc).length) := by
        rw [node_message_length, coord_row_length mesh loc hwf hcomp hidx]
      refine ⟨by rw [hsz, if_pos hnode], hlen, ?_⟩
      intro b start
      rw [pack_node_eq, hlen]
    · intro hnode
      rw [hsz, if_neg hnode]
  · exact (pack_nodes_fold szU szR mesh _ (mesh, buf) (same_payload_refl mesh)).2

theorem sample_mesh_wf : ∀ c ∈ sample_mesh.coords, c.coordinates.wf := by
  intro c hc
  simp only [sample_mesh, List.mem_singleton] at hc
  subst hc
  intro row hrow
  simp at hrow
  rcases hrow with h | h | h <;> simp [h]

/-- Witness for C10: on the sample mesh with four-byte `Uint` and eight-byte
`Real`, the node at row `0` takes `4 + 8 * 2 + 4 * (1 + 1) = 28` bytes and the
element takes none. -/
theorem node_sizes_byte_exact_witness :
    (get_nodes_sizes 4 8 sample_mesh [5, 8] [⟨0, 0⟩, ⟨0, 1⟩]).1[0]? = some 28 ∧
    (get_nodes_sizes 4 8 sample_mesh [5, 8] [⟨0, 0⟩, ⟨0, 1⟩]).1[1]? = some 0 :=
  have h := (node_sizes_byte_exact 4 8 sample_mesh [5, 8] [⟨0, 0⟩, ⟨0, 1⟩] [0, 28]
    (fun _ => 0) sample_mesh_wf (by
      intro i glb loc hg hl hnode
      match i, hg, hl with
      | 0, hg, hl =>
        simp at hg hl
        subst hg hl
        decide
      | 1, hg, hl =>
        simp at hg
        subst hg
        simp [sample_mesh] at hnode
      | n + 2, hg, hl => simp at hg)).1
  ⟨(h 0 5 ⟨0, 0⟩ rfl rfl).1 (by decide) |>.1, (h 1 8 ⟨0, 1⟩ rfl rfl).2 (by decide)⟩

/-! ## Node unpacking: properties -/

theorem decode_encode_word (w v : Nat) : decode_word (encode_word w v) = v % 256 ^ w := by
  induction w generalizing v with
  | zero => simp [encode_word, decode_word, Nat.mod_one]
  | succ w ih =>
    simp only [encode_word, decode_word, ih]
    rw [Nat.pow_succ, Nat.mul_comm (256 ^ w) 256, Nat.mod_mul]

theorem read_bytes_length (buf : ByteBuf) (q n : Nat) : (read_bytes buf q n).length = n := by
  simp [read_bytes]

theorem read_bytes_add (buf : ByteBuf) (q n m : Nat) :
    read_bytes buf q (n + m) = read_bytes buf q n ++ read_bytes buf (q + n) m := by
  simp only [read_bytes, List.range_add, List.map_append, List.map_map]
  congr 1
  apply List.map_congr_left
  intro i _
  simp [Function.comp, Nat.add_assoc]

theorem holds_at_append (buf : ByteBuf) (q : Nat) (a b : List Nat) :
    holds_at buf q (a ++ b) ↔ holds_at buf q a ∧ holds_at buf (q + a.length) b := by
  simp only [holds_at, List.length_append, read_bytes_add]
  constructor
  · intro h
    exact List.append_inj h (read_bytes_length _ _ _)
  · rintro ⟨h1, h2⟩
    rw [h1, h2]

theorem load_of_holds (w : Nat) (buf : ByteBuf) (q v : Nat)
    (h : holds_at buf q (encode_word w v)) (hv : v < 256 ^ w) :
    load w buf q = (v, q + w) := by
  simp only [holds_at, encode_word_length] at h
  simp only [load, h, decode_encode_word, Nat.mod_eq_of_lt hv]

theorem load_many_of_holds (w : Nat) (buf : ByteBuf) (l : List Nat) (q : Nat)
    (h : holds_at buf q (l.flatMap (encode_word w))) (hv : ∀ v ∈ l, v < 256 ^ w) :
    load_many w buf q l.length = l := by
  induction l generalizing q with
  | nil => rfl
  | cons v rest ih =>
    rw [List.flatMap_cons, holds_at_append, encode_word_length] at h
    have hload := load_of_holds w buf q v h.1 (hv v (List.mem_cons_self _ _))
    simp only [List.length_cons, load_many, hload]
    rw [ih (q + w) h.2 (fun x hx => hv x (List.mem_cons_of_mem _ hx))]

theorem unpack_node_of_holds (szU szR : Nat) (buf : ByteBuf) (q : Nat) (mesh : CMesh)
    (loc_id : LocalID) (c0 c1 : Nat)
    (h : holds_at buf q (node_message szU szR mesh loc_id))
    (hrow : mesh.coord_row loc_id = [c0, c1])
    (hcomp : loc_id.COMP < 256 ^ szU) (hc0 : c0 < 256 ^ szR) (hc1 : c1 < 256 ^ szR)
    (hcount : (mesh.glb_elems_row loc_id).length < 256 ^ szU)
    (helems : ∀ v ∈ mesh.glb_elems_row loc_id, v < 256 ^ szU) :
    unpack_node szU szR buf q =
      { comp_idx := loc_id.COMP
        coord_vec := [c0, c1]
        elems := mesh.glb_elems_row loc_id
        last := q + szU + szR + szR + szU + szU * (mesh.glb_elems_row loc_id).length } := by
  simp only [node_message, hrow, List.flatMap_cons, List.flatMap_nil, List.append_nil,
    holds_at_append, List.length_append, encode_word_length] at h
  obtain ⟨⟨⟨h1, h2, h3⟩, h4⟩, h5⟩ := h
  have l1 := load_of_holds szU buf q _ h1 hcomp
  have l2 := load_of_holds szR buf (q + szU) _ h2 hc0
  have l3 := load_of_holds szR buf (q + szU + szR) _ h3 hc1
  have l4 := load_of_holds szU buf (q + (szU + (szR + szR))) _ h4 hcount
  have e1 : q + szU + szR + szR = q + (szU + (szR + szR)) := by omega
  have l5 := load_many_of_holds szU buf _ (q + (szU + (szR + szR) + szU)) h5 helems
  have e2 : q + (szU + (szR + szR)) + szU = q + (szU + (szR + szR) + szU) := by omega
  simp only [unpack_node, l1, l2, l3, e1, l4, e2, l5]

theorem flush_after_add_node (order : Compaction) (coords : List CoordComp) (k : Nat)
    (coord_vec : List Nat) (ghost : Bool) (elems : List Nat) (glb_id : Nat) :
    List.zipWith (NodeBuffers.flush order) coords
        ((coords.map (fun _ => NodeBuffers.create)).modify
          (fun b => b.add_node coord_vec ghost elems glb_id) k) =
      coords.modify (fun c => c.append_row coord_vec ghost elems glb_id) k := by
  apply List.ext_getElem?
  intro i
  simp only [List.getElem?_zipWith, List.getElem?_modify, List.getElem?_map]
  cases coords[i]? with
  | none => simp
  | some c =>
    by_cases hk : k = i
    · simp [hk, NodeBuffers.flush, Buffer.flush, NodeBuffers.add_node, NodeBuffers.create,
        Buffer.create, Buffer.add_row, CoordComp.append_row]
    · simp [hk, NodeBuffers.flush, Buffer.flush, NodeBuffers.create, Buffer.create]

theorem read_write_same (buf : ByteBuf) (p : Nat) (msg : List Nat) :
    read_bytes (write_bytes buf p msg) p msg.length = msg := by
  apply List.ext_getElem
  · simp [read_bytes]
  · intro i h1 h2
    simp [read_bytes, write_bytes, h2, List.getD_eq_getElem?_getD]

/-- Round trip of one node with two coordinates: when the bytes that
`pack_nodes_messages` wrote for the node (as many as `get_nodes_sizes`
reported) are handed to `unpack_nodes_messages` at any offset, the component
named by the local id gains one row with the same two coordinates, the same
list of referencing global elements, the global id, and `is_ghost = false`. -/
theorem node_round_trip_two_coordinates (order : Compaction) (szU szR : Nat)
    (src dst : CMesh) (glb : Nat) (loc : LocalID) (p q : Nat) (sbuf dbuf : ByteBuf)
    (c0 c1 : Nat) (hszU : 0 < szU) (hnode : glb < src.elem_start_idx)
    (hrow : src.coord_row loc = [c0, c1])
    (hwidth : (src.coordComp loc.COMP).coordinates.row_size = 2)
    (hcomp : loc.COMP < 256 ^ szU) (hc0 : c0 < 256 ^ szR) (hc1 : c1 < 256 ^ szR)
    (hcount : (src.glb_elems_row loc).length < 256 ^ szU)
    (helems : ∀ v ∈ src.glb_elems_row loc, v < 256 ^ szU)
    (hcopy : read_bytes dbuf q (get_nodes_sizes szU szR src [glb] [loc]).1.sum =
      read_bytes (pack_nodes_messages szU szR src [glb] [loc] [p] sbuf).2.1 p
        (get_nodes_sizes szU szR src [glb] [loc]).1.sum) :
    unpack_nodes_messages order szU szR dst [glb] (get_nodes_sizes szU szR src [glb] [loc]).1
        [q] dbuf =
      (dst.append_node loc.COMP [c0, c1] false (src.glb_elems_row loc) glb, ZOLTAN_OK) := by
  have hlen : (node_message szU szR src loc).length =
      szU + szR * 2 + szU * (1 + (src.glb_elems_row loc).length) := by
    rw [node_message_length, hrow]
    rfl
  have hsizes : (get_nodes_sizes szU szR src [glb] [loc]).1 =
      [(node_message szU szR src loc).length] := by
    simp [get_nodes_sizes, hnode, hwidth, hlen]
  have hpack : (pack_nodes_messages szU szR src [glb] [loc] [p] sbuf).2.1 =
      write_bytes sbuf p (node_message szU szR src loc) := by
    simp [pack_nodes_messages, pack_nodes_step, hnode, pack_node_eq]
  rw [hsizes, hpack] at hcopy
  simp only [List.sum_cons, List.sum_nil, Nat.add_zero, read_write_same] at hcopy
  have hholds : holds_at dbuf q (node_message szU szR src loc) := hcopy
  have hmsg := unpack_node_of_holds szU szR dbuf q src loc c0 c1 hholds hrow hcomp hc0 hc1
    hcount helems
  have hpos : (node_message szU szR src loc).length > 0 := by
    rw [hlen]
    omega
  rw [hsizes]
  simp only [unpack_nodes_messages, List.zip_cons_cons, List.zip_nil_right, List.foldl_cons,
    List.foldl_nil, unpack_nodes_step, if_pos hpos, hmsg, flush_after_add_node,
    CMesh.append_node]

/-- Witness of the two-coordinate round trip: row `0` of the sample mesh, sent
to the sample mesh itself. -/
theorem node_round_trip_two_coordinates_witness :
    unpack_nodes_messages Compaction.stable 4 8 sample_mesh [5]
        (get_nodes_sizes 4 8 sample_mesh [5] [⟨0, 0⟩]).1 [0]
        (pack_nodes_messages 4 8 sample_mesh [5] [⟨0, 0⟩] [0] (fun _ => 0)).2.1 =
      (sample_mesh.append_node 0 [10, 11] false [0] 5, ZOLTAN_OK) :=
  node_round_trip_two_coordinates Compaction.stable 4 8 sample_mesh sample_mesh 5 ⟨0, 0⟩ 0 0
    (fun _ => 0) _ 10 11 (by decide) (by decide) (by decide) (by decide) (by decide)
    (by decide) (by decide) (by decide) (by decide) rfl

/-- Claim C1 at a node with three coordinates (four-byte `Uint`, eight-byte
`Real`): `get_nodes_sizes` reports 36 bytes and `pack_nodes_messages` writes
the three coordinates `1, 2, 3` and the element list `[0]`, but
`unpack_nodes_messages` appends a row with the two coordinates `1, 2` only and
takes the element count from the bytes of the third coordinate, so the
received row has three referencing elements `0, 1, 0`. -/
theorem node_round_trip_fails_for_three_coordinates :
    (get_nodes_sizes 4 8 mesh_3d [0] [⟨0, 0⟩]).1 = [36] ∧
    mesh_3d.coord_row ⟨0, 0⟩ = [1, 2, 3] ∧
    mesh_3d.glb_elems_row ⟨0, 0⟩ = [0] ∧
    (unpack_nodes_messages Compaction.stable 4 8 empty_mesh_3d [0]
        (get_nodes_sizes 4 8 mesh_3d [0] [⟨0, 0⟩]).1 [0]
        (pack_nodes_messages 4 8 mesh_3d [0] [⟨0, 0⟩] [0] (fun _ => 0)).2.1).1.coords =
      [⟨⟨3, [[1, 2]]⟩, [false], [0], [[0, 1, 0]]⟩] := by
  decide

/-! ## Graph symmetry -/

theorem sum_map_flatMap {α β : Type} (l : List α) (f : α → List β) (g : β → Nat) :
    ((l.flatMap f).map g).sum = (l.map (fun x => ((f x).map g).sum)).sum := by
  induction l with
  | nil => rfl
  | cons a rest ih => simp [List.flatMap_cons, ih]

theorem edges_from_node_rows_length (np : Nat) (mesh : CMesh) (ig : List Bool)
    (all rows : List (List Nat)) (i : Nat) (h : all.drop i = rows) :
    (edges_from_node_rows np mesh ig i rows).length =
      (((List.range' i rows.length).filter (fun j => !(ig.getD j true))).map
        (fun j => (all.getD j []).length)).sum := by
  induction rows generalizing i with
  | nil => simp [edges_from_node_rows]
  | cons row rest ih =>
    obtain ⟨hrow, hrest⟩ := getD_eq_head_of_drop all i [] row rest h
    simp only [edges_from_node_rows, List.length_append, ih (i + 1) hrest, List.length_cons,
      List.range'_succ, List.filter_cons]
    rw [List.getD_eq_getElem?_getD] at hrow
    cases hg : ig.getD i true
    · simp [hrow]
    · simp

theorem edges_from_node_comp_length (np : Nat) (mesh : CMesh) (c : CoordComp) :
    (edges_from_node_rows np mesh c.is_ghost 0 c.glb_elem_connectivity).length =
      (c.non_ghost_rows.map (fun nd => nd.2.length)).sum := by
  rw [edges_from_node_rows_length np mesh c.is_ghost c.glb_elem_connectivity
    c.glb_elem_connectivity 0 rfl]
  simp [CoordComp.non_ghost_rows, List.range_eq_range', Function.comp_def]

theorem edges_from_nodes_length (np : Nat) (m : CMesh) :
    (edges_from_nodes np m).length =
      ((m.coords.flatMap CoordComp.non_ghost_rows).map (fun nd => nd.2.length)).sum := by
  rw [sum_map_flatMap]
  simp only [edges_from_nodes, List.length_flatMap, Function.comp]
  congr 1
  apply List.map_congr_left
  intro c _
  exact edges_from_node_comp_length np m c

theorem foldl_insert_eq (l : List Nat) (s : StdSet) :
    l.foldl (fun s node => insert node s) s = s ∪ l.toFinset := by
  induction l generalizing s with
  | nil => simp
  | cons x rest ih =>
    rw [List.foldl_cons, ih]
    ext a
    simp only [Finset.mem_union, Finset.mem_insert, List.mem_toFinset, List.mem_cons]
    tauto

theorem foldl_rows_insert_eq (rows : List (List Nat)) (s : StdSet) :
    rows.foldl (fun s nodes => nodes.foldl (fun s node => insert node s) s) s =
      s ∪ (rows.flatMap (fun nodes => nodes)).toFinset := by
  induction rows generalizing s with
  | nil => simp
  | cons row rest ih =>
    rw [List.foldl_cons, ih, foldl_insert_eq]
    ext a
    simp only [Finset.mem_union, List.mem_toFinset, List.flatMap_cons, List.mem_append]
    tauto

theorem insert_connectivity_eq (elems : List CElements) (s : StdSet) :
    insert_connectivity elems s =
      s ∪ (elems.flatMap (fun e =>
        e.connectivity_table.array.flatMap (fun nodes => nodes))).toFinset := by
  induction elems generalizing s with
  | nil => simp [insert_connectivity]
  | cons e rest ih =>
    simp only [insert_connectivity, List.foldl_cons] at ih ⊢
    rw [ih, foldl_rows_insert_eq]
    ext a
    simp only [Finset.mem_union, List.mem_toFinset, List.flatMap_cons, List.mem_append]
    tauto

theorem foldl_erase_eq (l : List Nat) (s : StdSet) :
    l.foldl (fun s node => if node ∈ s then s.erase node else s) s = s \ l.toFinset := by
  induction l generalizing s with
  | nil => simp
  | cons x rest ih =>
    rw [List.foldl_cons, ih]
    ext a
    by_cases hx : x ∈ s
    · simp only [if_pos hx, Finset.mem_sdiff, Finset.mem_erase, List.mem_toFinset,
        List.mem_cons]
      tauto
    · simp only [if_neg hx, Finset.mem_sdiff, List.mem_toFinset, List.mem_cons]
      constructor
      · rintro ⟨h1, h2⟩
        refine ⟨h1, ?_⟩
        rintro (h | h)
        · exact hx (h ▸ h1)
        · exact h2 h
      · rintro ⟨h1, h2⟩
        exact ⟨h1, fun h => h2 (Or.inr h)⟩

theorem erase_resident_eq (coords : List CoordComp) (s : StdSet) :
    erase_resident coords s = s \ (coords.flatMap (fun c => c.global_node_indices)).toFinset := by
  induction coords generalizing s with
  | nil => simp [erase_resident]
  | cons c rest ih =>
    simp only [erase_resident, List.foldl_cons] at ih ⊢
    rw [ih, foldl_erase_eq]
    ext a
    simp only [Finset.mem_sdiff, List.mem_toFinset, List.flatMap_cons, List.mem_append]
    tauto

/-- Claim C17: `get_ghost_nodes_to_import` returns the set of ids occurring in
some element connectivity row minus the set of ids occurring in some
`global_node_indices` list; it is empty exactly when every referenced id is
resident, and it shares no id with the resident set. -/
theorem get_ghost_nodes_to_import_is_difference (mesh : CMesh) :
    (get_ghost_nodes_to_import mesh).1 = referenced_ids mesh \ resident_ids mesh ∧
    ((get_ghost_nodes_to_import mesh).1 = ∅ ↔ referenced_ids mesh ⊆ resident_ids mesh) ∧
    Disjoint (get_ghost_nodes_to_import mesh).1 (resident_ids mesh) := by
  have h : (get_ghost_nodes_to_import mesh).1 = referenced_ids mesh \ resident_ids mesh := by
    simp only [get_ghost_nodes_to_import, erase_resident_eq, insert_connectivity_eq,
      referenced_ids, resident_ids, Finset.empty_union]
  refine ⟨h, ?_, ?_⟩
  · rw [h, Finset.sdiff_eq_empty_iff_subset]
  · rw [h]
    exact Finset.sdiff_disjoint

/-- Claim C18: `get_ghost_nodes_to_import` leaves the mesh as it was, and a
second call right after the first returns the same set. -/
theorem get_ghost_nodes_to_import_repeatable (mesh : CMesh) :
    (get_ghost_nodes_to_import mesh).2 = mesh ∧
    (get_ghost_nodes_to_import (get_ghost_nodes_to_import mesh).2).1 =
      (get_ghost_nodes_to_import mesh).1 ∧
    (get_ghost_nodes_to_import (get_ghost_nodes_to_import mesh).2).2 = mesh :=
  ⟨rfl, rfl, rfl⟩

/-! ## Empty contribution -/

/-- Claim C19 on a mesh slice that holds one ghost node and no element (zero
non-ghost nodes, zero elements): `get_number_of_objects_mesh` returns `0` and
`get_object_list_mesh` emits nothing with `ZOLTAN_OK`, but
`get_num_edges_list_mesh` enters its first node component with
`zoltan_idx = 0 >= tot_nb_objects = 0` and reports `ZOLTAN_FATAL`. -/
theorem empty_contribution_is_fatal :
    nb_non_ghost ghost_only_mesh = 0 ∧
    recursive_elements_count ghost_only_mesh = 0 ∧
    get_number_of_objects_mesh ghost_only_mesh = (0, ZOLTAN_OK) ∧
    get_object_list_mesh ghost_only_mesh = ([], ZOLTAN_OK) ∧
    get_num_edges_list_mesh ghost_only_mesh = ([], ZOLTAN_FATAL) := by
  decide

/-- Without any coordinate component and without element rows the three
callbacks report an empty contribution and `ZOLTAN_OK`. -/
theorem empty_contribution_without_components (mesh : CMesh) (hc : mesh.coords = [])
    (he : mesh.elems = []) :
    get_number_of_objects_mesh mesh = (0, ZOLTAN_OK) ∧
    get_object_list_mesh mesh = ([], ZOLTAN_OK) ∧
    get_num_edges_list_mesh mesh = ([], ZOLTAN_OK) := by
  simp [get_number_of_objects_mesh, get_object_list_mesh, get_num_edges_list_mesh, hc, he,
    count_non_ghost_comps, recursive_elements_count, object_list_nodes, object_list_elems,
    num_edges_nodes, num_edges_elems]

/-! ## Ghost set after the element migration: properties -/

/-- Claim C20 on a mesh that owns node `7` while no local element references
it, with an empty ghost set before the call and nothing imported or exported:
the set `((C minus L) union E) minus I` is empty, but step 2 of
`post_migrate_elems` does not find `7` in the set and inserts it, so the ghost
set afterwards holds the locally owned node `7`. -/
theorem post_migrate_elems_inserts_owned_node :
    referenced_ids unreferenced_node_mesh = ∅ ∧
    owned_ids unreferenced_node_mesh = {7} ∧
    ((referenced_ids unreferenced_node_mesh \ owned_ids unreferenced_node_mesh) ∪
        node_ids unreferenced_node_mesh.elem_start_idx []) \
      node_ids unreferenced_node_mesh.elem_start_idx [] = ∅ ∧
    post_migrate_elems unreferenced_node_mesh ∅ [] [] = ({7}, ZOLTAN_OK) := by
  decide

/-! ## Kind boundary in the element pass -/

theorem foldl_eq_self {α β : Type} (f : α → β → α) (l : List β) (a : α)
    (h : ∀ (x : α) (b : β), b ∈ l → f x b = x) : l.foldl f a = a := by
  induction l generalizing a with
  | nil => rfl
  | cons b rest ih =>
    rw [List.foldl_cons, h a b (List.mem_cons_self _ _)]
    exact ih a (fun x b2 hb2 => h x b2 (List.mem_cons_of_mem _ hb2))

theorem flush_elem_buffers_create (order : Compaction) (elems : List CElements) :
    flush_elem_buffers order elems (elems.map (fun _ => Buffer.create)) = elems := by
  apply List.ext_getElem?
  intro i
  simp only [flush_elem_buffers, List.getElem?_zipWith, List.getElem?_map]
  cases elems[i]? with
  | none => rfl
  | some e => simp [Buffer.flush, Buffer.create]

/-- Claim C15 as the source behaves: `pack_elems_messages` and
`unpack_elems_messages` report `ZOLTAN_OK` on every input; a node id
(`id < elem_start_idx`) in the id list is skipped (nothing is written or read
for it, no row is removed or added), and an id list of node ids only leaves
the mesh and the buffer as they were. -/
theorem elems_pass_skips_node_ids (order : Compaction) (szU : Nat) (mesh : CMesh)
    (globalIDs : List Nat) (localIDs : List LocalID) (idx : List Nat) (buf : ByteBuf) :
    (pack_elems_messages order szU mesh globalIDs localIDs idx buf).2.2 = ZOLTAN_OK ∧
    (unpack_elems_messages order szU mesh globalIDs idx buf).2 = ZOLTAN_OK ∧
    (∀ (s : List (Buffer (List Nat)) × ByteBuf) (entry : Nat × LocalID × Nat),
      entry.1 < mesh.elem_start_idx → pack_elems_step szU mesh s entry = s) ∧
    (∀ (elem_buffer : List (Buffer (List Nat))) (entry : Nat × Nat),
      entry.1 < mesh.elem_start_idx →
        unpack_elems_step szU mesh buf elem_buffer entry = elem_buffer) ∧
    ((∀ g ∈ globalIDs, g < mesh.elem_start_idx) →
      pack_elems_messages order szU mesh globalIDs localIDs idx buf = (mesh, buf, ZOLTAN_OK) ∧
      unpack_elems_messages order szU mesh globalIDs idx buf = (mesh, ZOLTAN_OK)) := by
  have hpack : ∀ (s : List (Buffer (List Nat)) × ByteBuf) (entry : Nat × LocalID × Nat),
      entry.1 < mesh.elem_start_idx → pack_elems_step szU mesh s entry = s := by
    intro s entry h
    simp only [pack_elems_step, ge_iff_le, if_neg (Nat.not_le_of_lt h)]
  have hunpack : ∀ (elem_buffer : List (Buffer (List Nat))) (entry : Nat × Nat),
      entry.1 < mesh.elem_start_idx →
        unpack_elems_step szU mesh buf elem_buffer entry = elem_buffer := by
    intro b entry h
    simp only [unpack_elems_step, ge_iff_le, if_neg (Nat.not_le_of_lt h)]
  refine ⟨rfl, rfl, hpack, hunpack, ?_⟩
  intro hall
  constructor
  · have hfold := foldl_eq_self (pack_elems_step szU mesh) (globalIDs.zip (localIDs.zip idx))
      (mesh.elems.map (fun _ => Buffer.create), buf)
      (fun x b hb => hpack x b (hall b.1 (List.of_mem_zip hb).1))
    simp only [pack_elems_messages, hfold, flush_elem_buffers_create]
  · have hfold := foldl_eq_self (unpack_elems_step szU mesh buf) (globalIDs.zip idx)
      (mesh.elems.map (fun _ => Buffer.create))
      (fun x b hb => hunpack x b (hall b.1 (List.of_mem_zip hb).1))
    simp only [unpack_elems_messages, hfold, flush_elem_buffers_create]

/-- Witness for C15 on the sample mesh: the node id `5` is handed to the
element pass. -/
theorem elems_pass_skips_node_ids_witness :
    pack_elems_messages Compaction.stable 4 sample_mesh [5] [⟨0, 0⟩] [0] (fun _ => 0) =
      (sample_mesh, (fun _ => 0), ZOLTAN_OK) ∧
    unpack_elems_messages Compaction.stable 4 sample_mesh [5] [0] (fun _ => 0) =
      (sample_mesh, ZOLTAN_OK) :=
  (elems_pass_skips_node_ids Compaction.stable 4 sample_mesh [5] [⟨0, 0⟩] [0]
    (fun _ => 0)).2.2.2.2 (by decide)

/-- Counterexample to C15 as stated: the id list holds the node id `5`
(`elem_start_idx` is `8`), and both callbacks of the element pass report
`ZOLTAN_OK`. -/
theorem node_id_in_element_pass_is_not_fatal :
    5 < sample_mesh.elem_start_idx ∧
    (pack_elems_messages Compaction.stable 4 sample_mesh [5] [⟨0, 0⟩] [0]
      (fun _ => 0)).2.2 = ZOLTAN_OK ∧
    (unpack_elems_messages Compaction.stable 4 sample_mesh [5] [0] (fun _ => 0)).2 =
      ZOLTAN_OK := by
  decide

/-! ## Packing a node: frame -/

theorem pack_nodes_fold_mesh (szU szR : Nat) (entries : List (Nat × LocalID × Nat))
    (s : CMesh × ByteBuf) :
    (entries.foldl (pack_nodes_step szU szR) s).1 =
      { s.1 with coords := entries.foldl (fun cs entry =>
          if entry.1 < s.1.elem_start_idx then mark_ghost cs entry.2.1 else cs) s.1.coords } := by
  induction entries generalizing s with
  | nil => rfl
  | cons entry rest ih =>
    rw [List.foldl_cons, ih, List.foldl_cons]
    by_cases h : entry.1 < s.1.elem_start_idx
    · simp only [pack_nodes_step, if_pos h]
    · simp only [pack_nodes_step, if_neg h]

theorem foldl_set_true_length (rows : List Nat) (l : List Bool) :
    (rows.foldl (fun l i => l.set i true) l).length = l.length := by
  induction rows generalizing l with
  | nil => rfl
  | cons i rest ih => rw [List.foldl_cons, ih, List.length_set]

theorem foldl_set_true_getElem? (rows : List Nat) (l : List Bool) (i : Nat) :
    (rows.foldl (fun l i => l.set i true) l)[i]? =
      if i ∈ rows then l[i]?.map (fun _ => true) else l[i]? := by
  induction rows generalizing l with
  | nil => simp
  | cons j rest ih =>
    rw [List.foldl_cons, ih, List.getElem?_set']
    by_cases hj : j = i
    · subst hj
      by_cases hr : j ∈ rest
      · simp [hr]
        cases l[j]? <;> rfl
      · simp [hr]
        cases l[j]? <;> rfl
    · have hne : ¬ i = j := fun h => hj h.symm
      by_cases hr : i ∈ rest
      · simp [hj, hne, hr]
      · simp [hj, hne, hr]

theorem mark_all_getElem? (esi : Nat) (entries : List (Nat × LocalID × Nat))
    (coords : List CoordComp) (k : Nat) :
    (entries.foldl (fun cs entry =>
        if entry.1 < esi then mark_ghost cs entry.2.1 else cs) coords)[k]? =
      coords[k]?.map (fun c => { c with
        is_ghost := (named_node_rows esi entries k).foldl (fun l i => l.set i true) c.is_ghost }) := by
  induction entries generalizing coords with
  | nil =>
    simp only [List.foldl_nil, named_node_rows, List.filter_nil, List.map_nil]
    cases coords[k]? <;> rfl
  | cons entry rest ih =>
    rw [List.foldl_cons, ih]
    by_cases hnode : entry.1 < esi
    · by_cases hk : entry.2.1.COMP = k
      · have hrows : named_node_rows esi (entry :: rest) k =
            entry.2.1.IDX :: named_node_rows esi rest k := by
          simp [named_node_rows, List.filter_cons, hnode, hk]
        rw [if_pos hnode, hrows, mark_ghost, List.getElem?_modify]
        cases coords[k]? with
        | none => rfl
        | some c => simp [hk]
      · have hrows : named_node_rows esi (entry :: rest) k = named_node_rows esi rest k := by
          simp [named_node_rows, List.filter_cons, hk]
        rw [if_pos hnode, hrows, mark_ghost, List.getElem?_modify]
        cases coords[k]? with
        | none => rfl
        | some c => simp [hk]
    · have hrows : named_node_rows esi (entry :: rest) k = named_node_rows esi rest k := by
        simp [named_node_rows, List.filter_cons, hnode]
      rw [if_neg hnode, hrows]

/-- Claim C13: packing a node only flips its ghost flag.  After
`pack_nodes_messages` the element components and the mesh properties are as
before, every coordinate component keeps its coordinates,
`global_node_indices` and `glb_elem_connectivity` tables and the length of
its `is_ghost` list; a row named by a node id of the id list has
`is_ghost = true`, every other `is_ghost` entry is unchanged. -/
theorem pack_nodes_only_flips_ghost (szU szR : Nat) (mesh : CMesh) (globalIDs : List Nat)
    (localIDs : List LocalID) (idx : List Nat) (buf : ByteBuf) :
    (pack_nodes_messages szU szR mesh globalIDs localIDs idx buf).1.elems = mesh.elems ∧
    (pack_nodes_messages szU szR mesh globalIDs localIDs idx buf).1.coords.length =
      mesh.coords.length ∧
    ∀ (k : Nat) (c : CoordComp), mesh.coords[k]? = some c →
      ∃ c2 : CoordComp,
        (pack_nodes_messages szU szR mesh globalIDs localIDs idx buf).1.coords[k]? = some c2 ∧
        c2.coordinates = c.coordinates ∧
        c2.global_node_indices = c.global_node_indices ∧
        c2.glb_elem_connectivity = c.glb_elem_connectivity ∧
        c2.is_ghost.length = c.is_ghost.length ∧
        ∀ i : Nat, i < c.is_ghost.length →
          (i ∈ named_node_rows mesh.elem_start_idx (globalIDs.zip (localIDs.zip idx)) k →
            c2.is_ghost[i]? = some true) ∧
          (i ∉ named_node_rows mesh.elem_start_idx (globalIDs.zip (localIDs.zip idx)) k →
            c2.is_ghost[i]? = c.is_ghost[i]?) := by
  have hmesh := pack_nodes_fold_mesh szU szR (globalIDs.zip (localIDs.zip idx)) (mesh, buf)
  simp only at hmesh
  refine ⟨?_, ?_, ?_⟩
  · simp only [pack_nodes_messages, hmesh]
  · simp only [pack_nodes_messages, hmesh]
    have hlen : ∀ (entries : List (Nat × LocalID × Nat)) (cs : List CoordComp),
        (entries.foldl (fun cs entry =>
          if entry.1 < mesh.elem_start_idx then mark_ghost cs entry.2.1 else cs) cs).length =
          cs.length := by
      intro entries
      induction entries with
      | nil => intro cs; rfl
      | cons entry rest ih =>
        intro cs
        rw [List.foldl_cons, ih]
        split
        · simp [mark_ghost]
        · rfl
    exact hlen _ _
  · intro k c hk
    have hget := mark_all_getElem? mesh.elem_start_idx (globalIDs.zip (localIDs.zip idx))
      mesh.coords k
    rw [hk] at hget
    refine ⟨{ c with is_ghost := (named_node_rows mesh.elem_start_idx
      (globalIDs.zip (localIDs.zip idx)) k).foldl (fun l i => l.set i true) c.is_ghost },
      ?_, rfl, rfl, rfl, ?_, ?_⟩
    · simp only [pack_nodes_messages, hmesh]
      rw [hget]
      rfl
    · exact foldl_set_true_length _ _
    · intro i hi
      constructor
      · intro hin
        simp only [foldl_set_true_getElem?, if_pos hin, List.getElem?_eq_getElem hi,
          Option.map_some']
      · intro hnot
        simp only [foldl_set_true_getElem?, if_neg hnot]

/-- Witness for C13 on the sample mesh: the node id `5` with local id
(row `0`, component `0`) is packed, row `0` becomes a ghost and row `2` keeps
its flag. -/
theorem pack_nodes_only_flips_ghost_witness :
    ∃ c2 : CoordComp,
      (pack_nodes_messages 4 8 sample_mesh [5] [⟨0, 0⟩] [0] (fun _ => 0)).1.coords[0]? =
        some c2 ∧
      c2.is_ghost[0]? = some true ∧ c2.is_ghost[2]? = some false :=
  have h := (pack_nodes_only_flips_ghost 4 8 sample_mesh [5] [⟨0, 0⟩] [0] (fun _ => 0)).2.2 0
    _ rfl
  ⟨h.choose, h.choose_spec.1,
    (h.choose_spec.2.2.2.2.2 0 (by decide)).1 (by decide),
    ((h.choose_spec.2.2.2.2.2 2 (by decide)).2 (by decide)).trans (by decide)⟩

/-! ## Element sizes and packing: properties -/

theorem pack_elem_eq (szU : Nat) (mesh : CMesh) (loc_id : LocalID) (buf : ByteBuf)
    (start : Nat) :
    pack_elem szU mesh loc_id buf start =
      (write_bytes buf start (elem_message szU mesh loc_id),
        start + (elem_message szU mesh loc_id).length) := by
  have h0 : (buf, start) = (write_bytes buf start [], start + ([] : List Nat).length) := by
    simp [write_bytes_nil]
  simp only [pack_elem]
  rw [h0, store_written, foldl_store_written]
  simp [elem_message]

theorem elem_message_length (szU : Nat) (mesh : CMesh) (loc_id : LocalID) :
    (elem_message szU mesh loc_id).length = szU + szU * (mesh.elem_row loc_id).length := by
  simp only [elem_message, List.length_append, encode_word_length, flatMap_encode_length]

theorem pack_elems_fold_buf (szU : Nat) (mesh : CMesh) (entries : List (Nat × LocalID × Nat))
    (s : List (Buffer (List Nat)) × ByteBuf) :
    (entries.foldl (pack_elems_step szU mesh) s).2 =
      entries.foldl (fun b entry =>
        if mesh.elem_start_idx ≤ entry.1 then
          write_bytes b entry.2.2 (elem_message szU mesh entry.2.1)
        else b) s.2 := by
  induction entries generalizing s with
  | nil => rfl
  | cons entry rest ih =>
    rw [List.foldl_cons, List.foldl_cons, ih]
    by_cases h : mesh.elem_start_idx ≤ entry.1
    · simp only [pack_elems_step, ge_iff_le, if_pos h, pack_elem_eq]
    · simp only [pack_elems_step, ge_iff_le, if_neg h]

theorem elemComp_mem (mesh : CMesh) (comp : Nat) (h1 : mesh.coords.length ≤ comp)
    (h2 : comp < mesh.coords.length + mesh.elems.length) :
    mesh.elems[comp - mesh.coords.length]? = some (mesh.elemComp comp) := by
  have hlt : comp - mesh.coords.length < mesh.elems.length := by omega
  simp only [CMesh.elemComp, if_neg (Nat.not_lt_of_le h1), List.getD_eq_getElem?_getD,
    List.getElem?_eq_getElem hlt, Option.getD_some]

theorem elem_row_length (mesh : CMesh) (loc_id : LocalID)
    (hwf : ∀ e ∈ mesh.elems, e.connectivity_table.wf)
    (h1 : mesh.coords.length ≤ loc_id.COMP)
    (h2 : loc_id.COMP < mesh.coords.length + mesh.elems.length)
    (hidx : loc_id.IDX < (mesh.elemComp loc_id.COMP).connectivity_table.size) :
    (mesh.elem_row loc_id).length = (mesh.elemComp loc_id.COMP).connectivity_table.row_size := by
  have hmem : mesh.elemComp loc_id.COMP ∈ mesh.elems :=
    List.getElem?_mem (elemComp_mem mesh loc_id.COMP h1 h2)
  apply hwf _ hmem
  simp only [CTable.size] at hidx
  simp only [CMesh.elem_row, List.getD_eq_getElem?_getD, List.getElem?_eq_getElem hidx,
    Option.getD_some]
  exact List.getElem_mem _

/-- Claim C11: element sizing is byte-exact.  For every id list (local ids of
element entries pointing at rows of the mesh), `get_elems_sizes` reports for
an element id (`id >= elem_start_idx`) the value `sizeof(Uint) + sizeof(Uint)
* (number of nodes in the connectivity row)`; the writes of
`pack_elems_messages` for that entry are exactly that many bytes, placed from
its offset on; for a node id the size is `0` and nothing is written. -/
theorem elem_sizes_byte_exact (order : Compaction) (szU : Nat) (mesh : CMesh)
    (globalIDs : List Nat) (localIDs : List LocalID) (idx : List Nat) (buf : ByteBuf)
    (hwf : ∀ e ∈ mesh.elems, e.connectivity_table.wf)
    (hloc : ∀ (i : Nat) (glb : Nat) (loc : LocalID), globalIDs[i]? = some glb →
      localIDs[i]? = some loc → mesh.elem_start_idx ≤ glb →
        mesh.coords.length ≤ loc.COMP ∧
        loc.COMP < mesh.coords.length + mesh.elems.length ∧
        loc.IDX < (mesh.elemComp loc.COMP).connectivity_table.size) :
    (∀ (i : Nat) (glb : Nat) (loc : LocalID), globalIDs[i]? = some glb →
      localIDs[i]? = some loc →
        (mesh.elem_start_idx ≤ glb →
          (get_elems_sizes szU mesh globalIDs localIDs).1[i]? =
            some (szU + szU * (mesh.elem_row loc).length) ∧
          (elem_message szU mesh loc).length = szU + szU * (mesh.elem_row loc).length ∧
          ∀ (b : ByteBuf) (start : Nat), pack_elem szU mesh loc b start =
            (write_bytes b start (elem_message szU mesh loc),
              start + (szU + szU * (mesh.elem_row loc).length))) ∧
        (glb < mesh.elem_start_idx →
          (get_elems_sizes szU mesh globalIDs localIDs).1[i]? = some 0)) ∧
    (pack_elems_messages order szU mesh globalIDs localIDs idx buf).2.1 =
      (globalIDs.zip (localIDs.zip idx)).foldl (fun b entry =>
        if mesh.elem_start_idx ≤ entry.1 then
          write_bytes b entry.2.2 (elem_message szU mesh entry.2.1)
        else b) buf := by
  refine ⟨?_, ?_⟩
  · intro i glb loc hg hl
    have hsz : (get_elems_sizes szU mesh globalIDs localIDs).1[i]? =
        some (if mesh.elem_start_idx ≤ glb then
          szU + szU * (mesh.elemComp loc.COMP).connectivity_table.row_size
          else 0) := by
      simp only [get_elems_sizes, List.getElem?_zipWith, hg, hl, ge_iff_le]
    constructor
    · intro helem
      obtain ⟨h1, h2, hidx⟩ := hloc i glb loc hg hl helem
      have hrow := elem_row_length mesh loc hwf h1 h2 hidx
      refine ⟨by rw [hsz, if_pos helem, hrow], elem_message_length szU mesh loc, ?_⟩
      intro b start
      rw [pack_elem_eq, elem_message_length]
    · intro hnode
      rw [hsz, if_neg (Nat.not_le_of_lt hnode)]
  · exact pack_elems_fold_buf szU mesh _ _

theorem sample_quads_wf : ∀ e ∈ sample_quads.elems, e.connectivity_table.wf := by
  intro e he
  simp only [sample_quads, List.mem_singleton] at he
  subst he
  intro row hrow
  simp at hrow
  rcases hrow with h | h <;> simp [h]

/-- Witness for C11: in the two-quadrilateral mesh with four-byte `Uint`, the
element at row `1` of component `1` takes `4 + 4 * 4 = 20` bytes and the node
takes none. -/
theorem elem_sizes_byte_exact_witness :
    (get_elems_sizes 4 sample_quads [7, 2] [⟨1, 1⟩, ⟨2, 0⟩]).1[0]? = some 20 ∧
    (get_elems_sizes 4 sample_quads [7, 2] [⟨1, 1⟩, ⟨2, 0⟩]).1[1]? = some 0 :=
  have h := (elem_sizes_byte_exact Compaction.stable 4 sample_quads [7, 2] [⟨1, 1⟩, ⟨2, 0⟩]
    [0, 20] (fun _ => 0) sample_quads_wf (by
      intro i glb loc hg hl helem
      match i, hg, hl with
      | 0, hg, hl =>
        simp at hg hl
        subst hg hl
        decide
      | 1, hg, hl =>
        simp at hg
        subst hg
        simp [sample_quads] at helem
      | n + 2, hg, hl => simp at hg)).1
  ⟨(h 0 7 ⟨1, 1⟩ rfl rfl).1 (by decide) |>.1, (h 1 2 ⟨2, 0⟩ rfl rfl).2 (by decide)⟩

/-! ## Packing an element: removed rows -/

theorem stable_keeps_unnamed : Compaction.stable.keeps_unnamed :=
  fun _ _ _ => List.Perm.refl _

theorem kept_rows_perm_unnamed (order : Compaction) (horder : order.keeps_unnamed) (n : Nat)
    (r : List Nat) (hlt : ∀ i ∈ r, i < n) :
    (kept_rows order n r).Perm ((List.range n).filter (fun i => decide (i ∉ r))) := by
  cases r with
  | nil => simp [kept_rows]
  | cons i rest => exact horder n (i :: rest) hlt

theorem filterMap_getElem?_length_of_lt {α : Type} (t : List α) (l : List Nat)
    (h : ∀ i ∈ l, i < t.length) : (l.filterMap (fun i => t[i]?)).length = l.length := by
  induction l with
  | nil => rfl
  | cons i rest ih =>
    have hi : i < t.length := h i (List.mem_cons_self _ _)
    simp [List.filterMap_cons, List.getElem?_eq_getElem hi,
      ih (fun j hj => h j (List.mem_cons_of_mem _ hj))]

theorem unnamed_rows_count (n : Nat) (r : List Nat) (hlt : ∀ i ∈ r, i < n) :
    ((List.range n).filter (fun i => decide (i ∉ r))).length + r.toFinset.card = n := by
  have hsplit := List.length_eq_length_filter_add (l := List.range n) (fun i => decide (i ∈ r))
  have hnd : ((List.range n).filter (fun i => decide (i ∈ r))).Nodup :=
    (List.nodup_range n).filter _
  have hset : ((List.range n).filter (fun i => decide (i ∈ r))).toFinset = r.toFinset := by
    ext a
    simp only [List.mem_toFinset, List.mem_filter, List.mem_range, decide_eq_true_eq]
    constructor
    · exact fun h => h.2
    · exact fun h => ⟨hlt a h, h⟩
  have hcard := List.toFinset_card_of_nodup hnd
  rw [hset] at hcard
  have hnot : (List.range n).filter (fun i => !decide (i ∈ r)) =
      (List.range n).filter (fun i => decide (i ∉ r)) := by
    apply List.filter_congr
    intro i _
    simp
  rw [hnot, List.length_range] at hsplit
  omega

theorem pack_elems_fold_bufs (szU : Nat) (mesh : CMesh) (entries : List (Nat × LocalID × Nat))
    (s : List (Buffer (List Nat)) × ByteBuf) (j : Nat) :
    (entries.foldl (pack_elems_step szU mesh) s).1[j]? =
      s.1[j]?.map (fun b => (⟨b.removed ++
        named_elem_rows mesh.elem_start_idx entries (mesh.coords.length + j),
        b.added⟩ : Buffer (List Nat))) := by
  induction entries generalizing s with
  | nil =>
    simp only [List.foldl_nil, named_elem_rows, List.filter_nil, List.map_nil, List.append_nil]
    cases s.1[j]? <;> rfl
  | cons entry rest ih =>
    rw [List.foldl_cons, ih]
    by_cases helem : mesh.elem_start_idx ≤ entry.1
    · by_cases hk : entry.2.1.COMP = mesh.coords.length + j
      · have hrows : named_elem_rows mesh.elem_start_idx (entry :: rest)
            (mesh.coords.length + j) =
            entry.2.1.IDX :: named_elem_rows mesh.elem_start_idx rest
              (mesh.coords.length + j) := by
          simp [named_elem_rows, List.filter_cons, helem, hk]
        have hnlt : ¬ entry.2.1.COMP < mesh.coords.length := by omega
        have hsub : entry.2.1.COMP - mesh.coords.length = j := by omega
        simp only [pack_elems_step, ge_iff_le, if_pos helem, at_elem_buffer, if_neg hnlt, hsub,
          List.getElem?_modify, hrows]
        cases s.1[j]? with
        | none => rfl
        | some b => simp [Buffer.rm_row]
      · have hrows : named_elem_rows mesh.elem_start_idx (entry :: rest)
            (mesh.coords.length + j) =
            named_elem_rows mesh.elem_start_idx rest (mesh.coords.length + j) := by
          simp [named_elem_rows, List.filter_cons, hk]
        simp only [pack_elems_step, ge_iff_le, if_pos helem, at_elem_buffer, hrows]
        by_cases hlt : entry.2.1.COMP < mesh.coords.length
        · simp only [if_pos hlt]
        · have hne : ¬ entry.2.1.COMP - mesh.coords.length = j := by omega
          simp only [if_neg hlt, List.getElem?_modify, if_neg hne]
          cases s.1[j]? <;> rfl
    · have hrows : named_elem_rows mesh.elem_start_idx (entry :: rest)
          (mesh.coords.length + j) =
          named_elem_rows mesh.elem_start_idx rest (mesh.coords.length + j) := by
        simp [named_elem_rows, List.filter_cons, helem]
      simp only [pack_elems_step, ge_iff_le, if_neg helem, hrows]

/-- Claim C14: packing an element removes its row.  After
`pack_elems_messages` (the buffer flush keeping exactly the rows never handed
to `rm_row`, local ids of element entries pointing at rows of the mesh) the
coordinate components with their per-node tables are unchanged, and every
element component holds exactly the connectivity rows whose row index was not
named by an element id of the list for that component; its size drops by the
number of distinct rows named. -/
theorem pack_elems_removes_named_rows (order : Compaction) (horder : order.keeps_unnamed)
    (szU : Nat) (mesh : CMesh) (globalIDs : List Nat) (localIDs : List LocalID)
    (idx : List Nat) (buf : ByteBuf)
    (hloc : ∀ entry ∈ globalIDs.zip (localIDs.zip idx), mesh.elem_start_idx ≤ entry.1 →
      mesh.coords.length ≤ entry.2.1.COMP ∧
      entry.2.1.COMP < mesh.coords.length + mesh.elems.length ∧
      entry.2.1.IDX < (mesh.elemComp entry.2.1.COMP).connectivity_table.size) :
    (pack_elems_messages order szU mesh globalIDs localIDs idx buf).1.coords = mesh.coords ∧
    ∀ (j : Nat) (e : CElements), mesh.elems[j]? = some e →
      ∃ e2 : CElements,
        (pack_elems_messages order szU mesh globalIDs localIDs idx buf).1.elems[j]? = some e2 ∧
        e2.coordinates = e.coordinates ∧
        e2.global_element_indices = e.global_element_indices ∧
        e2.connectivity_table.row_size = e.connectivity_table.row_size ∧
        e2.connectivity_table.array.Perm
          (((List.range e.connectivity_table.array.length).filter (fun i =>
            decide (i ∉ named_elem_rows mesh.elem_start_idx (globalIDs.zip (localIDs.zip idx))
              (mesh.coords.length + j)))).filterMap (fun i => e.connectivity_table.array[i]?)) ∧
        e2.connectivity_table.array.length +
          (named_elem_rows mesh.elem_start_idx (globalIDs.zip (localIDs.zip idx))
            (mesh.coords.length + j)).toFinset.card = e.connectivity_table.array.length := by
  refine ⟨rfl, ?_⟩
  intro j e hj
  have hjlt : j < mesh.elems.length := by
    rcases Nat.lt_or_ge j mesh.elems.length with h | h
    · exact h
    · rw [List.getElem?_eq_none h] at hj
      cases hj
  have hcomp : mesh.elemComp (mesh.coords.length + j) = e := by
    have := elemComp_mem mesh (mesh.coords.length + j) (by omega) (by omega)
    rw [Nat.add_sub_cancel_left, hj] at this
    exact (Option.some.inj this).symm
  have hrange : ∀ i ∈ named_elem_rows mesh.elem_start_idx (globalIDs.zip (localIDs.zip idx))
      (mesh.coords.length + j), i < e.connectivity_table.array.length := by
    intro i hi
    simp only [named_elem_rows, List.mem_map, List.mem_filter, Bool.and_eq_true,
      decide_eq_true_eq] at hi
    obtain ⟨entry, ⟨hmem, helem, hk⟩, rfl⟩ := hi
    have h3 := (hloc entry hmem helem).2.2
    rw [hk, hcomp] at h3
    exact h3
  have hbuf := pack_elems_fold_bufs szU mesh (globalIDs.zip (localIDs.zip idx))
    (mesh.elems.map (fun _ => Buffer.create), buf) j
  simp only [List.getElem?_map, hj, Option.map_some'] at hbuf
  have hperm := (kept_rows_perm_unnamed order horder e.connectivity_table.array.length _
    hrange).filterMap (fun i => e.connectivity_table.array[i]?)
  refine ⟨{ e with connectivity_table := { e.connectivity_table with
    array := (kept_rows order e.connectivity_table.array.length
      (named_elem_rows mesh.elem_start_idx (globalIDs.zip (localIDs.zip idx))
        (mesh.coords.length + j))).filterMap (fun i => e.connectivity_table.array[i]?) } },
    ?_, rfl, rfl, rfl, hperm, ?_⟩
  · simp only [pack_elems_messages, flush_elem_buffers, List.getElem?_zipWith, hj]
    rw [hbuf]
    simp only [Buffer.create, List.nil_append, flush_removed_eq]
  · simp only
    rw [hperm.length_eq, filterMap_getElem?_length_of_lt]
    · exact unnamed_rows_count _ _ hrange
    · intro i hi
      have := (List.mem_filter.mp hi).1
      simpa using this

/-- Witness for C14: the second quadrilateral of the two-quadrilateral mesh is
packed; the element component keeps one row. -/
theorem pack_elems_removes_named_rows_witness :
    ∃ e2 : CElements,
      (pack_elems_messages Compaction.stable 4 sample_quads [7] [⟨1, 1⟩] [0]
        (fun _ => 0)).1.elems[0]? = some e2 ∧
      e2.connectivity_table.array.length +
        (named_elem_rows sample_quads.elem_start_idx [(7, ⟨1, 1⟩, 0)]
          (sample_quads.coords.length + 0)).toFinset.card = 2 :=
  have h := (pack_elems_removes_named_rows Compaction.stable stable_keeps_unnamed 4
    sample_quads [7] [⟨1, 1⟩] [0] (fun _ => 0) (by decide)).2 0 _ rfl
  ⟨h.choose, h.choose_spec.1, h.choose_spec.2.2.2.2.2⟩

/-! ## Element unpacking: properties -/

theorem flush_at_add_row (order : Compaction) (elems : List CElements)
    (bufs : List (Buffer (List Nat))) (nc comp : Nat) (row : List Nat)
    (hadd : ∀ b ∈ bufs, b.removed = []) :
    flush_elem_buffers order elems (at_elem_buffer nc bufs (fun b => b.add_row row) comp) =
      append_conn_row nc (flush_elem_buffers order elems bufs) comp row := by
  simp only [at_elem_buffer, append_conn_row]
  by_cases hlt : comp < nc
  · simp only [if_pos hlt]
  · simp only [if_neg hlt]
    apply List.ext_getElem?
    intro i
    simp only [flush_elem_buffers, List.getElem?_zipWith, List.getElem?_modify]
    cases he : elems[i]? with
    | none => simp
    | some e =>
      cases hb : bufs[i]? with
      | none => simp
      | some b =>
        have hrem : b.removed = [] := hadd b (List.getElem?_mem hb)
        by_cases hk : comp - nc = i
        · simp [hk, Buffer.flush, Buffer.add_row, hrem, CElements.append_row]
        · simp [hk]

theorem at_add_row_add_only (bufs : List (Buffer (List Nat))) (nc comp : Nat) (row : List Nat)
    (hadd : ∀ b ∈ bufs, b.removed = []) :
    ∀ b ∈ at_elem_buffer nc bufs (fun b => b.add_row row) comp, b.removed = [] := by
  intro b hb
  simp only [at_elem_buffer] at hb
  split at hb
  · exact hadd b hb
  · obtain ⟨i, hi⟩ := List.mem_iff_getElem?.mp hb
    rw [List.getElem?_modify] at hi
    cases hb0 : bufs[i]? with
    | none => simp [hb0] at hi
    | some b0 =>
      have h0 := hadd b0 (List.getElem?_mem hb0)
      simp only [hb0, Option.map_eq_map, Option.map_some', Option.some.injEq] at hi
      rw [← hi]
      split
      · simpa [Buffer.add_row] using h0
      · exact h0

theorem unpack_elems_fold (order : Compaction) (szU : Nat) (dst : CMesh) (buf : ByteBuf)
    (entries : List (Nat × Nat)) (bufs : List (Buffer (List Nat)))
    (hadd : ∀ b ∈ bufs, b.removed = []) :
    flush_elem_buffers order dst.elems (entries.foldl (unpack_elems_step szU dst buf) bufs) =
      entries.foldl (fun es entry =>
        if dst.elem_start_idx ≤ entry.1 then
          append_conn_row dst.coords.length es (unpack_elem szU dst buf entry.2).1
            (unpack_elem szU dst buf entry.2).2
        else es) (flush_elem_buffers order dst.elems bufs) := by
  induction entries generalizing bufs with
  | nil => rfl
  | cons entry rest ih =>
    rw [List.foldl_cons, List.foldl_cons]
    by_cases h : dst.elem_start_idx ≤ entry.1
    · have hstep : unpack_elems_step szU dst buf bufs entry =
          at_elem_buffer dst.coords.length bufs
            (fun b => b.add_row (unpack_elem szU dst buf entry.2).2)
            (unpack_elem szU dst buf entry.2).1 := by
        simp only [unpack_elems_step, ge_iff_le, if_pos h]
      rw [hstep, ih _ (at_add_row_add_only bufs _ _ _ hadd), if_pos h,
        flush_at_add_row order dst.elems bufs _ _ _ hadd]
    · have hstep : unpack_elems_step szU dst buf bufs entry = bufs := by
        simp only [unpack_elems_step, ge_iff_le, if_neg h]
      rw [hstep, ih _ hadd, if_neg h]

theorem receive_elems_fold (szU : Nat) (dst : CMesh) (buf : ByteBuf)
    (entries : List (Nat × Nat)) (m : CMesh) (hm : m.coords.length = dst.coords.length) :
    entries.foldl (fun m entry =>
        if dst.elem_start_idx ≤ entry.1 then
          m.append_elem_row (unpack_elem szU dst buf entry.2).1
            (unpack_elem szU dst buf entry.2).2
        else m) m =
      { m with elems := entries.foldl (fun es entry =>
        if dst.elem_start_idx ≤ entry.1 then
          append_conn_row dst.coords.length es (unpack_elem szU dst buf entry.2).1
            (unpack_elem szU dst buf entry.2).2
        else es) m.elems } := by
  induction entries generalizing m with
  | nil => rfl
  | cons entry rest ih =>
    rw [List.foldl_cons, List.foldl_cons]
    by_cases h : dst.elem_start_idx ≤ entry.1
    · rw [if_pos h, if_pos h, ih _ (by simpa [CMesh.append_elem_row] using hm)]
      simp only [CMesh.append_elem_row, hm]
    · rw [if_neg h, if_neg h, ih _ hm]

theorem unpack_elems_messages_eq (order : Compaction) (szU : Nat) (dst : CMesh)
    (globalIDs : List Nat) (idx : List Nat) (buf : ByteBuf) :
    unpack_elems_messages order szU dst globalIDs idx buf =
      (receive_elems szU dst buf (globalIDs.zip idx), ZOLTAN_OK) := by
  have hcreate : ∀ b ∈ dst.elems.map (fun _ => (Buffer.create : Buffer (List Nat))),
      b.removed = [] := by
    intro b hb
    obtain ⟨_, _, rfl⟩ := List.mem_map.mp hb
    rfl
  simp only [unpack_elems_messages, receive_elems]
  rw [unpack_elems_fold order szU dst buf _ _ hcreate, flush_elem_buffers_create,
    receive_elems_fold szU dst buf _ dst rfl]

theorem unpack_elem_of_holds (szU : Nat) (src dst : CMesh) (buf : ByteBuf) (q : Nat)
    (loc_id : LocalID) (h : holds_at buf q (elem_message szU src loc_id))
    (hcomp : loc_id.COMP < 256 ^ szU)
    (hnodes : ∀ n ∈ src.elem_row loc_id, n < 256 ^ szU)
    (hwidth : (dst.elemComp loc_id.COMP).connectivity_table.row_size =
      (src.elem_row loc_id).length) :
    unpack_elem szU dst buf q = (loc_id.COMP, src.elem_row loc_id) := by
  simp only [elem_message, holds_at_append, encode_word_length] at h
  have l1 := load_of_holds szU buf q _ h.1 hcomp
  have l2 := load_many_of_holds szU buf _ (q + szU) h.2 hnodes
  simp only [unpack_elem, l1, hwidth, l2]

/-- Claim C12: element pack/unpack round trip.  When the bytes that
`pack_elems_messages` wrote for an element (as many as `get_elems_sizes`
reported) are handed to `unpack_elems_messages`, and component `k` of the
receiving mesh is an element component of the same row width, its
connectivity table gains one row equal to the packed row; and for every id
list the rows are appended one after the other in the order the ids are
supplied. -/
theorem elem_round_trip (order : Compaction) (szU : Nat) (src dst : CMesh) (glb : Nat)
    (loc : LocalID) (p q : Nat) (sbuf dbuf : ByteBuf)
    (hsrc : src.elem_start_idx ≤ glb) (hdst : dst.elem_start_idx ≤ glb)
    (hrow : (src.elemComp loc.COMP).connectivity_table.row_size = (src.elem_row loc).length)
    (hwidth : (dst.elemComp loc.COMP).connectivity_table.row_size =
      (src.elemComp loc.COMP).connectivity_table.row_size)
    (hk1 : dst.coords.length ≤ loc.COMP)
    (hk2 : loc.COMP < dst.coords.length + dst.elems.length)
    (hcomp : loc.COMP < 256 ^ szU) (hnodes : ∀ n ∈ src.elem_row loc, n < 256 ^ szU)
    (hcopy : read_bytes dbuf q (get_elems_sizes szU src [glb] [loc]).1.sum =
      read_bytes (pack_elems_messages order szU src [glb] [loc] [p] sbuf).2.1 p
        (get_elems_sizes szU src [glb] [loc]).1.sum) :
    unpack_elems_messages order szU dst [glb] [q] dbuf =
      (dst.append_elem_row loc.COMP (src.elem_row loc), ZOLTAN_OK) ∧
    (dst.append_elem_row loc.COMP (src.elem_row loc)).elems[loc.COMP - dst.coords.length]? =
      some ((dst.elemComp loc.COMP).append_row (src.elem_row loc)) ∧
    ∀ (globalIDs : List Nat) (idx : List Nat) (buf : ByteBuf),
      unpack_elems_messages order szU dst globalIDs idx buf =
        (receive_elems szU dst buf (globalIDs.zip idx), ZOLTAN_OK) := by
  have hsizes : (get_elems_sizes szU src [glb] [loc]).1 =
      [(elem_message szU src loc).length] := by
    simp [get_elems_sizes, hsrc, hrow, elem_message_length]
  have hpack : (pack_elems_messages order szU src [glb] [loc] [p] sbuf).2.1 =
      write_bytes sbuf p (elem_message szU src loc) := by
    simp [pack_elems_messages, pack_elems_step, hsrc, pack_elem_eq]
  rw [hsizes, hpack] at hcopy
  simp only [List.sum_cons, List.sum_nil, Nat.add_zero, read_write_same] at hcopy
  have hholds : holds_at dbuf q (elem_message szU src loc) := hcopy
  have hmsg := unpack_elem_of_holds szU src dst dbuf q loc hholds hcomp hnodes
    (hwidth.trans hrow)
  refine ⟨?_, ?_, fun globalIDs idx buf => unpack_elems_messages_eq order szU dst globalIDs idx buf⟩
  · rw [unpack_elems_messages_eq]
    simp only [receive_elems, List.zip_cons_cons, List.zip_nil_right, List.foldl_cons,
      List.foldl_nil, if_pos hdst, hmsg]
  · have hget := elemComp_mem dst loc.COMP hk1 hk2
    simp only [CMesh.append_elem_row, append_conn_row, if_neg (Nat.not_lt_of_le hk1),
      List.getElem?_modify, hget]
    simp

/-- Witness for C12: the second quadrilateral of the two-quadrilateral mesh
is packed and received by the same mesh, whose element component gains the
row `1, 4, 5, 2`. -/
theorem elem_round_trip_witness :
    unpack_elems_messages Compaction.stable 4 sample_quads [7] [0]
        (pack_elems_messages Compaction.stable 4 sample_quads [7] [⟨1, 1⟩] [0]
          (fun _ => 0)).2.1 =
      (sample_quads.append_elem_row 1 [1, 4, 5, 2], ZOLTAN_OK) :=
  (elem_round_trip Compaction.stable 4 sample_quads sample_quads 7 ⟨1, 1⟩ 0 0
    (fun _ => 0) _ (by decide) (by decide) (by decide) (by decide) (by decide) (by decide)
    (by decide) (by decide) rfl).1

/-! ## Ghost node pass: properties -/

theorem flush_add_node_add_only (order : Compaction) (coords : List CoordComp)
    (bufs : List NodeBuffers) (k : Nat) (coord_vec : List Nat) (ghost : Bool)
    (elems : List Nat) (glb_id : Nat) (hadd : ∀ b ∈ bufs, b.add_only) :
    List.zipWith (NodeBuffers.flush order) coords
        (bufs.modify (fun b => b.add_node coord_vec ghost elems glb_id) k) =
      (List.zipWith (NodeBuffers.flush order) coords bufs).modify
        (fun c => c.append_row coord_vec ghost elems glb_id) k := by
  apply List.ext_getElem?
  intro i
  simp only [List.getElem?_zipWith, List.getElem?_modify]
  cases hc : coords[i]? with
  | none => simp
  | some c =>
    cases hb : bufs[i]? with
    | none => simp
    | some b =>
      obtain ⟨h1, h2, h3, h4⟩ := hadd b (List.getElem?_mem hb)
      by_cases hk : k = i
      · simp [hk, NodeBuffers.flush, Buffer.flush, NodeBuffers.add_node, Buffer.add_row,
          CoordComp.append_row, h1, h2, h3, h4]
      · simp [hk]

theorem add_node_add_only (bufs : List NodeBuffers) (k : Nat) (coord_vec : List Nat)
    (ghost : Bool) (elems : List Nat) (glb_id : Nat) (hadd : ∀ b ∈ bufs, b.add_only) :
    ∀ b ∈ bufs.modify (fun b => b.add_node coord_vec ghost elems glb_id) k, b.add_only := by
  intro b hb
  obtain ⟨i, hi⟩ := List.mem_iff_getElem?.mp hb
  rw [List.getElem?_modify] at hi
  cases hb0 : bufs[i]? with
  | none => simp [hb0] at hi
  | some b0 =>
    have h0 := hadd b0 (List.getElem?_mem hb0)
    simp only [hb0, Option.map_eq_map, Option.map_some', Option.some.injEq] at hi
    rw [← hi]
    split
    · simpa [NodeBuffers.add_only, NodeBuffers.add_node, Buffer.add_row] using h0
    · exact h0

theorem flush_node_buffers_create (order : Compaction) (coords : List CoordComp) :
    List.zipWith (NodeBuffers.flush order) coords
      (coords.map (fun _ => NodeBuffers.create)) = coords := by
  apply List.ext_getElem?
  intro i
  simp only [List.getElem?_zipWith, List.getElem?_map]
  cases coords[i]? with
  | none => rfl
  | some c => simp [NodeBuffers.flush, Buffer.flush, NodeBuffers.create, Buffer.create]

theorem unpack_nodes_fold_with (order : Compaction) (ghost : Bool) (szU szR : Nat)
    (buf : ByteBuf) (coords : List CoordComp)
    (step : List NodeBuffers → Nat × Nat × Nat → List NodeBuffers)
    (hstep : ∀ bufs entry, step bufs entry =
      if entry.2.1 > 0 then
        bufs.modify (fun b => b.add_node (unpack_node szU szR buf entry.2.2).coord_vec ghost
          (unpack_node szU szR buf entry.2.2).elems entry.1)
          (unpack_node szU szR buf entry.2.2).comp_idx
      else bufs)
    (entries : List (Nat × Nat × Nat)) (bufs : List NodeBuffers)
    (hadd : ∀ b ∈ bufs, b.add_only) :
    List.zipWith (NodeBuffers.flush order) coords (entries.foldl step bufs) =
      entries.foldl (fun cs entry =>
        if entry.2.1 > 0 then
          cs.modify (fun c => c.append_row (unpack_node szU szR buf entry.2.2).coord_vec ghost
            (unpack_node szU szR buf entry.2.2).elems entry.1)
            (unpack_node szU szR buf entry.2.2).comp_idx
        else cs) (List.zipWith (NodeBuffers.flush order) coords bufs) := by
  induction entries generalizing bufs with
  | nil => rfl
  | cons entry rest ih =>
    rw [List.foldl_cons, List.foldl_cons, hstep]
    by_cases h : entry.2.1 > 0
    · rw [if_pos h, if_pos h, ih _ (add_node_add_only bufs _ _ _ _ _ hadd),
        flush_add_node_add_only order coords bufs _ _ _ _ _ hadd]
    · rw [if_neg h, if_neg h, ih _ hadd]

theorem receive_nodes_fold (ghost : Bool) (szU szR : Nat) (buf : ByteBuf)
    (entries : List (Nat × Nat × Nat)) (m : CMesh) :
    receive_nodes ghost szU szR buf entries m =
      { m with coords := entries.foldl (fun cs entry =>
        if entry.2.1 > 0 then
          cs.modify (fun c => c.append_row (unpack_node szU szR buf entry.2.2).coord_vec ghost
            (unpack_node szU szR buf entry.2.2).elems entry.1)
            (unpack_node szU szR buf entry.2.2).comp_idx
        else cs) m.coords } := by
  simp only [receive_nodes]
  induction entries generalizing m with
  | nil => rfl
  | cons entry rest ih =>
    rw [List.foldl_cons, List.foldl_cons]
    by_cases h : entry.2.1 > 0
    · rw [if_pos h, if_pos h, ih]
      rfl
    · rw [if_neg h, if_neg h, ih]

theorem create_add_only (coords : List CoordComp) :
    ∀ b ∈ coords.map (fun _ => NodeBuffers.create), b.add_only := by
  intro b hb
  obtain ⟨_, _, rfl⟩ := List.mem_map.mp hb
  exact ⟨rfl, rfl, rfl, rfl⟩

theorem unpack_nodes_messages_eq (order : Compaction) (szU szR : Nat) (mesh : CMesh)
    (globalIDs sizes idx : List Nat) (buf : ByteBuf) :
    unpack_nodes_messages order szU szR mesh globalIDs sizes idx buf =
      (receive_nodes false szU szR buf (globalIDs.zip (sizes.zip idx)) mesh, ZOLTAN_OK) := by
  simp only [unpack_nodes_messages]
  rw [unpack_nodes_fold_with order false szU szR buf mesh.coords
    (unpack_nodes_step szU szR buf) (fun _ _ => rfl) _ _ (create_add_only mesh.coords), flush_node_buffers_create, receive_nodes_fold]

theorem unpack_ghost_nodes_messages_eq (order : Compaction) (szU szR : Nat) (mesh : CMesh)
    (globalIDs sizes idx : List Nat) (buf : ByteBuf) :
    unpack_ghost_nodes_messages order szU szR mesh globalIDs sizes idx buf =
      (receive_nodes true szU szR buf (globalIDs.zip (sizes.zip idx)) mesh, ZOLTAN_OK) := by
  simp only [unpack_ghost_nodes_messages]
  rw [unpack_nodes_fold_with order true szU szR buf mesh.coords
    (unpack_ghost_nodes_step szU szR buf) (fun _ _ => rfl) _ _ (create_add_only mesh.coords), flush_node_buffers_create, receive_nodes_fold]

theorem append_rows_without_flags (g1 g2 : Bool) (szU szR : Nat) (buf : ByteBuf)
    (entries : List (Nat × Nat × Nat)) (cs1 cs2 : List CoordComp)
    (h : cs1.map CoordComp.without_flags = cs2.map CoordComp.without_flags) :
    (entries.foldl (fun cs entry =>
        if entry.2.1 > 0 then
          cs.modify (fun c => c.append_row (unpack_node szU szR buf entry.2.2).coord_vec g1
            (unpack_node szU szR buf entry.2.2).elems entry.1)
            (unpack_node szU szR buf entry.2.2).comp_idx
        else cs) cs1).map CoordComp.without_flags =
      (entries.foldl (fun cs entry =>
        if entry.2.1 > 0 then
          cs.modify (fun c => c.append_row (unpack_node szU szR buf entry.2.2).coord_vec g2
            (unpack_node szU szR buf entry.2.2).elems entry.1)
            (unpack_node szU szR buf entry.2.2).comp_idx
        else cs) cs2).map CoordComp.without_flags := by
  induction entries generalizing cs1 cs2 with
  | nil => exact h
  | cons entry rest ih =>
    rw [List.foldl_cons, List.foldl_cons]
    apply ih
    by_cases hpos : entry.2.1 > 0
    · rw [if_pos hpos, if_pos hpos]
      apply List.ext_getElem?
      intro i
      have hi : (cs1.map CoordComp.without_flags)[i]? =
          (cs2.map CoordComp.without_flags)[i]? := by rw [h]
      simp only [List.getElem?_map] at hi
      simp only [List.getElem?_map, List.getElem?_modify]
      cases h1 : cs1[i]? with
      | none =>
        cases h2 : cs2[i]? with
        | none => rfl
        | some c2 => simp [h1, h2] at hi
      | some c1 =>
        cases h2 : cs2[i]? with
        | none => simp [h1, h2] at hi
        | some c2 =>
          simp only [h1, h2, Option.map_some', Option.some.injEq, CoordComp.without_flags,
            Prod.mk.injEq] at hi
          obtain ⟨e1, e2, e3⟩ := hi
          by_cases hk : (unpack_node szU szR buf entry.2.2).comp_idx = i
          · simp [hk, CoordComp.without_flags, CoordComp.append_row, e1, e2, e3]
          · simp [hk, CoordComp.without_flags, e1, e2, e3]
    · rw [if_neg hpos, if_neg hpos]
      exact h

theorem pack_ghost_nodes_fold (szU szR : Nat) (mesh : CMesh)
    (entries : List (Nat × LocalID × Nat)) (buf : ByteBuf) :
    entries.foldl (pack_ghost_nodes_step szU szR) (mesh, buf) =
      (mesh, entries.foldl (fun b entry =>
        if entry.1 < mesh.elem_start_idx then
          write_bytes b entry.2.2 (node_message szU szR mesh entry.2.1)
        else b) buf) := by
  induction entries generalizing buf with
  | nil => rfl
  | cons entry rest ih =>
    rw [List.foldl_cons, List.foldl_cons]
    by_cases h : entry.1 < mesh.elem_start_idx
    · have hstep : pack_ghost_nodes_step szU szR (mesh, buf) entry =
          (mesh, write_bytes buf entry.2.2 (node_message szU szR mesh entry.2.1)) := by
        simp only [pack_ghost_nodes_step, if_pos h, pack_node_eq]
      rw [hstep, if_pos h, ih]
    · have hstep : pack_ghost_nodes_step szU szR (mesh, buf) entry = (mesh, buf) := by
        simp only [pack_ghost_nodes_step, if_neg h]
      rw [hstep, if_neg h, ih]

/-- Claim C16: the ghost-node pass equals the node pass up to the ghost flag.
`get_ghost_nodes_sizes` reports the sizes of `get_nodes_sizes`;
`pack_ghost_nodes_messages` leaves the same bytes in the buffer as
`pack_nodes_messages` and returns the mesh unchanged (no `is_ghost` entry is
touched); `unpack_nodes_messages` and `unpack_ghost_nodes_messages` append,
for every incoming node, one row to each of the four tables of its component,
the first with `is_ghost = false` and the second with `is_ghost = true`, so
that the coordinate, global index and referencing-element tables of the two
results are the same and the element components are those of the input. -/
theorem ghost_pass_equals_node_pass (order : Compaction) (szU szR : Nat) (mesh : CMesh)
    (globalIDs : List Nat) (localIDs : List LocalID) (sizes idx : List Nat) (buf : ByteBuf) :
    get_ghost_nodes_sizes szU szR mesh globalIDs localIDs =
      get_nodes_sizes szU szR mesh globalIDs localIDs ∧
    (pack_ghost_nodes_messages szU szR mesh globalIDs localIDs idx buf).2.1 =
      (pack_nodes_messages szU szR mesh globalIDs localIDs idx buf).2.1 ∧
    (pack_ghost_nodes_messages szU szR mesh globalIDs localIDs idx buf).1 = mesh ∧
    (pack_ghost_nodes_messages szU szR mesh globalIDs localIDs idx buf).2.2 = ZOLTAN_OK ∧
    unpack_nodes_messages order szU szR mesh globalIDs sizes idx buf =
      (receive_nodes false szU szR buf (globalIDs.zip (sizes.zip idx)) mesh, ZOLTAN_OK) ∧
    unpack_ghost_nodes_messages order szU szR mesh globalIDs sizes idx buf =
      (receive_nodes true szU szR buf (globalIDs.zip (sizes.zip idx)) mesh, ZOLTAN_OK) ∧
    (unpack_ghost_nodes_messages order szU szR mesh globalIDs sizes idx buf).1.coords.map
        CoordComp.without_flags =
      (unpack_nodes_messages order szU szR mesh globalIDs sizes idx buf).1.coords.map
        CoordComp.without_flags ∧
    (unpack_ghost_nodes_messages order szU szR mesh globalIDs sizes idx buf).1.elems =
      (unpack_nodes_messages order szU szR mesh globalIDs sizes idx buf).1.elems := by
  refine ⟨rfl, ?_, ?_, rfl, unpack_nodes_messages_eq order szU szR mesh globalIDs sizes idx buf,
    unpack_ghost_nodes_messages_eq order szU szR mesh globalIDs sizes idx buf, ?_, rfl⟩
  · simp only [pack_ghost_nodes_messages, pack_nodes_messages, pack_ghost_nodes_fold]
    exact ((pack_nodes_fold szU szR mesh _ (mesh, buf) (same_payload_refl mesh)).2).symm
  · simp only [pack_ghost_nodes_messages, pack_ghost_nodes_fold]
  · rw [unpack_nodes_messages_eq, unpack_ghost_nodes_messages_eq, receive_nodes_fold,
      receive_nodes_fold]
    exact append_rows_without_flags true false szU szR buf _ mesh.coords mesh.coords rfl

/-! ## Owner hash: range of the result -/

/-- Claim C24: the owner hash always yields a valid rank.  For `np >= 1` and
totals `nb_nodes >= np`, `nb_cells >= np`, the part size `floor(nb / np)` the
two hashes divide by is at least `1`, and for every global index the result
is at most `np - 1` (so it is the rank of one of the `np` processes). -/
theorem hash_proc_valid_rank (np : Nat) (mesh : CMesh) (glb_idx : Nat) (hnp : 1 ≤ np)
    (hnodes : np ≤ mesh.nb_nodes) (hcells : np ≤ mesh.nb_cells) :
    1 ≤ mesh.nb_nodes / np ∧ 1 ≤ mesh.nb_cells / np ∧
    hash_proc_nodes np mesh glb_idx ≤ np - 1 ∧ hash_proc_nodes np mesh glb_idx < np ∧
    hash_proc_elems np mesh glb_idx ≤ np - 1 ∧ hash_proc_elems np mesh glb_idx < np := by
  have h1 : 1 ≤ mesh.nb_nodes / np := (Nat.one_le_div_iff (by omega)).mpr hnodes
  have h2 : 1 ≤ mesh.nb_cells / np := (Nat.one_le_div_iff (by omega)).mpr hcells
  have hn : hash_proc_nodes np mesh glb_idx ≤ np - 1 := by
    simp only [hash_proc_nodes]
    split
    · exact Nat.le_refl _
    · exact Nat.min_le_left _ _
  have he : hash_proc_elems np mesh glb_idx ≤ np - 1 := by
    simp only [hash_proc_elems]
    split
    · exact Nat.le_refl _
    · exact Nat.min_le_left _ _
  exact ⟨h1, h2, hn, by omega, he, by omega⟩

/-- Witness for C24 on the sample mesh with two processes. -/
theorem hash_proc_valid_rank_witness :
    hash_proc_nodes 2 sample_mesh 7 ≤ 1 ∧ hash_proc_elems 2 sample_mesh 1 ≤ 1 :=
  have h := hash_proc_valid_rank 2 sample_mesh 7 (by decide) (by decide) (by decide)
  have h2 := hash_proc_valid_rank 2 sample_mesh 1 (by decide) (by decide) (by decide)
  ⟨h.2.2.1, h2.2.2.2.2.1⟩

/-! ## Missing global id in the local renumbering -/

theorem build_glb_to_loc_missing (cs : List CoordComp) (g : Nat)
    (hg : g ∉ (cs.flatMap glb_to_loc_pairs).map Prod.fst) :
    (build_glb_to_loc cs).at g = 0 := by
  simp only [build_glb_to_loc, StdMap.at]
  rw [foldl_glb_to_loc_rows_eq, foldl_assign_not_mem _ _ _ hg]
  rfl

/-- Claim C22 as the source behaves: `give_elems_local_node_numbers` has no
failure path.  A connectivity entry that is a global node id held by no row
of a coordinate table is looked up with `glb_to_loc[node]`, which yields `0`
for a key that is absent: every such entry becomes the row index `0`, and the
other fields of the mesh are untouched. -/
theorem missing_global_id_becomes_row_zero (mesh : CMesh) :
    (give_elems_local_node_numbers mesh).elems.length = mesh.elems.length ∧
    (give_elems_local_node_numbers mesh).coords = mesh.coords ∧
    (∀ (k : Nat) (e : CElements), mesh.elems[k]? = some e →
      ∃ e2 : CElements, (give_elems_local_node_numbers mesh).elems[k]? = some e2 ∧
        e2.connectivity_table.array =
          e.connectivity_table.array.map (fun nodes =>
            nodes.map (fun node => (build_glb_to_loc mesh.coords).at node))) ∧
    ∀ g : Nat, g ∉ (mesh.coords.flatMap glb_to_loc_pairs).map Prod.fst →
      (build_glb_to_loc mesh.coords).at g = 0 := by
  refine ⟨by simp [give_elems_local_node_numbers], rfl, ?_,
    fun g hg => build_glb_to_loc_missing mesh.coords g hg⟩
  intro k e hk
  refine ⟨⟨e.connectivity_table.map_entries (fun node => (build_glb_to_loc mesh.coords).at node),
    e.coordinates, e.global_element_indices⟩, ?_, rfl⟩
  simp only [give_elems_local_node_numbers, List.getElem?_map, hk, Option.map_some']

/-- Witness for C22: the id `9` of the sample with a missing id is held by no
row, and the lookup gives row `0`. -/
theorem missing_global_id_becomes_row_zero_witness :
    (build_glb_to_loc missing_id_mesh.coords).at 9 = 0 :=
  (missing_global_id_becomes_row_zero missing_id_mesh).2.2.2 9 (by decide)

/-- Counterexample to C22 as stated: the element of the sample refers to the
global node id `9`, which occurs in no `global_node_indices` list; the call
returns, and the entry has become the row index `0` (the row of node `5`). -/
theorem missing_global_id_is_not_fatal :
    9 ∉ resident_ids missing_id_mesh ∧
    (give_elems_local_node_numbers missing_id_mesh).elems = [⟨⟨3, [[1, 0, 0]]⟩, 0, [0]⟩] := by
  decide

/-! ## Reference graph: contributions and symmetry -/

/-- Claim C23 as the source has it: in `build_element_node_graph` ranks `0`
and `1` contribute 13 vertices each and rank `2` contributes 15 (41 in all);
the edge contributions are 38, 44 and 46 entries of `nborGID`.  On every rank
`nbNbors` has one entry per vertex and sums to the length of `nborGID`, and
`nborProc` has one entry per neighbour. -/
theorem reference_graph_contributions :
    (List.range 3).map (fun r => (build_element_node_graph r).map
      (fun graph => (graph.globalID.length, graph.nborGID.length))) =
      [some (13, 38), some (13, 44), some (15, 46)] ∧
    (List.range 3).map (fun r => (build_element_node_graph r).map
      (fun graph => (graph.nbNbors.length, graph.nbNbors.sum, graph.nborProc.length,
        graph.nborIdx.length))) =
      [some (13, 38, 38, 14), some (13, 44, 44, 14), some (15, 46, 46, 16)] ∧
    ((List.range 3).map (fun r => (reference_graph r).globalID.length)).sum = 41 := by
  decide

/-- Counterexample to C23 as stated: rank `2` contributes 15 vertices where
rank `0` contributes 13, and the three edge contributions differ. -/
theorem reference_graph_contributions_differ :
    (reference_graph 0).globalID.length ≠ (reference_graph 2).globalID.length ∧
    (reference_graph 0).nborGID.length ≠ (reference_graph 1).nborGID.length ∧
    (reference_graph 1).nborGID.length ≠ (reference_graph 2).nborGID.length := by
  decide

set_option maxRecDepth 100000 in
/-- Claim C26: the reference graph is symmetric.  Over the data of ranks `0`,
`1` and `2` together, whenever `v` is listed as a neighbour of `u`, `u` is
listed as a neighbour of `v`; the neighbours of a node (ids `1..25`) are
elements (ids `26..41`), the neighbours of an element are nodes, and the
node-side and element-side edge totals are equal. -/
theorem reference_graph_symmetric :
    (∀ p ∈ reference_adjacency, ∀ v ∈ p.2,
      ∃ q ∈ reference_adjacency, q.1 = v ∧ p.1 ∈ q.2) ∧
    (∀ p ∈ reference_adjacency, p.1 ≤ 25 → 1 ≤ p.1 ∧ ∀ v ∈ p.2, 26 ≤ v ∧ v ≤ 41) ∧
    (∀ p ∈ reference_adjacency, 25 < p.1 → p.1 ≤ 41 ∧ ∀ v ∈ p.2, 1 ≤ v ∧ v ≤ 25) ∧
    ((reference_adjacency.filter (fun p => decide (p.1 ≤ 25))).map (fun p => p.2.length)).sum =
      ((reference_adjacency.filter (fun p => decide (25 < p.1))).map (fun p => p.2.length)).sum ∧
    (reference_adjacency.map Prod.fst).Nodup ∧
    (reference_adjacency.flatMap Prod.snd).length =
      (reference_graph 0).nborGID.length + (reference_graph 1).nborGID.length +
        (reference_graph 2).nborGID.length := by
  decide

/-! ## Bytes read by the node unpacker -/

theorem unpack_node_last (szU szR : Nat) (buf : ByteBuf) (start : Nat) :
    (unpack_node szU szR buf start).last =
      start + (szU + 2 * szR + szU * (1 + (load szU buf (start + szU + 2 * szR)).1)) := by
  have e : start + szU + szR + szR = start + szU + 2 * szR := by omega
  simp only [unpack_node, load, e]
  ring

/-- Claim C27 as the source behaves: `unpack_nodes_messages` always reads
exactly two coordinates.  For an incoming node it consumes `sizeof(Uint) + 2 *
sizeof(Real) + sizeof(Uint) * (1 + count)` bytes, `count` being the word read
after the second coordinate.  For the bytes of a packed node this equals the
size `get_nodes_sizes` reported exactly when `sizeof(Real) * width +
sizeof(Uint) * n = 2 * sizeof(Real) + sizeof(Uint) * count` (`n` the number of
referencing elements), which holds whenever the coordinate row width is 2. -/
theorem unpack_node_reads_two_coordinates (szU szR : Nat) (mesh : CMesh) (glb : Nat)
    (loc : LocalID) (buf : ByteBuf) (start : Nat)
    (hnode : glb < mesh.elem_start_idx)
    (hrow : (mesh.coord_row loc).length = (mesh.coordComp loc.COMP).coordinates.row_size)
    (hcount : (mesh.glb_elems_row loc).length < 256 ^ szU)
    (hholds : holds_at buf start (node_message szU szR mesh loc)) :
    (unpack_node szU szR buf start).coord_vec.length = 2 ∧
    bytes_consumed szU szR buf start =
      szU + 2 * szR + szU * (1 + (load szU buf (start + szU + 2 * szR)).1) ∧
    ((get_nodes_sizes szU szR mesh [glb] [loc]).1 = [bytes_consumed szU szR buf start] ↔
      szR * (mesh.coordComp loc.COMP).coordinates.row_size +
          szU * (mesh.glb_elems_row loc).length =
        2 * szR + szU * (load szU buf (start + szU + 2 * szR)).1) ∧
    ((mesh.coordComp loc.COMP).coordinates.row_size = 2 →
      (get_nodes_sizes szU szR mesh [glb] [loc]).1 = [bytes_consumed szU szR buf start]) := by
  have hcons : bytes_consumed szU szR buf start =
      szU + 2 * szR + szU * (1 + (load szU buf (start + szU + 2 * szR)).1) := by
    simp only [bytes_consumed, unpack_node_last]
    omega
  have hsizes : (get_nodes_sizes szU szR mesh [glb] [loc]).1 =
      [szU + szR * (mesh.coordComp loc.COMP).coordinates.row_size +
        szU * (1 + (mesh.glb_elems_row loc).length)] := by
    simp [get_nodes_sizes, hnode]
  have hiff : (get_nodes_sizes szU szR mesh [glb] [loc]).1 = [bytes_consumed szU szR buf start] ↔
      szR * (mesh.coordComp loc.COMP).coordinates.row_size +
          szU * (mesh.glb_elems_row loc).length =
        2 * szR + szU * (load szU buf (start + szU + 2 * szR)).1 := by
    rw [hsizes, hcons]
    simp only [List.cons.injEq, and_true, Nat.mul_add, Nat.mul_one]
    constructor <;> intro h <;> omega
  refine ⟨rfl, hcons, hiff, ?_⟩
  intro hw
  rw [hiff, hw]
  simp only [node_message, holds_at_append, List.length_append, encode_word_length,
    flatMap_encode_length, hrow, hw] at hholds
  have hl := load_of_holds szU buf _ _ hholds.1.2 hcount
  have e : start + (szU + szR * 2) = start + szU + 2 * szR := by omega
  rw [e] at hl
  rw [hl]
  ring

/-- Witness for C27: row `0` of the sample mesh (row width 2). -/
theorem unpack_node_reads_two_coordinates_witness :
    (get_nodes_sizes 4 8 sample_mesh [5] [⟨0, 0⟩]).1 =
      [bytes_consumed 4 8 (pack_nodes_messages 4 8 sample_mesh [5] [⟨0, 0⟩] [0]
        (fun _ => 0)).2.1 0] :=
  (unpack_node_reads_two_coordinates 4 8 sample_mesh 5 ⟨0, 0⟩
    (pack_nodes_messages 4 8 sample_mesh [5] [⟨0, 0⟩] [0] (fun _ => 0)).2.1 0
    (by decide) (by decide) (by decide) rfl).2.2.2 (by decide)

/-- Counterexample to C27 as stated: a node with one coordinate and the
referencing elements `5, 0` (four-byte `Uint`, eight-byte `Real`).  The size
reported is 24 bytes; the unpacker takes the count from the bytes of the
second element id, which is `0`, and consumes 24 bytes as well, although the
row width is not 2. -/
theorem unpack_consumes_reported_size_for_width_one :
    (mesh_1d.coordComp 0).coordinates.row_size = 1 ∧
    (get_nodes_sizes 4 8 mesh_1d [0] [⟨0, 0⟩]).1 = [24] ∧
    bytes_consumed 4 8 (pack_nodes_messages 4 8 mesh_1d [0] [⟨0, 0⟩] [0]
      (fun _ => 0)).2.1 0 = 24 := by
  decide

/-! ## Ghost set after the element migration: literal behaviour -/

theorem foldl_toggle_eq (l : List Nat) (s : StdSet) (hnd : l.Nodup) :
    l.foldl (fun s x => if x ∉ s then insert x s else s.erase x) s = symmDiff s l.toFinset := by
  induction l generalizing s with
  | nil =>
    ext a
    simp [Finset.mem_symmDiff]
  | cons x rest ih =>
    obtain ⟨hx, hrest⟩ := List.nodup_cons.mp hnd
    rw [List.foldl_cons, ih _ hrest]
    ext a
    by_cases hs : x ∈ s
    · simp only [hs, not_true_eq_false, if_false, Finset.mem_symmDiff, Finset.mem_erase,
        List.mem_toFinset, List.mem_cons]
      by_cases ha : a = x
      · subst ha
        simp [hs, hx]
      · simp [ha]
    · simp only [hs, not_false_eq_true, if_true, Finset.mem_symmDiff, Finset.mem_insert,
        List.mem_toFinset, List.mem_cons]
      by_cases ha : a = x
      · subst ha
        simp [hs, hx]
      · simp [ha]

theorem foldl_filter_map {α β γ : Type} (l : List α) (p : α → Bool) (g : α → β)
    (f : γ → β → γ) (s : γ) :
    l.foldl (fun s i => if p i then f s (g i) else s) s = ((l.filter p).map g).foldl f s := by
  induction l generalizing s with
  | nil => rfl
  | cons a rest ih =>
    rw [List.foldl_cons, ih, List.filter_cons]
    cases p a <;> simp

theorem toggle_owned_rows_eq (c : CoordComp) (s : StdSet) :
    toggle_owned_rows c s =
      (((List.range c.coordinates.size).filter (fun i => !(c.is_ghost.getD i true))).map
        (fun i => c.global_node_indices.getD i 0)).foldl
          (fun s x => if x ∉ s then insert x s else s.erase x) s := by
  simp only [toggle_owned_rows]
  exact foldl_filter_map (List.range c.coordinates.size) (fun i => !(c.is_ghost.getD i true))
    (fun i => c.global_node_indices.getD i 0)
    (fun s x => if x ∉ s then insert x s else s.erase x) s

theorem foldl_toggle_owned_rows_eq (cs : List CoordComp) (s : StdSet) :
    cs.foldl (fun s c => toggle_owned_rows c s) s =
      (cs.flatMap (fun c =>
        ((List.range c.coordinates.size).filter (fun i => !(c.is_ghost.getD i true))).map
          (fun i => c.global_node_indices.getD i 0))).foldl
            (fun s x => if x ∉ s then insert x s else s.erase x) s := by
  induction cs generalizing s with
  | nil => rfl
  | cons c rest ih =>
    rw [List.foldl_cons, ih, List.flatMap_cons, List.foldl_append, toggle_owned_rows_eq]

theorem toggle_exported_eq (esi : Nat) (ids : List Nat) (s : StdSet) :
    toggle_exported esi ids s =
      (node_id_list esi ids).foldl (fun s x => if x ∉ s then insert x s else s.erase x) s := by
  simp only [toggle_exported, node_id_list]
  have h := foldl_filter_map ids (fun g => decide (g < esi)) (fun g => g)
    (fun (s : StdSet) x => if x ∉ s then insert x s else s.erase x) s
  simp only [List.map_id_fun', id_eq, decide_eq_true_eq] at h
  exact h

theorem erase_imported_eq (esi : Nat) (ids : List Nat) (s : StdSet) :
    erase_imported esi ids s = s \ node_ids esi ids := by
  simp only [erase_imported, node_ids]
  have h := foldl_filter_map ids (fun g => decide (g < esi)) (fun g => g)
    (fun (s : StdSet) x => if x ∈ s then s.erase x else s) s
  simp only [List.map_id_fun', id_eq, decide_eq_true_eq] at h
  rw [h, foldl_erase_eq]

/-- Claim C21: literal four-pass behaviour.  For every prior ghost set `G`,
when the ids of the locally owned rows and the exported node ids are each
free of duplicates, `post_migrate_elems` leaves the ghost set equal to `(((G
union C) symmetric-difference L) symmetric-difference E) minus I`, reports
`ZOLTAN_OK`, and no imported node id is in the result. -/
theorem post_migrate_elems_literal (mesh : CMesh) (G : StdSet)
    (importGlobalID exportGlobalID : List Nat)
    (hL : (owned_id_list mesh).Nodup)
    (hE : (node_id_list mesh.elem_start_idx exportGlobalID).Nodup) :
    (post_migrate_elems mesh G importGlobalID exportGlobalID).1 =
      symmDiff (symmDiff (G ∪ referenced_ids mesh) (owned_ids mesh))
        (node_ids mesh.elem_start_idx exportGlobalID) \
          node_ids mesh.elem_start_idx importGlobalID ∧
    (post_migrate_elems mesh G importGlobalID exportGlobalID).2 = ZOLTAN_OK ∧
    ∀ g ∈ importGlobalID, g < mesh.elem_start_idx →
      g ∉ (post_migrate_elems mesh G importGlobalID exportGlobalID).1 := by
  have hres : (post_migrate_elems mesh G importGlobalID exportGlobalID).1 =
      symmDiff (symmDiff (G ∪ referenced_ids mesh) (owned_ids mesh))
        (node_ids mesh.elem_start_idx exportGlobalID) \
          node_ids mesh.elem_start_idx importGlobalID := by
    simp only [post_migrate_elems, erase_imported_eq, toggle_exported_eq,
      foldl_toggle_owned_rows_eq, insert_connectivity_eq]
    have h2 := foldl_toggle_eq (owned_id_list mesh) (G ∪ referenced_ids mesh) hL
    simp only [owned_id_list, referenced_ids] at h2
    rw [foldl_toggle_eq _ _ hE, h2]
    rfl
  refine ⟨hres, rfl, ?_⟩
  intro g hg hnode
  rw [hres, Finset.mem_sdiff]
  rintro ⟨_, h2⟩
  apply h2
  simp only [node_ids, List.mem_toFinset, List.mem_filter, decide_eq_true_eq]
  exact ⟨hg, hnode⟩

/-- Witness for C21 on the sample mesh with `G = {6}`, import list `7, 9` and
export list `5, 8`. -/
theorem post_migrate_elems_literal_witness :
    (post_migrate_elems sample_mesh {6} [7, 9] [5, 8]).1 = {0, 1, 2, 6} :=
  (post_migrate_elems_literal sample_mesh {6} [7, 9] [5, 8] (by decide) (by decide)).1.trans
    (by decide)

/-! ## Local renumbering with shared global ids -/

theorem foldl_assign_some_mem (kvs : List (Nat × Nat)) (m : StdMap) (k : Nat)
    (hk : k ∈ kvs.map Prod.fst) :
    ∃ v, (kvs.foldl (fun m kv => m.assign kv.1 kv.2) m) k = some v ∧ (k, v) ∈ kvs := by
  induction kvs generalizing m with
  | nil => simp at hk
  | cons kv rest ih =>
    rw [List.foldl_cons]
    by_cases hrest : k ∈ rest.map Prod.fst
    · obtain ⟨v, h1, h2⟩ := ih (m.assign kv.1 kv.2) hrest
      exact ⟨v, h1, List.mem_cons_of_mem _ h2⟩
    · have hkv : k = kv.1 := by
        simp only [List.map_cons, List.mem_cons] at hk
        rcases hk with h | h
        · exact h
        · exact absurd h hrest
      refine ⟨kv.2, ?_, ?_⟩
      · rw [foldl_assign_not_mem _ _ _ hrest]
        simp [StdMap.assign, hkv]
      · rw [hkv]
        exact List.mem_cons_self _ _

theorem single_table_lookup (c : CoordComp)
    (hsize : c.coordinates.size = c.global_node_indices.length) (g : Nat)
    (hg : g ∈ c.global_node_indices) :
    (build_glb_to_loc [c]).at g < c.global_node_indices.length ∧
    c.global_node_indices.getD ((build_glb_to_loc [c]).at g) 0 = g := by
  have hkeys : g ∈ (glb_to_loc_pairs c).map Prod.fst := by
    rw [glb_to_loc_pairs_keys c hsize]
    exact hg
  obtain ⟨v, h1, h2⟩ := foldl_assign_some_mem (glb_to_loc_pairs c) (fun _ => none) g hkeys
  have hat : (build_glb_to_loc [c]).at g = v := by
    simp only [build_glb_to_loc, StdMap.at, List.foldl_cons, List.foldl_nil, glb_to_loc_rows_eq,
      h1, Option.getD_some]
  simp only [glb_to_loc_pairs, List.mem_map, List.mem_range, Prod.mk.injEq] at h2
  obtain ⟨i, hi, hgi, hiv⟩ := h2
  rw [hat, ← hiv]
  exact ⟨by rw [← hsize]; exact hi, hgi⟩

/-- Claim C28: local renumbering resolves to a row carrying the requested id.
On a mesh with a single coordinate table (as many rows as global indices) to
which every element refers, if every connectivity entry occurs in
`global_node_indices`, then after `give_elems_local_node_numbers` every entry
is a valid row index, the row it names carries the former value of the entry,
and `give_elems_global_node_numbers` applied afterwards gives back the mesh;
a global id may be held by more than one row. -/
theorem local_renumbering_resolves (mesh : CMesh) (c : CoordComp)
    (hcoords : mesh.coords = [c])
    (hsize : c.coordinates.size = c.global_node_indices.length)
    (hrefs : ∀ e ∈ mesh.elems, e.coordinates = 0)
    (hentries : ∀ e ∈ mesh.elems, ∀ row ∈ e.connectivity_table.array, ∀ n ∈ row,
      n ∈ c.global_node_indices) :
    (∀ e ∈ (give_elems_local_node_numbers mesh).elems,
      ∀ row ∈ e.connectivity_table.array, ∀ n ∈ row, n < c.global_node_indices.length) ∧
    (∀ g ∈ c.global_node_indices,
      (build_glb_to_loc mesh.coords).at g < c.global_node_indices.length ∧
      c.global_node_indices[(build_glb_to_loc mesh.coords).at g]? = some g) ∧
    give_elems_global_node_numbers (give_elems_local_node_numbers mesh) = mesh := by
  refine ⟨?_, ?_, ?_⟩
  · intro e he row hrow n hn
    simp only [give_elems_local_node_numbers, List.mem_map] at he
    obtain ⟨e0, he0, rfl⟩ := he
    simp only [CTable.map_entries, List.mem_map] at hrow
    obtain ⟨row0, hrow0, rfl⟩ := hrow
    obtain ⟨n0, hn0, rfl⟩ := List.mem_map.mp hn
    rw [hcoords]
    exact (single_table_lookup c hsize n0 (hentries e0 he0 row0 hrow0 n0 hn0)).1
  · intro g hg
    rw [hcoords]
    obtain ⟨h1, h2⟩ := single_table_lookup c hsize g hg
    refine ⟨h1, ?_⟩
    rw [List.getD_eq_getElem?_getD, List.getElem?_eq_getElem h1, Option.getD_some] at h2
    rw [List.getElem?_eq_getElem h1, h2]
  · simp only [give_elems_global_node_numbers, give_elems_local_node_numbers, List.map_map]
    rw [map_eq_self]
    intro e he
    have hc : mesh.coordComp e.coordinates = c := by
      simp [CMesh.coordComp, hrefs e he, hcoords]
    simp only [Function.comp, CTable.map_entries, List.map_map, hc]
    rw [map_eq_self]
    intro row hrow
    simp only [Function.comp, List.map_map]
    rw [map_eq_self]
    intro n hn
    have hl := (single_table_lookup c hsize n (hentries e he row hrow n hn)).2
    simpa [CMesh.coordComp, hrefs e he, hcoords] using hl

/-- Witness for C28: the global id `5` is held by rows `0` and `2`; the entry
resolves to row `2`, and the global numbering is restored. -/
theorem local_renumbering_resolves_witness :
    (give_elems_local_node_numbers shared_id_mesh).elems = [⟨⟨2, [[2, 1]]⟩, 0, [0]⟩] ∧
    give_elems_global_node_numbers (give_elems_local_node_numbers shared_id_mesh) =
      shared_id_mesh :=
  ⟨by decide, (local_renumbering_resolves shared_id_mesh
    ⟨⟨2, [[10, 11], [20, 21], [12, 13]]⟩, [false, false, true], [5, 6, 5], [[0], [0], [0]]⟩
    rfl (by decide) (by decide) (by decide)).2.2⟩

/-! ## Edge counts and edge list -/

theorem flatMap_enumFrom {α β : Type} (l : List α) (n : Nat) (f : α → List β) :
    l.flatMap f = (l.enumFrom n).flatMap (fun kx => f kx.2) := by
  conv_lhs => rw [← List.enumFrom_map_snd n l]
  rw [List.flatMap_map]

theorem range_map_getD {α : Type} (l : List α) (d : α) :
    (List.range l.length).map (fun i => l.getD i d) = l := by
  apply List.ext_getElem
  · simp
  · intro i h1 h2
    simp [List.getD_eq_getElem?_getD, List.getElem?_eq_getElem h2]

theorem elem_counts_by_ref (np : Nat) (mesh : CMesh) :
    mesh.elems.flatMap (fun e => e.connectivity_table.array.map List.length) =
      (element_refs mesh.coords.length mesh.elems).map
        (fun loc => (vertex_neighbours np mesh loc).length) ∧
    edges_from_elems np mesh =
      (element_refs mesh.coords.length mesh.elems).flatMap (vertex_neighbours np mesh) := by
  have hcomp : ∀ ke ∈ mesh.elems.enumFrom mesh.coords.length, ∀ i : Nat,
      vertex_neighbours np mesh ⟨i, ke.1⟩ =
        (ke.2.connectivity_table.array.getD i []).map (fun loc_node =>
          (mesh.node_start_idx +
              (mesh.coordComp ke.2.coordinates).global_node_indices.getD loc_node 0,
            hash_proc_nodes np mesh
              ((mesh.coordComp ke.2.coordinates).global_node_indices.getD loc_node 0))) := by
    intro ke hke i
    obtain ⟨hle, hlt, hget⟩ := List.mem_enumFrom hke
    have hk : ke.1 - mesh.coords.length < mesh.elems.length := by omega
    have hc : mesh.elemComp ke.1 = ke.2 := by
      simp only [CMesh.elemComp, if_neg (Nat.not_lt_of_le hle), List.getD_eq_getElem?_getD,
        List.getElem?_eq_getElem hk, Option.getD_some]
      exact hget.symm
    simp only [vertex_neighbours, if_neg (Nat.not_lt_of_le hle), CMesh.elem_row, hc]
  constructor
  · rw [flatMap_enumFrom _ mesh.coords.length, element_refs, List.map_flatMap]
    apply List.flatMap_congr
    intro ke hke
    conv_lhs => rw [← range_map_getD ke.2.connectivity_table.array []]
    rw [List.map_map, List.map_map, CTable.size]
    apply List.map_congr_left
    intro i _
    simp only [Function.comp, hcomp ke hke i, List.length_map]
  · rw [edges_from_elems, flatMap_enumFrom _ mesh.coords.length, element_refs,
      List.flatMap_assoc]
    apply List.flatMap_congr
    intro ke hke
    simp only [edges_from_elem_rows]
    conv_lhs => rw [← range_map_getD ke.2.connectivity_table.array []]
    rw [List.flatMap_map, List.flatMap_map, CTable.size]
    apply List.flatMap_congr
    intro i _
    exact (hcomp ke hke i).symm

theorem edges_from_elems_rows_length (np : Nat) (mesh : CMesh) :
    (edges_from_elems np mesh).length = emitted_from_elems mesh := by
  have h := elem_counts_by_ref np mesh
  rw [emitted_from_elems, h.2, List.length_flatMap, h.1]
  rfl

/-- Claim C6: the edge-count check is fatal exactly on a mismatch.  On every
rank the entries `get_edges_list_mesh` writes are the neighbours of the node
vertices followed by the neighbours of the element vertices, one entry for
each referencing element of each non-ghost row and one for each entry of each
connectivity row.  It reports `ZOLTAN_FATAL` exactly when the sum over all
ranks of the number of entries written for node vertices differs from the sum
over all ranks of the number written for element vertices, and `ZOLTAN_OK`
otherwise; every rank reports the same status. -/
theorem get_edges_list_mesh_fatal_iff_mismatch (world : List CMesh) (mesh other : CMesh) :
    (get_edges_list_mesh world mesh).nbor =
      edges_from_nodes world.length mesh ++ edges_from_elems world.length mesh ∧
    (edges_from_nodes world.length mesh).length = emitted_from_nodes mesh ∧
    (edges_from_elems world.length mesh).length = emitted_from_elems mesh ∧
    ((get_edges_list_mesh world mesh).ierr = ZOLTAN_FATAL ↔
      (world.map emitted_from_nodes).sum ≠ (world.map emitted_from_elems).sum) ∧
    ((get_edges_list_mesh world mesh).ierr = ZOLTAN_OK ↔
      (world.map emitted_from_nodes).sum = (world.map emitted_from_elems).sum) ∧
    (get_edges_list_mesh world other).ierr = (get_edges_list_mesh world mesh).ierr := by
  have hn : (world.map (fun m => (edges_from_nodes world.length m).length)) =
      world.map emitted_from_nodes :=
    List.map_congr_left (fun m _ => edges_from_nodes_length world.length m)
  have he : (world.map (fun m => (edges_from_elems world.length m).length)) =
      world.map emitted_from_elems :=
    List.map_congr_left (fun m _ => edges_from_elems_rows_length world.length m)
  refine ⟨rfl, edges_from_nodes_length _ _, edges_from_elems_rows_length _ _, ?_, ?_, rfl⟩
  · simp only [get_edges_list_mesh, all_reduce_plus, hn, he]
    split <;> simp_all
  · simp only [get_edges_list_mesh, all_reduce_plus, hn, he]
    split <;> simp_all

/-- The check on two process groups: the two ranks sharing one triangle emit
three edges on either side and both report `ZOLTAN_OK`; the sample mesh taken
alone emits two edges from its nodes and three from its element and reports
`ZOLTAN_FATAL`. -/
theorem edge_count_check_examples :
    (sample_world.map emitted_from_nodes).sum = 3 ∧
    (sample_world.map emitted_from_elems).sum = 3 ∧
    (sample_world.map (fun m => (get_edges_list_mesh sample_world m).ierr)) =
      [ZOLTAN_OK, ZOLTAN_OK] ∧
    ([sample_mesh].map emitted_from_nodes).sum = 2 ∧
    ([sample_mesh].map emitted_from_elems).sum = 3 ∧
    (get_edges_list_mesh [sample_mesh] sample_mesh).ierr = ZOLTAN_FATAL := by
  decide

end ZoltanTests

namespace mpi

/-! ## Group registry: properties -/

theorem find_isSome_iff (m : GroupMap) (name : String) :
    (m.find name).isSome ↔ name ∈ m.map Prod.fst := by
  simp only [GroupMap.find, List.find?_isSome, List.mem_map, beq_iff_eq]

theorem find_eq_none_iff (m : GroupMap) (name : String) :
    m.find name = none ↔ name ∉ m.map Prod.fst := by
  rw [← find_isSome_iff]
  cases m.find name <;> simp

theorem mem_erase_iff (m : GroupMap) (name : String) (hkeys : (m.map Prod.fst).Nodup)
    (g : String × Communicator) :
    g ∈ m.erase name ↔ g ∈ m ∧ g.1 ≠ name := by
  induction m with
  | nil => simp [GroupMap.erase]
  | cons a rest ih =>
    simp only [List.map_cons, List.nodup_cons] at hkeys
    simp only [GroupMap.erase] at ih ⊢
    by_cases ha : a.1 = name
    · simp only [List.eraseP_cons, ha, beq_self_eq_true, cond_true]
      constructor
      · intro hg
        refine ⟨List.mem_cons_of_mem _ hg, ?_⟩
        intro hgn
        apply hkeys.1
        rw [ha, ← hgn]
        exact List.mem_map_of_mem _ hg
      · rintro ⟨hg, hgn⟩
        rcases List.mem_cons.mp hg with h | h
        · exact absurd (h ▸ ha) hgn
        · exact h
    · have hb : (a.1 == name) = false := by simp [ha]
      simp only [List.eraseP_cons, hb, cond_false, List.mem_cons, ih hkeys.2]
      constructor
      · rintro (h | h)
        · exact ⟨Or.inl h, h ▸ ha⟩
        · exact ⟨Or.inr h.1, h.2⟩
      · rintro ⟨h | h, hn⟩
        · exact Or.inl h
        · exact Or.inr ⟨h, hn⟩

theorem group_registry_checks (self : CPEManager) (name : String)
    (spawned : Except Failure Communicator) (registered notified stopped sent : Option Failure)
    (hkeys : self.group_names.Nodup) :
    (name ∈ self.group_names →
      self.spawn_group name spawned registered = (self, some Failure.ValueExists)) ∧
    (name ∉ self.group_names →
      self.kill_group name none notified stopped = (self, some Failure.ValueNotFound) ∧
      self.send_to name sent = (self, some Failure.ValueNotFound)) ∧
    (self.send_to name sent).1 = self ∧
    (name ∈ self.group_names →
      (self.kill_group name none none none).2 = some Failure.invalid_iterator ∧
      ∀ g : String × Communicator,
        g ∈ (self.kill_group name none none none).1.m_groups ↔ g ∈ self.m_groups ∧ g.1 ≠ name) ∧
    (name ∉ self.group_names → ∀ comm : Communicator,
      (self.spawn_group name (Except.ok comm) none).2 = some Failure.mismatched_delete ∧
      ∀ g : String × Communicator,
        g ∈ (self.spawn_group name (Except.ok comm) none).1.m_groups ↔
          g = (name, comm) ∨ g ∈ self.m_groups) := by
  have hfind := find_isSome_iff self.m_groups name
  have hnone := find_eq_none_iff self.m_groups name
  refine ⟨?_, ?_, ?_, ?_, ?_⟩
  · intro hname
    simp only [CPEManager.spawn_group, if_pos (hfind.mpr hname)]
  · intro hname
    have hf : self.m_groups.find name = none := hnone.mpr hname
    simp only [CPEManager.kill_group, CPEManager.send_to, hf, and_self]
  · simp only [CPEManager.send_to]
    cases self.m_groups.find name <;> rfl
  · intro hname
    have hsome := hfind.mpr hname
    cases hf : self.m_groups.find name with
    | none => simp [hf] at hsome
    | some it =>
      simp only [CPEManager.kill_group, hf, ite_self]
      exact ⟨trivial, fun g => mem_erase_iff self.m_groups name hkeys g⟩
  · intro hname comm
    have hno : ¬ (self.m_groups.find name).isSome = true := fun h => hname (hfind.mp h)
    simp only [CPEManager.spawn_group, if_neg hno, GroupMap.assign, true_and]
    intro g
    exact List.mem_orderedInsert _

theorem size_minus_one_of_pos (size_bits size : Nat) (hpos : 0 < size)
    (hsize : size < 2 ^ size_bits) : size_minus_one size_bits size = size - 1 := by
  have hp : 0 < 2 ^ size_bits := Nat.pow_pos (by decide)
  have e : size + 2 ^ size_bits - 1 = (size - 1) + 2 ^ size_bits := by omega
  rw [size_minus_one, e, Nat.add_mod_right, Nat.mod_eq_of_lt (by omega)]

theorem fill_groups_behind_end (entries : GroupMap) (i : Nat) (groups : List (Option String))
    (hne : entries ≠ []) (hlen : groups.length + 1 = i + entries.length) :
    fill_groups i entries groups =
      Except.error (Failure.out_of_bounds groups.length groups.length) := by
  induction entries generalizing i groups with
  | nil => exact absurd rfl hne
  | cons g rest ih =>
    cases rest with
    | nil =>
      have hi : i = groups.length := by simpa using hlen.symm
      simp [fill_groups, hi]
    | cons g2 rest2 =>
      have hi : i < groups.length := by
        simp only [List.length_cons] at hlen
        omega
      rw [fill_groups, if_pos hi, ih (i + 1) _ (List.cons_ne_nil _ _)
        (by simp only [List.length_set, List.length_cons] at hlen ⊢; omega), List.length_set]

theorem signature_kill_group_behind_end (size_bits max_size : Nat) (self : CPEManager)
    (hne : self.m_groups ≠ []) (hsize : self.m_groups.length < 2 ^ size_bits)
    (hmax : self.m_groups.length - 1 ≤ max_size) :
    self.signature_kill_group size_bits max_size =
      Except.error (Failure.out_of_bounds (self.m_groups.length - 1)
        (self.m_groups.length - 1)) := by
  have hpos : 0 < self.m_groups.length := List.length_pos.mpr hne
  simp only [CPEManager.signature_kill_group, size_minus_one_of_pos _ _ hpos hsize,
    vector_create, if_neg (Nat.not_lt_of_le hmax)]
  cases hm : self.m_groups with
  | nil => exact absurd hm hne
  | cons first rest =>
    have hfill := fill_groups_behind_end (first :: rest) 0
      (List.replicate ((first :: rest).length - 1) none) (List.cons_ne_nil _ _)
      (by simp)
    simp only [hfill, List.length_replicate]

theorem signature_kill_group_empty (size_bits max_size : Nat)
    (hmax : max_size < 2 ^ size_bits - 1) :
    (⟨[]⟩ : CPEManager).signature_kill_group size_bits max_size =
      Except.error Failure.length_error := by
  have hp : 0 < 2 ^ size_bits := Nat.pow_pos (by decide)
  have e : size_minus_one size_bits 0 = 2 ^ size_bits - 1 := by
    simp only [size_minus_one, Nat.zero_add]
    exact Nat.mod_eq_of_lt (by omega)
  simp only [CPEManager.signature_kill_group, List.length_nil, e, vector_create, if_pos hmax]

/-- Claim C30 on managers with one and with two groups, and on a manager
without groups (64-bit `size_t`, `max_size()` of `2^60 - 1`): the vector
`groups` is created with `m_groups.size() - 1` elements, so with one group
index `0` is written into a vector of length `0`, with two groups index `1`
into a vector of length `1`; without groups the length wraps to `2^64 - 1` and
the constructor throws `std::length_error` before the emptiness test. -/
theorem signature_kill_group_writes_behind_end :
    one_group.signature_kill_group 64 (2 ^ 60 - 1) =
      Except.error (Failure.out_of_bounds 0 0) ∧
    two_groups.signature_kill_group 64 (2 ^ 60 - 1) =
      Except.error (Failure.out_of_bounds 1 1) ∧
    (⟨[]⟩ : CPEManager).signature_kill_group 64 (2 ^ 60 - 1) =
      Except.error Failure.length_error :=
  ⟨rfl, rfl, rfl⟩

end mpi
